import Mathlib

set_option maxHeartbeats 1000000

/-!
Verification of the Shopify multi-tenant ingestion service
(`main.py`, `models.py`), as a shallow embedding.

Modelling conventions:

* The relational store is a record of lists of rows, one list per table of
  `models.py`.  Internal primary keys (`id` columns) are generated at flush
  time; the engine/session module (`database.py`) is not among the analysed
  sources, so id generation is modelled deterministically as
  `1 + max of the ids already in the table` (a fresh id), and — following the
  spec's description of the session ("forcing a write/flush to obtain a
  generated id", and upserts that see rows staged earlier in the same call) —
  queries issued during a run see the rows staged so far (SQLAlchemy sessions
  autoflush pending rows before a query by default).
* A SQLAlchemy `query(...).filter(...).first()` is `List.find?` on the table;
  mutating the returned ORM object is `updateFirst` (update of the first
  matching row).
* `DECIMAL(10, 2)` money columns are modelled as integers counting
  hundredths (fixed-point with two fractional digits); `parseDecimal2` /
  `formatDecimal2` translate between decimal strings such as "19.99" and
  that representation.
* A batch is durable in full or not at all: the transaction is committed
  only by the `db.commit()` closing each endpoint, and an `IntegrityError`
  anywhere in the call leaves it uncommitted and discarded.  `commitBatch` /
  `IngestStatus` capture exactly this durable-store effect (conflict = the
  batch was discarded, ok = it became durable; a missing tenant yields 404).
  Where the violation *surfaces* differs by raise site: only `db.commit()`
  sits in a `try/except IntegrityError` (main.py lines 87-91, 161-165,
  247-251, answering 409), while the `db.flush()` calls of lines 131 and 217
  and the session's autoflush before each query are unguarded, so a
  violation raised at one of them escapes as an uncaught `IntegrityError`
  (HTTP 500).  The refinement `ingest_customers_http` /
  `ingest_products_http` / `ingest_orders_http` over `HttpStatus` locates,
  per endpoint, which violations are caught (409) and which escape (500).
* JSON field access by `.get(...)` yields `Option` values for nullable
  attributes; the external ids used as lookup keys are carried as `Int`
  (`BigInteger` columns).
-/

/-- Update the first element of a list satisfying `p` (this models mutating
the single ORM object returned by a `.first()` query). -/
def updateFirst {α : Type} (p : α → Bool) (f : α → α) : List α → List α
  | [] => []
  | x :: xs => if p x then f x :: xs else x :: updateFirst p f xs

/-- A fresh primary key for a table whose current ids are `ids`. -/
def freshId (ids : List Nat) : Nat := ids.foldr max 0 + 1

theorem le_foldr_max (ids : List Nat) : ∀ x ∈ ids, x ≤ ids.foldr max 0 := by
  induction ids with
  | nil => intro x hx; cases hx
  | cons a l ih =>
    intro x hx
    rcases List.mem_cons.mp hx with h | h
    · subst h; exact Nat.le_max_left _ _
    · exact Nat.le_trans (ih x h) (Nat.le_max_right _ _)

theorem freshId_not_mem (ids : List Nat) : freshId ids ∉ ids := by
  intro h
  have := le_foldr_max ids _ h
  simp only [freshId] at this
  omega

section Table

variable {Row K F : Type} [DecidableEq K]
variable (key : Row → K) (setF : F → Row → Row)

/-- The first row of table `l` whose key is `k` (a `.filter(...).first()`). -/
def rowAt (k : K) (l : List Row) : Option Row :=
  l.find? fun r => decide (key r = k)

/-- Overwrite the mutable fields of the first row with key `k`. -/
def updRow (k : K) (f : F) (l : List Row) : List Row :=
  updateFirst (fun r => decide (key r = k)) (setF f) l

/-- Overwrite, for every key in the domain of `g`, the mutable fields of the
rows carrying that key.  This is a ghost combinator used only to state the
replay lemmas behind idempotence; it does not model source code. -/
def owT (g : K → Option F) (l : List Row) : List Row :=
  l.map fun r => match g (key r) with
    | some f => setF f r
    | none => r

/-- The keys of a table are pairwise distinct. -/
def keysND (l : List Row) : Prop := (l.map key).Nodup

instance (l : List Row) : Decidable (keysND key l) := by
  unfold keysND
  infer_instance

theorem key_owT_apply (hk : ∀ f r, key (setF f r) = key r)
    (g : K → Option F) (r : Row) :
    key (match g (key r) with | some f => setF f r | none => r) = key r := by
  cases g (key r) <;> simp [hk]

theorem owT_cons (g : K → Option F) (x : Row) (xs : List Row) :
    owT key setF g (x :: xs) =
      (match g (key x) with | some f => setF f x | none => x) ::
        owT key setF g xs := rfl

theorem updRow_cons (k : K) (f : F) (x : Row) (xs : List Row) :
    updRow key setF k f (x :: xs) =
      if key x = k then setF f x :: xs else x :: updRow key setF k f xs := by
  by_cases hx : key x = k <;> simp [updRow, updateFirst, hx]

theorem rowAt_cons (k : K) (x : Row) (xs : List Row) :
    rowAt key k (x :: xs) =
      if key x = k then some x else rowAt key k xs := by
  by_cases hx : key x = k
  · have h : decide (key x = k) = true := by simp [hx]
    simp [rowAt, List.find?_cons_of_pos _ h, hx]
  · have h : ¬ (decide (key x = k) = true) := by simp [hx]
    simp [rowAt, List.find?_cons_of_neg _ h, hx]

theorem rowAt_owT (hk : ∀ f r, key (setF f r) = key r)
    (g : K → Option F) (k : K) (l : List Row) :
    rowAt key k (owT key setF g l) =
      (rowAt key k l).map
        (fun r => match g k with | some f => setF f r | none => r) := by
  induction l with
  | nil => rfl
  | cons x xs ih =>
    rw [owT_cons, rowAt_cons, rowAt_cons]
    rw [key_owT_apply key setF hk g x]
    by_cases hx : key x = k
    · rw [if_pos hx, if_pos hx, hx]
      rfl
    · rw [if_neg hx, if_neg hx, ih]

theorem isSome_rowAt_owT (hk : ∀ f r, key (setF f r) = key r)
    (g : K → Option F) (k : K) (l : List Row) :
    (rowAt key k (owT key setF g l)).isSome = (rowAt key k l).isSome := by
  rw [rowAt_owT key setF hk g k l]
  cases rowAt key k l <;> rfl

theorem rowAt_owT_proj {α : Type} (h : Row → α)
    (hinv : ∀ f r, h (setF f r) = h r) (hk : ∀ f r, key (setF f r) = key r)
    (g : K → Option F) (k : K) (l : List Row) :
    (rowAt key k (owT key setF g l)).map h = (rowAt key k l).map h := by
  rw [rowAt_owT key setF hk g k l]
  cases rowAt key k l with
  | none => rfl
  | some r =>
    cases g k with
    | none => rfl
    | some f => exact congrArg some (hinv f r)

theorem owT_congr {g g' : K → Option F} (l : List Row)
    (h : ∀ r ∈ l, g (key r) = g' (key r)) : owT key setF g l = owT key setF g' l := by
  induction l with
  | nil => rfl
  | cons x xs ih =>
    rw [owT_cons, owT_cons, h x (List.mem_cons_self _ _),
      ih fun r hr => h r (List.mem_cons_of_mem _ hr)]

theorem owT_none (l : List Row) : owT key setF (fun _ => none) l = l := by
  simp [owT]

theorem owT_id {g : K → Option F} (l : List Row)
    (h : ∀ r ∈ l, ∀ f, g (key r) = some f → setF f r = r) :
    owT key setF g l = l := by
  induction l with
  | nil => rfl
  | cons x xs ih =>
    rw [owT_cons, ih fun r hr f hf => h r (List.mem_cons_of_mem _ hr) f hf]
    congr 1
    cases hg : g (key x) with
    | none => rfl
    | some f => exact h x (List.mem_cons_self _ _) f hg

theorem map_owT {α : Type} (h : Row → α) (hinv : ∀ f r, h (setF f r) = h r)
    (g : K → Option F) (l : List Row) : (owT key setF g l).map h = l.map h := by
  induction l with
  | nil => rfl
  | cons x xs ih =>
    rw [owT_cons, List.map_cons, List.map_cons, ih]
    congr 1
    cases g (key x) <;> simp [hinv]

theorem map_updateFirst {α β : Type} (p : α → Bool) (f : α → α) (h : α → β)
    (hpf : ∀ a, p a = true → h (f a) = h a) :
    ∀ l : List α, (updateFirst p f l).map h = l.map h := by
  intro l
  induction l with
  | nil => rfl
  | cons x xs ih =>
    by_cases hx : p x = true
    · simp [updateFirst, hx, hpf x hx]
    · simp only [updateFirst, hx, if_neg, Bool.not_eq_true] at *
      simp [hx, ih]

theorem map_updRow {α : Type} (h : Row → α) (hinv : ∀ f r, h (setF f r) = h r)
    (k : K) (f : F) (l : List Row) : (updRow key setF k f l).map h = l.map h := by
  unfold updRow
  apply map_updateFirst
  intro a _
  exact hinv f a

theorem keys_updRow (hk : ∀ f r, key (setF f r) = key r) (k : K) (f : F) (l : List Row) :
    (updRow key setF k f l).map key = l.map key :=
  map_updRow key setF key hk k f l

theorem updRow_owT (hk : ∀ f r, key (setF f r) = key r)
    (hss : ∀ f f' r, setF f (setF f' r) = setF f r)
    {g : K → Option F} {l : List Row} (k : K) (f : F)
    (hnd : keysND key l) :
    updRow key setF k f (owT key setF g l) =
      owT key setF (fun k' => if k' = k then some f else g k') l := by
  induction l with
  | nil => rfl
  | cons x xs ih =>
    have hnd' : keysND key xs := (List.nodup_cons.mp hnd).2
    have hninx : key x ∉ xs.map key := (List.nodup_cons.mp hnd).1
    rw [owT_cons, updRow_cons, key_owT_apply key setF hk g x, owT_cons]
    by_cases hx : key x = k
    · rw [if_pos hx, hx, if_pos rfl]
      congr 1
      · cases g k with
        | none => rfl
        | some f' => exact hss f f' x
      · -- no row of the tail has key `k`, so the extended map agrees with `g`
        apply owT_congr
        intro r hr
        have hrk : key r ≠ k := by
          intro hrkk
          exact hninx (hx ▸ hrkk ▸ List.mem_map_of_mem key hr)
        simp [hrk]
    · rw [if_neg hx, if_neg hx, ih hnd']

theorem rowAt_updRow_self (hk : ∀ f r, key (setF f r) = key r)
    (k : K) (f : F) (l : List Row) :
    rowAt key k (updRow key setF k f l) = (rowAt key k l).map (setF f) := by
  induction l with
  | nil => rfl
  | cons x xs ih =>
    rw [updRow_cons, rowAt_cons]
    by_cases hx : key x = k
    · rw [if_pos hx, if_pos hx, rowAt_cons]
      rw [if_pos (by rw [hk]; exact hx)]
      simp
    · rw [if_neg hx, if_neg hx, rowAt_cons, if_neg hx, ih]

theorem rowAt_updRow_ne (hk : ∀ f r, key (setF f r) = key r)
    {k k' : K} (hkk : k ≠ k') (f : F) (l : List Row) :
    rowAt key k (updRow key setF k' f l) = rowAt key k l := by
  induction l with
  | nil => rfl
  | cons x xs ih =>
    rw [updRow_cons, rowAt_cons]
    by_cases hx : key x = k'
    · rw [if_pos hx, rowAt_cons]
      have h1 : key (setF f x) ≠ k := by rw [hk, hx]; exact fun h => hkk h.symm
      have h2 : key x ≠ k := by rw [hx]; exact fun h => hkk h.symm
      rw [if_neg h1, if_neg h2]
    · rw [if_neg hx, rowAt_cons, ih]

theorem rowAt_append (k : K) (l l' : List Row) :
    rowAt key k (l ++ l') = (rowAt key k l).or (rowAt key k l') := by
  simp [rowAt, List.find?_append]

theorem keysND_updRow (hk : ∀ f r, key (setF f r) = key r) (k : K) (f : F)
    {l : List Row} (hnd : keysND key l) : keysND key (updRow key setF k f l) := by
  unfold keysND
  rw [keys_updRow key setF hk]
  exact hnd

theorem keysND_append_singleton {l : List Row} {r : Row} (hnd : keysND key l)
    (hnone : rowAt key (key r) l = none) : keysND key (l ++ [r]) := by
  unfold keysND
  rw [List.map_append]
  apply List.Nodup.append hnd (List.nodup_singleton _)
  intro k hk1 hk2
  simp only [List.map_cons, List.map_nil, List.mem_singleton] at hk2
  subst hk2
  rcases List.mem_map.mp hk1 with ⟨r', hr', hkr⟩
  have hsome : rowAt key (key r') l ≠ none := by
    intro hn
    unfold rowAt at hn
    rw [List.find?_eq_none] at hn
    exact absurd (by simp : decide (key r' = key r') = true) (hn r' hr')
  rw [hkr] at hsome
  exact hsome hnone

theorem rowAt_append_singleton_ne (k : K) (l : List Row) (r : Row)
    (hne : ¬ key r = k) : rowAt key k (l ++ [r]) = rowAt key k l := by
  rw [rowAt_append, rowAt_cons, if_neg hne]
  cases rowAt key k l <;> rfl

theorem rowAt_append_singleton_self (k : K) (l : List Row) (r : Row)
    (hk : key r = k) (hnone : rowAt key k l = none) :
    rowAt key k (l ++ [r]) = some r := by
  rw [rowAt_append, hnone, rowAt_cons, if_pos hk]
  rfl

theorem rowAt_eq_none_iff (k : K) (l : List Row) :
    rowAt key k l = none ↔ ∀ r ∈ l, ¬ key r = k := by
  unfold rowAt
  rw [List.find?_eq_none]
  simp

theorem length_updRow (k : K) (f : F) (l : List Row) :
    (updRow key setF k f l).length = l.length := by
  unfold updRow
  induction l with
  | nil => rfl
  | cons x xs ih =>
    by_cases hx : decide (key x = k) = true <;> simp [updateFirst, hx, ih]

theorem rowAt_mem_nodup {l : List Row} (hnd : keysND key l) {r : Row}
    (hr : r ∈ l) : rowAt key (key r) l = some r := by
  induction l with
  | nil => cases hr
  | cons x xs ih =>
    rcases List.mem_cons.mp hr with h | h
    · subst h
      rw [rowAt_cons, if_pos rfl]
    · have hnd' : keysND key xs := (List.nodup_cons.mp hnd).2
      have hninx : key x ∉ xs.map key := (List.nodup_cons.mp hnd).1
      rw [rowAt_cons, if_neg, ih hnd' h]
      intro hxr
      exact hninx (hxr ▸ List.mem_map_of_mem key h)

end Table

/-! ## Data model (`models.py`) and payload shapes -/

/-- Row of table `tenants` (models.py lines 6-15; timestamp columns and ORM
relationship attributes are not modelled). -/
structure Tenant where
  id : Nat
  shop_name : String
  access_token : String
deriving DecidableEq, Repr

/-- Row of table `customers` (models.py lines 17-29).  `shopify_customer_id`
is a `unique=True` column. -/
structure Customer where
  id : Nat
  tenant_id : Nat
  shopify_customer_id : Int
  first_name : Option String
  last_name : Option String
  email : Option String
  phone : Option String
deriving DecidableEq, Repr

/-- Row of table `products` (models.py lines 31-42).  `shopify_product_id`
is a `unique=True` column. -/
structure Product where
  id : Nat
  tenant_id : Nat
  shopify_product_id : Int
  title : Option String
  vendor : Option String
  product_type : Option String
deriving DecidableEq, Repr

/-- Row of table `product_variants` (models.py lines 44-57).
`shopify_variant_id` is a `unique=True` column; `price` and `weight` are
`DECIMAL(10, 2)` columns carried as integer numbers of hundredths. -/
structure ProductVariant where
  id : Nat
  product_id : Nat
  shopify_variant_id : Int
  title : Option String
  price : Option Int
  sku : Option String
  weight : Option Int
  weight_unit : Option String
deriving DecidableEq, Repr

/-- Row of table `orders` (models.py lines 59-71).  `shopify_order_id` is a
`unique=True` column; `customer_id` is a nullable foreign key. -/
structure Order where
  id : Nat
  tenant_id : Nat
  customer_id : Option Nat
  shopify_order_id : Int
  total_price : Option Int
  currency : Option String
deriving DecidableEq, Repr

/-- Row of table `order_line_items` (models.py lines 73-82); note the table
declares no uniqueness constraint beyond the primary key. -/
structure OrderLineItem where
  id : Nat
  order_id : Nat
  variant_id : Nat
  quantity : Option Int
  price : Option Int
deriving DecidableEq, Repr

/-- One customer object of the upstream payload (the fields read by
main.py lines 61-84). -/
structure CustomerRecord where
  id : Int
  first_name : Option String
  last_name : Option String
  email : Option String
  phone : Option String
deriving DecidableEq, Repr

/-- One variant object nested in a product payload (main.py lines 138-158). -/
structure VariantRecord where
  id : Int
  title : Option String
  price : Option Int
  sku : Option String
  weight : Option Int
  weight_unit : Option String
deriving DecidableEq, Repr

/-- One product object of the upstream payload (main.py lines 110-136). -/
structure ProductRecord where
  id : Int
  title : Option String
  vendor : Option String
  product_type : Option String
  variants : List VariantRecord
deriving DecidableEq, Repr

/-- One line-item object nested in an order payload (main.py lines 224-243);
`variant_id` is the external variant id. -/
structure LineItemRecord where
  variant_id : Int
  quantity : Option Int
  price : Option Int
deriving DecidableEq, Repr

/-- The customer sub-record optionally embedded in an order payload
(main.py lines 188-190). -/
structure OrderCustomer where
  id : Int
deriving DecidableEq, Repr

/-- One order object of the upstream payload (main.py lines 184-245). -/
structure OrderRecord where
  id : Int
  customer : Option OrderCustomer
  total_price : Option Int
  currency : Option String
  line_items : List LineItemRecord
deriving DecidableEq, Repr

/-- The whole relational store, one list of rows per table. -/
structure Store where
  tenants : List Tenant
  customers : List Customer
  products : List Product
  product_variants : List ProductVariant
  orders : List Order
  order_line_items : List OrderLineItem
deriving DecidableEq, Repr

/-! ### Lookup keys and the mutable-field updates of each upsert -/

/-- Lookup key of the customer upsert: `(shopify_customer_id, tenant_id)`
(main.py lines 64-67). -/
def Customer.key (r : Customer) : Int × Nat := (r.shopify_customer_id, r.tenant_id)

/-- The fields overwritten on an existing customer row. -/
structure CustomerFields where
  first_name : Option String
  last_name : Option String
  email : Option String
  phone : Option String
deriving DecidableEq, Repr

/-- The update of main.py lines 71-74. -/
def Customer.setFields (f : CustomerFields) (r : Customer) : Customer :=
  { r with first_name := f.first_name, last_name := f.last_name,
           email := f.email, phone := f.phone }

def Customer.getFields (r : Customer) : CustomerFields :=
  ⟨r.first_name, r.last_name, r.email, r.phone⟩

def CustomerRecord.fields (c : CustomerRecord) : CustomerFields :=
  ⟨c.first_name, c.last_name, c.email, c.phone⟩

/-- Lookup key of the product upsert: `(shopify_product_id, tenant_id)`
(main.py lines 113-116). -/
def Product.key (r : Product) : Int × Nat := (r.shopify_product_id, r.tenant_id)

structure ProductFields where
  title : Option String
  vendor : Option String
  product_type : Option String
deriving DecidableEq, Repr

/-- The update of main.py lines 119-121. -/
def Product.setFields (f : ProductFields) (r : Product) : Product :=
  { r with title := f.title, vendor := f.vendor, product_type := f.product_type }

def Product.getFields (r : Product) : ProductFields := ⟨r.title, r.vendor, r.product_type⟩

def ProductRecord.fields (p : ProductRecord) : ProductFields := ⟨p.title, p.vendor, p.product_type⟩

/-- Lookup key of the variant upsert: `shopify_variant_id` alone, with no
tenant or product scoping (main.py lines 139-141). -/
def ProductVariant.key (r : ProductVariant) : Int := r.shopify_variant_id

structure VariantFields where
  title : Option String
  price : Option Int
  sku : Option String
  weight : Option Int
  weight_unit : Option String
deriving DecidableEq, Repr

/-- The update of main.py lines 144-148; note that `product_id` is not
among the updated columns. -/
def ProductVariant.setFields (f : VariantFields) (r : ProductVariant) : ProductVariant :=
  { r with title := f.title, price := f.price, sku := f.sku,
           weight := f.weight, weight_unit := f.weight_unit }

def ProductVariant.getFields (r : ProductVariant) : VariantFields :=
  ⟨r.title, r.price, r.sku, r.weight, r.weight_unit⟩

def VariantRecord.fields (v : VariantRecord) : VariantFields :=
  ⟨v.title, v.price, v.sku, v.weight, v.weight_unit⟩

/-- Lookup key of the order upsert: `(shopify_order_id, tenant_id)`
(main.py lines 199-202). -/
def Order.key (r : Order) : Int × Nat := (r.shopify_order_id, r.tenant_id)

structure OrderFields where
  total_price : Option Int
  currency : Option String
  customer_id : Option Nat
deriving DecidableEq, Repr

/-- The update of main.py lines 205-207. -/
def Order.setFields (f : OrderFields) (r : Order) : Order :=
  { r with total_price := f.total_price, currency := f.currency,
           customer_id := f.customer_id }

def Order.getFields (r : Order) : OrderFields := ⟨r.total_price, r.currency, r.customer_id⟩

/-- Lookup key of the line-item upsert: the pair of internal ids
`(order_id, variant_id)` (main.py lines 230-233). -/
def OrderLineItem.key (r : OrderLineItem) : Nat × Nat := (r.order_id, r.variant_id)

structure LineItemFields where
  quantity : Option Int
  price : Option Int
deriving DecidableEq, Repr

/-- The update of main.py lines 236-237. -/
def OrderLineItem.setFields (f : LineItemFields) (r : OrderLineItem) : OrderLineItem :=
  { r with quantity := f.quantity, price := f.price }

def OrderLineItem.getFields (r : OrderLineItem) : LineItemFields := ⟨r.quantity, r.price⟩

def LineItemRecord.fields (li : LineItemRecord) : LineItemFields := ⟨li.quantity, li.price⟩

/-! ### The reconciliation loops of `main.py` -/

/-- The customer row constructed by main.py lines 77-84. -/
def newCustomer (tenant_id : Nat) (s : Store) (c : CustomerRecord) : Customer :=
  { id := freshId (s.customers.map (·.id)),
    tenant_id := tenant_id,
    shopify_customer_id := c.id,
    first_name := c.first_name, last_name := c.last_name,
    email := c.email, phone := c.phone }

/-- One iteration of the customer loop (main.py lines 60-85). -/
def customerStep (tenant_id : Nat) (s : Store) (c : CustomerRecord) : Store :=
  match rowAt Customer.key (c.id, tenant_id) s.customers with
  | some _ =>
      { s with customers :=
          (updRow Customer.key Customer.setFields (c.id, tenant_id) c.fields s.customers) }
  | none =>
      { s with customers := s.customers ++ [newCustomer tenant_id s c] }

/-- The whole customer reconciliation loop (main.py lines 60-85). -/
def stageCustomers (tenant_id : Nat) (s : Store) (payload : List CustomerRecord) : Store :=
  payload.foldl (customerStep tenant_id) s

/-- The variant row constructed by main.py lines 150-158. -/
def newVariant (product_id_to_link : Nat) (s : Store) (v : VariantRecord) : ProductVariant :=
  { id := freshId (s.product_variants.map (·.id)),
    product_id := product_id_to_link,
    shopify_variant_id := v.id,
    title := v.title, price := v.price, sku := v.sku,
    weight := v.weight, weight_unit := v.weight_unit }

/-- One iteration of the variant loop (main.py lines 137-159);
`product_id_to_link` is the resolved internal id of the enclosing product. -/
def variantStep (product_id_to_link : Nat) (s : Store) (v : VariantRecord) : Store :=
  match rowAt ProductVariant.key v.id s.product_variants with
  | some _ =>
      { s with product_variants :=
          (updRow ProductVariant.key ProductVariant.setFields v.id v.fields
            s.product_variants) }
  | none =>
      { s with product_variants :=
          s.product_variants ++ [newVariant product_id_to_link s v] }

/-- The product row constructed by main.py lines 123-129 (its id assigned
by the `db.flush()` of line 131). -/
def newProduct (tenant_id : Nat) (s : Store) (p : ProductRecord) : Product :=
  { id := freshId (s.products.map (·.id)),
    tenant_id := tenant_id, shopify_product_id := p.id,
    title := p.title, vendor := p.vendor, product_type := p.product_type }

/-- The inner variant loop of a product record (main.py lines 136-159). -/
def stageVariants (product_id_to_link : Nat) (s : Store)
    (variants : List VariantRecord) : Store :=
  variants.foldl (variantStep product_id_to_link) s

/-- One iteration of the product loop (main.py lines 109-159). -/
def productStep (tenant_id : Nat) (s : Store) (p : ProductRecord) : Store :=
  match rowAt Product.key (p.id, tenant_id) s.products with
  | some db_product =>
      let s1 := { s with products :=
        (updRow Product.key Product.setFields (p.id, tenant_id) p.fields s.products) }
      stageVariants db_product.id s1 p.variants
  | none =>
      let new_product := newProduct tenant_id s p
      let s1 := { s with products := s.products ++ [new_product] }
      stageVariants new_product.id s1 p.variants

/-- The whole product reconciliation loop (main.py lines 108-159). -/
def stageProducts (tenant_id : Nat) (s : Store) (payload : List ProductRecord) : Store :=
  payload.foldl (productStep tenant_id) s

/-- Customer linkage resolution for an order (main.py lines 186-196): a
tenant-scoped lookup whose miss leaves the reference null. -/
def resolveCustomerId (tenant_id : Nat) (customers : List Customer)
    (c : Option OrderCustomer) : Option Nat :=
  match c with
  | none => none
  | some cj => (rowAt Customer.key (cj.id, tenant_id) customers).map (·.id)

/-- The line-item row constructed by main.py lines 239-244. -/
def newLineItem (order_id_to_link variant_id : Nat) (s : Store)
    (li : LineItemRecord) : OrderLineItem :=
  { id := freshId (s.order_line_items.map (·.id)),
    order_id := order_id_to_link, variant_id := variant_id,
    quantity := li.quantity, price := li.price }

/-- One iteration of the line-item loop (main.py lines 223-245);
`order_id_to_link` is the resolved internal id of the enclosing order. -/
def lineItemStep (order_id_to_link : Nat) (s : Store) (li : LineItemRecord) : Store :=
  match rowAt ProductVariant.key li.variant_id s.product_variants with
  | none => s   -- unresolved variant: the line item is skipped silently
  | some db_variant =>
      match rowAt OrderLineItem.key (order_id_to_link, db_variant.id)
          s.order_line_items with
      | some _ =>
          { s with order_line_items :=
              (updRow OrderLineItem.key OrderLineItem.setFields
                (order_id_to_link, db_variant.id) li.fields s.order_line_items) }
      | none =>
          { s with order_line_items :=
              s.order_line_items ++ [newLineItem order_id_to_link db_variant.id s li] }

/-- The order row constructed by main.py lines 209-215 (its id assigned by
the `db.flush()` of line 217). -/
def newOrder (tenant_id : Nat) (customer_id_from_db : Option Nat) (s : Store)
    (o : OrderRecord) : Order :=
  { id := freshId (s.orders.map (·.id)),
    tenant_id := tenant_id,
    customer_id := customer_id_from_db, shopify_order_id := o.id,
    total_price := o.total_price, currency := o.currency }

/-- The inner line-item loop of an order record (main.py lines 222-245). -/
def stageLineItems (order_id_to_link : Nat) (s : Store)
    (line_items : List LineItemRecord) : Store :=
  line_items.foldl (lineItemStep order_id_to_link) s

/-- One iteration of the order loop (main.py lines 183-245). -/
def orderStep (tenant_id : Nat) (s : Store) (o : OrderRecord) : Store :=
  let customer_id_from_db := resolveCustomerId tenant_id s.customers o.customer
  match rowAt Order.key (o.id, tenant_id) s.orders with
  | some db_order =>
      let s1 := { s with orders :=
        (updRow Order.key Order.setFields (o.id, tenant_id)
          ⟨o.total_price, o.currency, customer_id_from_db⟩ s.orders) }
      stageLineItems db_order.id s1 o.line_items
  | none =>
      let new_order := newOrder tenant_id customer_id_from_db s o
      let s1 := { s with orders := s.orders ++ [new_order] }
      stageLineItems new_order.id s1 o.line_items

/-- The whole order reconciliation loop (main.py lines 182-245). -/
def stageOrders (tenant_id : Nat) (s : Store) (payload : List OrderRecord) : Store :=
  payload.foldl (orderStep tenant_id) s

/-! ### Commit, rollback and the ingestion endpoints -/

/-- The `unique=True` column constraints declared in models.py. -/
def storeOk (s : Store) : Prop :=
  (s.tenants.map (·.shop_name)).Nodup ∧
  (s.customers.map (·.shopify_customer_id)).Nodup ∧
  (s.products.map (·.shopify_product_id)).Nodup ∧
  (s.product_variants.map (·.shopify_variant_id)).Nodup ∧
  (s.orders.map (·.shopify_order_id)).Nodup

instance (s : Store) : Decidable (storeOk s) := by
  unfold storeOk; infer_instance

/-- Durable outcome of one ingestion call: 200 with a count message, 404
"Tenant not found", or a uniqueness violation that discards the whole
batch.  `conflict` is the status of the guarded commit handler; the
refinement `HttpStatus` below additionally distinguishes the violations
that are raised before the guarded commit is reached. -/
inductive IngestStatus where
  | ok (count : Nat)
  | notFound
  | conflict
deriving DecidableEq, Repr

/-- The durable-store effect of the batch transaction: when the staged
store satisfies every uniqueness constraint, `db.commit()` (main.py lines
88, 162, 248) makes it durable; when it violates one, an `IntegrityError`
is raised at the flush of the violating row and no staged row survives —
the store is as at the start of the call.  The status recorded here is the
one of the guarded commit handler (lines 87-91, 161-165, 247-251); the
`ingest_*_http` refinement below additionally distinguishes the violations
that never reach that handler because an unguarded `db.flush()` (lines 131,
217) or an autoflushing query raises first. -/
def commitBatch (s staged : Store) (count : Nat) : Store × IngestStatus :=
  if storeOk staged then (staged, .ok count) else (s, .conflict)

/-- The tenant-existence check opening every endpoint (main.py lines 49-51
and analogues). -/
def tenantExists (s : Store) (tenant_id : Nat) : Bool :=
  (s.tenants.find? fun t => decide (t.id = tenant_id)).isSome

/-- `POST /ingest/customers/{tenant_id}` (main.py lines 46-93), with the
upstream fetch abstracted into the `payload` argument. -/
def ingest_customers (s : Store) (tenant_id : Nat)
    (payload : List CustomerRecord) : Store × IngestStatus :=
  if tenantExists s tenant_id then
    commitBatch s (stageCustomers tenant_id s payload) payload.length
  else (s, .notFound)

/-- `POST /ingest/products/{tenant_id}` (main.py lines 95-167). -/
def ingest_products (s : Store) (tenant_id : Nat)
    (payload : List ProductRecord) : Store × IngestStatus :=
  if tenantExists s tenant_id then
    commitBatch s (stageProducts tenant_id s payload) payload.length
  else (s, .notFound)

/-- `POST /ingest/orders/{tenant_id}` (main.py lines 169-253). -/
def ingest_orders (s : Store) (tenant_id : Nat)
    (payload : List OrderRecord) : Store × IngestStatus :=
  if tenantExists s tenant_id then
    commitBatch s (stageOrders tenant_id s payload) payload.length
  else (s, .notFound)

/-- Well-formedness of a store: every upsert lookup key is unique in its
table.  For the four externally keyed tables this follows from the
`unique=True` schema constraints; for `order_line_items` it is the
reconciliation invariant of the spec (and is itself proved preserved). -/
def wf (s : Store) : Prop :=
  keysND Customer.key s.customers ∧
  keysND Product.key s.products ∧
  keysND ProductVariant.key s.product_variants ∧
  keysND Order.key s.orders ∧
  keysND OrderLineItem.key s.order_line_items

instance (s : Store) : Decidable (wf s) := by
  unfold wf keysND; infer_instance

/-! ### Structural laws of the field updates -/

theorem customer_key_set (f : CustomerFields) (r : Customer) :
    Customer.key (Customer.setFields f r) = Customer.key r := rfl

theorem customer_id_set (f : CustomerFields) (r : Customer) :
    (Customer.setFields f r).id = r.id := rfl

theorem customer_set_set (f f' : CustomerFields) (r : Customer) :
    Customer.setFields f (Customer.setFields f' r) = Customer.setFields f r := rfl

theorem customer_get_set (f : CustomerFields) (r : Customer) :
    Customer.getFields (Customer.setFields f r) = f := rfl

theorem customer_set_get (r : Customer) :
    Customer.setFields (Customer.getFields r) r = r := rfl

theorem product_key_set (f : ProductFields) (r : Product) :
    Product.key (Product.setFields f r) = Product.key r := rfl

theorem product_id_set (f : ProductFields) (r : Product) :
    (Product.setFields f r).id = r.id := rfl

theorem product_set_set (f f' : ProductFields) (r : Product) :
    Product.setFields f (Product.setFields f' r) = Product.setFields f r := rfl

theorem product_get_set (f : ProductFields) (r : Product) :
    Product.getFields (Product.setFields f r) = f := rfl

theorem product_set_get (r : Product) :
    Product.setFields (Product.getFields r) r = r := rfl

theorem variant_key_set (f : VariantFields) (r : ProductVariant) :
    ProductVariant.key (ProductVariant.setFields f r) = ProductVariant.key r := rfl

theorem variant_id_set (f : VariantFields) (r : ProductVariant) :
    (ProductVariant.setFields f r).id = r.id := rfl

theorem variant_product_id_set (f : VariantFields) (r : ProductVariant) :
    (ProductVariant.setFields f r).product_id = r.product_id := rfl

theorem variant_set_set (f f' : VariantFields) (r : ProductVariant) :
    ProductVariant.setFields f (ProductVariant.setFields f' r) =
      ProductVariant.setFields f r := rfl

theorem variant_get_set (f : VariantFields) (r : ProductVariant) :
    ProductVariant.getFields (ProductVariant.setFields f r) = f := rfl

theorem variant_set_get (r : ProductVariant) :
    ProductVariant.setFields (ProductVariant.getFields r) r = r := rfl

theorem order_key_set (f : OrderFields) (r : Order) :
    Order.key (Order.setFields f r) = Order.key r := rfl

theorem order_id_set (f : OrderFields) (r : Order) :
    (Order.setFields f r).id = r.id := rfl

theorem order_set_set (f f' : OrderFields) (r : Order) :
    Order.setFields f (Order.setFields f' r) = Order.setFields f r := rfl

theorem order_get_set (f : OrderFields) (r : Order) :
    Order.getFields (Order.setFields f r) = f := rfl

theorem order_set_get (r : Order) :
    Order.setFields (Order.getFields r) r = r := rfl

theorem line_item_key_set (f : LineItemFields) (r : OrderLineItem) :
    OrderLineItem.key (OrderLineItem.setFields f r) = OrderLineItem.key r := rfl

theorem line_item_id_set (f : LineItemFields) (r : OrderLineItem) :
    (OrderLineItem.setFields f r).id = r.id := rfl

theorem line_item_set_set (f f' : LineItemFields) (r : OrderLineItem) :
    OrderLineItem.setFields f (OrderLineItem.setFields f' r) =
      OrderLineItem.setFields f r := rfl

theorem line_item_get_set (f : LineItemFields) (r : OrderLineItem) :
    OrderLineItem.getFields (OrderLineItem.setFields f r) = f := rfl

theorem line_item_set_get (r : OrderLineItem) :
    OrderLineItem.setFields (OrderLineItem.getFields r) r = r := rfl

theorem newCustomer_key (tenant_id : Nat) (s : Store) (c : CustomerRecord) :
    Customer.key (newCustomer tenant_id s c) = (c.id, tenant_id) := rfl

theorem newCustomer_fields (tenant_id : Nat) (s : Store) (c : CustomerRecord) :
    Customer.getFields (newCustomer tenant_id s c) = c.fields := rfl

theorem newProduct_key (tenant_id : Nat) (s : Store) (p : ProductRecord) :
    Product.key (newProduct tenant_id s p) = (p.id, tenant_id) := rfl

theorem newProduct_fields (tenant_id : Nat) (s : Store) (p : ProductRecord) :
    Product.getFields (newProduct tenant_id s p) = p.fields := rfl

theorem newVariant_key (pid : Nat) (s : Store) (v : VariantRecord) :
    ProductVariant.key (newVariant pid s v) = v.id := rfl

theorem newVariant_fields (pid : Nat) (s : Store) (v : VariantRecord) :
    ProductVariant.getFields (newVariant pid s v) = v.fields := rfl

theorem newOrder_key (tenant_id : Nat) (cid : Option Nat) (s : Store) (o : OrderRecord) :
    Order.key (newOrder tenant_id cid s o) = (o.id, tenant_id) := rfl

theorem newOrder_fields (tenant_id : Nat) (cid : Option Nat) (s : Store) (o : OrderRecord) :
    Order.getFields (newOrder tenant_id cid s o) = ⟨o.total_price, o.currency, cid⟩ := rfl

theorem newLineItem_key (oid vid : Nat) (s : Store) (li : LineItemRecord) :
    OrderLineItem.key (newLineItem oid vid s li) = (oid, vid) := rfl

theorem newLineItem_fields (oid vid : Nat) (s : Store) (li : LineItemRecord) :
    OrderLineItem.getFields (newLineItem oid vid s li) = li.fields := rfl


/-! ## Idempotence of customer reconciliation -/

/-- The customer loop touches only the `customers` table. -/
theorem customerStep_frame (tenant_id : Nat) (s : Store) (c : CustomerRecord) :
    (customerStep tenant_id s c).tenants = s.tenants ∧
    (customerStep tenant_id s c).products = s.products ∧
    (customerStep tenant_id s c).product_variants = s.product_variants ∧
    (customerStep tenant_id s c).orders = s.orders ∧
    (customerStep tenant_id s c).order_line_items = s.order_line_items := by
  unfold customerStep
  cases rowAt Customer.key (c.id, tenant_id) s.customers <;> exact ⟨rfl, rfl, rfl, rfl, rfl⟩

theorem stageCustomers_frame (tenant_id : Nat) (s : Store) (p : List CustomerRecord) :
    (stageCustomers tenant_id s p).tenants = s.tenants ∧
    (stageCustomers tenant_id s p).products = s.products ∧
    (stageCustomers tenant_id s p).product_variants = s.product_variants ∧
    (stageCustomers tenant_id s p).orders = s.orders ∧
    (stageCustomers tenant_id s p).order_line_items = s.order_line_items := by
  induction p generalizing s with
  | nil => exact ⟨rfl, rfl, rfl, rfl, rfl⟩
  | cons c p ih =>
    have h1 := customerStep_frame tenant_id s c
    have h2 := ih (customerStep tenant_id s c)
    exact ⟨h2.1.trans h1.1, h2.2.1.trans h1.2.1, h2.2.2.1.trans h1.2.2.1,
      h2.2.2.2.1.trans h1.2.2.2.1, h2.2.2.2.2.trans h1.2.2.2.2⟩

/-- After one step, the step's own key is present with the record's fields. -/
theorem rowAt_customerStep_self (tenant_id : Nat) (s : Store) (c : CustomerRecord) :
    (rowAt Customer.key (c.id, tenant_id) (customerStep tenant_id s c).customers).map
      Customer.getFields = some c.fields := by
  unfold customerStep
  cases h : rowAt Customer.key (c.id, tenant_id) s.customers with
  | some r =>
    simp only
    rw [rowAt_updRow_self Customer.key Customer.setFields customer_key_set, h]
    rfl
  | none =>
    simp only
    rw [rowAt_append_singleton_self Customer.key (c.id, tenant_id) s.customers
      (newCustomer tenant_id s c) (newCustomer_key tenant_id s c) h]
    exact congrArg some (newCustomer_fields tenant_id s c)

/-- A step whose key differs from `k` leaves the row at `k` unchanged. -/
theorem rowAt_customerStep_ne (tenant_id : Nat) (s : Store) (c : CustomerRecord)
    {k : Int × Nat} (hne : k ≠ (c.id, tenant_id)) :
    rowAt Customer.key k (customerStep tenant_id s c).customers =
      rowAt Customer.key k s.customers := by
  unfold customerStep
  cases h : rowAt Customer.key (c.id, tenant_id) s.customers with
  | some r =>
    simp only
    exact rowAt_updRow_ne Customer.key Customer.setFields customer_key_set hne _ _
  | none =>
    simp only
    apply rowAt_append_singleton_ne
    rw [newCustomer_key]
    exact fun hk => hne hk.symm

/-- Presence of a key survives a step. -/
theorem rowAt_customerStep_mono (tenant_id : Nat) (s : Store) (c : CustomerRecord)
    (k : Int × Nat) (h : (rowAt Customer.key k s.customers).isSome = true) :
    (rowAt Customer.key k (customerStep tenant_id s c).customers).isSome = true := by
  by_cases hk : k = (c.id, tenant_id)
  · subst hk
    unfold customerStep
    cases hr : rowAt Customer.key (c.id, tenant_id) s.customers with
    | some r =>
      show (rowAt Customer.key (c.id, tenant_id)
        (updRow Customer.key Customer.setFields (c.id, tenant_id) c.fields
          s.customers)).isSome = true
      rw [rowAt_updRow_self Customer.key Customer.setFields customer_key_set, hr]
      rfl
    | none => rw [hr] at h; cases h
  · rw [rowAt_customerStep_ne tenant_id s c hk]
    exact h

theorem rowAt_stageCustomers_mono (tenant_id : Nat) (s : Store)
    (p : List CustomerRecord) (k : Int × Nat)
    (h : (rowAt Customer.key k s.customers).isSome = true) :
    (rowAt Customer.key k (stageCustomers tenant_id s p).customers).isSome = true := by
  induction p generalizing s with
  | nil => exact h
  | cons c p ih => exact ih _ (rowAt_customerStep_mono tenant_id s c k h)

/-- Every key of the payload is present after the loop has run. -/
theorem stageCustomers_present (tenant_id : Nat) (s : Store)
    (p : List CustomerRecord) (c : CustomerRecord) (hc : c ∈ p) :
    (rowAt Customer.key (c.id, tenant_id)
      (stageCustomers tenant_id s p).customers).isSome = true := by
  induction p generalizing s with
  | nil => cases hc
  | cons c' p ih =>
    rw [stageCustomers, List.foldl_cons, ← stageCustomers]
    rcases List.mem_cons.mp hc with h | h
    · subst h
      apply rowAt_stageCustomers_mono
      have hself := rowAt_customerStep_self tenant_id s c
      cases hr : rowAt Customer.key (c.id, tenant_id)
          (customerStep tenant_id s c).customers with
      | some r => rfl
      | none => rw [hr] at hself; cases hself
    · exact ih (customerStep tenant_id s c') h

/-- The loop preserves key uniqueness of the `customers` table. -/
theorem customerStep_keysND (tenant_id : Nat) (s : Store) (c : CustomerRecord)
    (hnd : keysND Customer.key s.customers) :
    keysND Customer.key (customerStep tenant_id s c).customers := by
  unfold customerStep
  cases h : rowAt Customer.key (c.id, tenant_id) s.customers with
  | some r =>
    simp only
    unfold keysND
    rw [keys_updRow Customer.key Customer.setFields customer_key_set]
    exact hnd
  | none =>
    simp only
    unfold keysND
    rw [List.map_append]
    apply List.Nodup.append hnd (List.nodup_singleton _)
    intro k hk1 hk2
    simp only [List.map_cons, List.map_nil, List.mem_singleton] at hk2
    subst hk2
    rcases List.mem_map.mp hk1 with ⟨r, hr, hkr⟩
    have hsome : rowAt Customer.key (Customer.key r) s.customers ≠ none := by
      intro hnone
      unfold rowAt at hnone
      rw [List.find?_eq_none] at hnone
      exact absurd (by simp : decide (Customer.key r = Customer.key r) = true)
        (hnone r hr)
    rw [hkr] at hsome
    exact hsome h

theorem stageCustomers_keysND (tenant_id : Nat) (s : Store) (p : List CustomerRecord)
    (hnd : keysND Customer.key s.customers) :
    keysND Customer.key (stageCustomers tenant_id s p).customers := by
  induction p generalizing s with
  | nil => exact hnd
  | cons c p ih => exact ih _ (customerStep_keysND tenant_id s c hnd)

/-- Ghost overwrite of customer fields at store level. -/
def owStoreC (g : Int × Nat → Option CustomerFields) (s : Store) : Store :=
  { s with customers := owT Customer.key Customer.setFields g s.customers }

theorem owStoreC_none (s : Store) : owStoreC (fun _ => none) s = s := by
  unfold owStoreC
  rw [owT_none]

/-- The last payload record writing key `k`, folded left to right, starting
from `g`. -/
def lastCG (tenant_id : Nat) (p : List CustomerRecord)
    (g : Int × Nat → Option CustomerFields) : Int × Nat → Option CustomerFields :=
  p.foldl (fun g c => fun k => if k = (c.id, tenant_id) then some c.fields else g k) g

/-- The fields written by the last record of `p` with key `k`, if any. -/
def lastC (tenant_id : Nat) (p : List CustomerRecord) :
    Int × Nat → Option CustomerFields :=
  lastCG tenant_id p (fun _ => none)

theorem lastCG_spec (tenant_id : Nat) (p : List CustomerRecord)
    (g : Int × Nat → Option CustomerFields) (k : Int × Nat) :
    lastCG tenant_id p g k =
      match lastC tenant_id p k with
      | some f => some f
      | none => g k := by
  induction p generalizing g with
  | nil => rfl
  | cons c p ih =>
    show lastCG tenant_id p _ k = _
    rw [ih]
    have hc : lastC tenant_id (c :: p) k =
        match lastC tenant_id p k with
        | some f => some f
        | none => if k = (c.id, tenant_id) then some c.fields else none := by
      show lastCG tenant_id p _ k = _
      rw [ih]
    rw [hc]
    cases lastC tenant_id p k with
    | some f => rfl
    | none => by_cases hk : k = (c.id, tenant_id) <;> simp [hk]

theorem lastC_cons (tenant_id : Nat) (c : CustomerRecord) (p : List CustomerRecord)
    (k : Int × Nat) :
    lastC tenant_id (c :: p) k =
      match lastC tenant_id p k with
      | some f => some f
      | none => if k = (c.id, tenant_id) then some c.fields else none := by
  show lastCG tenant_id p _ k = _
  rw [lastCG_spec]

theorem lastC_eq_none (tenant_id : Nat) (p : List CustomerRecord) (k : Int × Nat)
    (h : lastC tenant_id p k = none) : ∀ c ∈ p, (c.id, tenant_id) ≠ k := by
  induction p with
  | nil => intro c hc; cases hc
  | cons c p ih =>
    intro c' hc'
    rw [lastC_cons] at h
    rcases List.mem_cons.mp hc' with h1 | h1
    · subst h1
      cases hp : lastC tenant_id p k with
      | some f => rw [hp] at h; cases h
      | none =>
        rw [hp] at h
        intro hk
        rw [if_pos hk.symm] at h
        cases h
    · cases hp : lastC tenant_id p k with
      | some f => rw [hp] at h; cases h
      | none => exact ih hp c' h1

/-- Frame over a suffix that never touches `k`. -/
theorem rowAt_stageCustomers_ne (tenant_id : Nat) (s : Store)
    (p : List CustomerRecord) (k : Int × Nat)
    (h : ∀ c ∈ p, (c.id, tenant_id) ≠ k) :
    rowAt Customer.key k (stageCustomers tenant_id s p).customers =
      rowAt Customer.key k s.customers := by
  induction p generalizing s with
  | nil => rfl
  | cons c p ih =>
    have h2 := ih (customerStep tenant_id s c)
      (fun c' hc' => h c' (List.mem_cons_of_mem _ hc'))
    rw [stageCustomers, List.foldl_cons, ← stageCustomers, h2,
      rowAt_customerStep_ne tenant_id s c
        (fun hk => h c (List.mem_cons_self _ _) hk.symm)]

/-- After the loop, the row at a touched key holds the fields of the last
record that wrote it. -/
theorem stageCustomers_lastFields (tenant_id : Nat) (s : Store)
    (p : List CustomerRecord) (k : Int × Nat) (f : CustomerFields)
    (h : lastC tenant_id p k = some f) :
    (rowAt Customer.key k (stageCustomers tenant_id s p).customers).map
      Customer.getFields = some f := by
  induction p generalizing s with
  | nil => cases h
  | cons c p ih =>
    rw [lastC_cons] at h
    rw [stageCustomers, List.foldl_cons, ← stageCustomers]
    cases hp : lastC tenant_id p k with
    | some f' =>
      rw [hp] at h
      cases h
      exact ih _ hp
    | none =>
      rw [hp] at h
      by_cases hk : k = (c.id, tenant_id)
      · rw [if_pos hk] at h
        cases h
        rw [rowAt_stageCustomers_ne tenant_id _ p k (lastC_eq_none tenant_id p k hp),
          hk]
        exact rowAt_customerStep_self tenant_id s c
      · rw [if_neg hk] at h
        cases h

/-- One replayed step over a ghost-overwritten store only extends the
overwrite map, provided the step's key is already present. -/
theorem customerStep_ow (tenant_id : Nat) (s : Store) (c : CustomerRecord)
    (g : Int × Nat → Option CustomerFields)
    (hnd : keysND Customer.key s.customers)
    (hpres : (rowAt Customer.key (c.id, tenant_id) s.customers).isSome = true) :
    customerStep tenant_id (owStoreC g s) c =
      owStoreC (fun k => if k = (c.id, tenant_id) then some c.fields else g k) s := by
  have hps : (rowAt Customer.key (c.id, tenant_id)
      (owStoreC g s).customers).isSome = true := by
    show (rowAt Customer.key (c.id, tenant_id)
      (owT Customer.key Customer.setFields g s.customers)).isSome = true
    rw [isSome_rowAt_owT Customer.key Customer.setFields customer_key_set]
    exact hpres
  obtain ⟨r2, hr2⟩ := Option.isSome_iff_exists.mp hps
  unfold customerStep
  rw [hr2]
  have hupd := updRow_owT Customer.key Customer.setFields customer_key_set
    customer_set_set (g := g) (l := s.customers) (c.id, tenant_id) c.fields hnd
  show { s with customers :=
    (updRow Customer.key Customer.setFields (c.id, tenant_id) c.fields
      (owT Customer.key Customer.setFields g s.customers)) } = _
  rw [hupd]
  rfl

/-- Replaying the whole loop over a ghost-overwritten store only reshuffles
the overwrite map, provided every payload key is already present. -/
theorem stageCustomers_ow (tenant_id : Nat) (s : Store) (p : List CustomerRecord)
    (g : Int × Nat → Option CustomerFields)
    (hnd : keysND Customer.key s.customers)
    (hall : ∀ c ∈ p,
      (rowAt Customer.key (c.id, tenant_id) s.customers).isSome = true) :
    stageCustomers tenant_id (owStoreC g s) p = owStoreC (lastCG tenant_id p g) s := by
  induction p generalizing g with
  | nil => rfl
  | cons c p ih =>
    rw [stageCustomers, List.foldl_cons, ← stageCustomers]
    rw [customerStep_ow tenant_id s c g hnd (hall c (List.mem_cons_self _ _))]
    exact ih _ (fun c' hc' => hall c' (List.mem_cons_of_mem _ hc'))

/-- Staging the same customer payload a second time changes nothing. -/
theorem stageCustomers_idem (tenant_id : Nat) (s : Store) (p : List CustomerRecord)
    (hnd : keysND Customer.key s.customers) :
    stageCustomers tenant_id (stageCustomers tenant_id s p) p =
      stageCustomers tenant_id s p := by
  have hndf : keysND Customer.key (stageCustomers tenant_id s p).customers :=
    stageCustomers_keysND tenant_id s p hnd
  have hall : ∀ c ∈ p, (rowAt Customer.key (c.id, tenant_id)
      (stageCustomers tenant_id s p).customers).isSome = true :=
    fun c hc => stageCustomers_present tenant_id s p c hc
  have h1 : stageCustomers tenant_id (stageCustomers tenant_id s p) p =
      owStoreC (lastCG tenant_id p (fun _ => none)) (stageCustomers tenant_id s p) := by
    rw [← stageCustomers_ow tenant_id _ p (fun _ => none) hndf hall, owStoreC_none]
  rw [h1]
  unfold owStoreC
  have h2 : owT Customer.key Customer.setFields (lastCG tenant_id p (fun _ => none))
      (stageCustomers tenant_id s p).customers =
      (stageCustomers tenant_id s p).customers := by
    apply owT_id
    intro r hr f hf
    have hrow : rowAt Customer.key (Customer.key r)
        (stageCustomers tenant_id s p).customers = some r :=
      rowAt_mem_nodup Customer.key hndf hr
    have hlast := stageCustomers_lastFields tenant_id s p (Customer.key r) f hf
    rw [hrow] at hlast
    have hget : Customer.getFields r = f := Option.some.inj hlast
    rw [← hget, customer_set_get]
  rw [h2]

/-- Re-running the customer ingestion endpoint with the same payload leaves
the store of the first run unchanged. -/
theorem ingest_customers_idem (tenant_id : Nat) (s : Store) (p : List CustomerRecord)
    (hnd : keysND Customer.key s.customers) :
    (ingest_customers (ingest_customers s tenant_id p).1 tenant_id p).1 =
      (ingest_customers s tenant_id p).1 := by
  by_cases ht : tenantExists s tenant_id = true
  · by_cases hok : storeOk (stageCustomers tenant_id s p)
    · have h1 : ingest_customers s tenant_id p =
          (stageCustomers tenant_id s p, .ok p.length) := by
        unfold ingest_customers commitBatch
        rw [if_pos ht, if_pos hok]
      have ht2 : tenantExists (stageCustomers tenant_id s p) tenant_id = true := by
        unfold tenantExists
        rw [(stageCustomers_frame tenant_id s p).1]
        exact ht
      have h2 : ingest_customers (stageCustomers tenant_id s p) tenant_id p =
          (stageCustomers tenant_id s p, .ok p.length) := by
        unfold ingest_customers commitBatch
        rw [if_pos ht2, stageCustomers_idem tenant_id s p hnd, if_pos hok]
      rw [h1]
      show (ingest_customers (stageCustomers tenant_id s p) tenant_id p).1 =
        stageCustomers tenant_id s p
      rw [h2]
    · have h1 : ingest_customers s tenant_id p = (s, .conflict) := by
        unfold ingest_customers commitBatch
        rw [if_pos ht, if_neg hok]
      rw [h1]
      show (ingest_customers s tenant_id p).1 = s
      rw [h1]
  · have h1 : ingest_customers s tenant_id p = (s, .notFound) := by
      unfold ingest_customers
      rw [if_neg ht]
    rw [h1]
    show (ingest_customers s tenant_id p).1 = s
    rw [h1]

/-! ## Idempotence of product reconciliation -/

/-- The variant loop touches only the `product_variants` table. -/
theorem variantStep_frame (pid : Nat) (s : Store) (v : VariantRecord) :
    (variantStep pid s v).tenants = s.tenants ∧
    (variantStep pid s v).customers = s.customers ∧
    (variantStep pid s v).products = s.products ∧
    (variantStep pid s v).orders = s.orders ∧
    (variantStep pid s v).order_line_items = s.order_line_items := by
  unfold variantStep
  cases rowAt ProductVariant.key v.id s.product_variants <;> exact ⟨rfl, rfl, rfl, rfl, rfl⟩

theorem stageVariants_frame (pid : Nat) (s : Store) (vl : List VariantRecord) :
    (stageVariants pid s vl).tenants = s.tenants ∧
    (stageVariants pid s vl).customers = s.customers ∧
    (stageVariants pid s vl).products = s.products ∧
    (stageVariants pid s vl).orders = s.orders ∧
    (stageVariants pid s vl).order_line_items = s.order_line_items := by
  induction vl generalizing s with
  | nil => exact ⟨rfl, rfl, rfl, rfl, rfl⟩
  | cons v vl ih =>
    have h1 := variantStep_frame pid s v
    have h2 := ih (variantStep pid s v)
    exact ⟨h2.1.trans h1.1, h2.2.1.trans h1.2.1, h2.2.2.1.trans h1.2.2.1,
      h2.2.2.2.1.trans h1.2.2.2.1, h2.2.2.2.2.trans h1.2.2.2.2⟩

/-- The product loop touches only `products` and `product_variants`. -/
theorem productStep_frame (tenant_id : Nat) (s : Store) (p : ProductRecord) :
    (productStep tenant_id s p).tenants = s.tenants ∧
    (productStep tenant_id s p).customers = s.customers ∧
    (productStep tenant_id s p).orders = s.orders ∧
    (productStep tenant_id s p).order_line_items = s.order_line_items := by
  unfold productStep
  cases rowAt Product.key (p.id, tenant_id) s.products with
  | some db_product =>
    have h := stageVariants_frame db_product.id
      { s with products :=
        (updRow Product.key Product.setFields (p.id, tenant_id) p.fields s.products) }
      p.variants
    exact ⟨h.1, h.2.1, h.2.2.2.1, h.2.2.2.2⟩
  | none =>
    have h := stageVariants_frame (newProduct tenant_id s p).id
      { s with products := s.products ++ [newProduct tenant_id s p] } p.variants
    exact ⟨h.1, h.2.1, h.2.2.2.1, h.2.2.2.2⟩

theorem stageProducts_frame (tenant_id : Nat) (s : Store) (pl : List ProductRecord) :
    (stageProducts tenant_id s pl).tenants = s.tenants ∧
    (stageProducts tenant_id s pl).customers = s.customers ∧
    (stageProducts tenant_id s pl).orders = s.orders ∧
    (stageProducts tenant_id s pl).order_line_items = s.order_line_items := by
  induction pl generalizing s with
  | nil => exact ⟨rfl, rfl, rfl, rfl⟩
  | cons p pl ih =>
    have h1 := productStep_frame tenant_id s p
    have h2 := ih (productStep tenant_id s p)
    exact ⟨h2.1.trans h1.1, h2.2.1.trans h1.2.1, h2.2.2.1.trans h1.2.2.1,
      h2.2.2.2.trans h1.2.2.2⟩

/-- The variant loop leaves the `products` table unchanged. -/
theorem stageVariants_products (pid : Nat) (s : Store) (vl : List VariantRecord) :
    (stageVariants pid s vl).products = s.products :=
  (stageVariants_frame pid s vl).2.2.1

theorem rowAt_variantStep_self (pid : Nat) (s : Store) (v : VariantRecord) :
    (rowAt ProductVariant.key v.id (variantStep pid s v).product_variants).map
      ProductVariant.getFields = some v.fields := by
  unfold variantStep
  cases h : rowAt ProductVariant.key v.id s.product_variants with
  | some r =>
    simp only
    rw [rowAt_updRow_self ProductVariant.key ProductVariant.setFields
      variant_key_set, h]
    rfl
  | none =>
    simp only
    rw [rowAt_append_singleton_self ProductVariant.key v.id s.product_variants
      (newVariant pid s v) (newVariant_key pid s v) h]
    exact congrArg some (newVariant_fields pid s v)

theorem rowAt_variantStep_ne (pid : Nat) (s : Store) (v : VariantRecord)
    {k : Int} (hne : k ≠ v.id) :
    rowAt ProductVariant.key k (variantStep pid s v).product_variants =
      rowAt ProductVariant.key k s.product_variants := by
  unfold variantStep
  cases h : rowAt ProductVariant.key v.id s.product_variants with
  | some r =>
    simp only
    exact rowAt_updRow_ne ProductVariant.key ProductVariant.setFields
      variant_key_set hne _ _
  | none =>
    simp only
    apply rowAt_append_singleton_ne
    rw [newVariant_key]
    exact fun hk => hne hk.symm

theorem rowAt_variantStep_mono (pid : Nat) (s : Store) (v : VariantRecord)
    (k : Int) (h : (rowAt ProductVariant.key k s.product_variants).isSome = true) :
    (rowAt ProductVariant.key k (variantStep pid s v).product_variants).isSome = true := by
  by_cases hk : k = v.id
  · subst hk
    unfold variantStep
    cases hr : rowAt ProductVariant.key v.id s.product_variants with
    | some r =>
      show (rowAt ProductVariant.key v.id
        (updRow ProductVariant.key ProductVariant.setFields v.id v.fields
          s.product_variants)).isSome = true
      rw [rowAt_updRow_self ProductVariant.key ProductVariant.setFields
        variant_key_set, hr]
      rfl
    | none => rw [hr] at h; cases h
  · rw [rowAt_variantStep_ne pid s v hk]
    exact h

theorem rowAt_stageVariants_mono (pid : Nat) (s : Store) (vl : List VariantRecord)
    (k : Int) (h : (rowAt ProductVariant.key k s.product_variants).isSome = true) :
    (rowAt ProductVariant.key k (stageVariants pid s vl).product_variants).isSome = true := by
  induction vl generalizing s with
  | nil => exact h
  | cons v vl ih => exact ih _ (rowAt_variantStep_mono pid s v k h)

theorem stageVariants_present (pid : Nat) (s : Store) (vl : List VariantRecord)
    (v : VariantRecord) (hv : v ∈ vl) :
    (rowAt ProductVariant.key v.id
      (stageVariants pid s vl).product_variants).isSome = true := by
  induction vl generalizing s with
  | nil => cases hv
  | cons v' vl ih =>
    rw [stageVariants, List.foldl_cons, ← stageVariants]
    rcases List.mem_cons.mp hv with h | h
    · subst h
      apply rowAt_stageVariants_mono
      have hself := rowAt_variantStep_self pid s v
      cases hr : rowAt ProductVariant.key v.id (variantStep pid s v).product_variants with
      | some r => rfl
      | none => rw [hr] at hself; cases hself
    · exact ih (variantStep pid s v') h

theorem variantStep_keysND (pid : Nat) (s : Store) (v : VariantRecord)
    (hnd : keysND ProductVariant.key s.product_variants) :
    keysND ProductVariant.key (variantStep pid s v).product_variants := by
  unfold variantStep
  cases h : rowAt ProductVariant.key v.id s.product_variants with
  | some r =>
    simp only
    exact keysND_updRow ProductVariant.key ProductVariant.setFields
      variant_key_set _ _ hnd
  | none =>
    simp only
    apply keysND_append_singleton ProductVariant.key hnd
    rw [newVariant_key]
    exact h

theorem stageVariants_keysND (pid : Nat) (s : Store) (vl : List VariantRecord)
    (hnd : keysND ProductVariant.key s.product_variants) :
    keysND ProductVariant.key (stageVariants pid s vl).product_variants := by
  induction vl generalizing s with
  | nil => exact hnd
  | cons v vl ih => exact ih _ (variantStep_keysND pid s v hnd)

theorem rowAt_productStep_self (tenant_id : Nat) (s : Store) (p : ProductRecord) :
    (rowAt Product.key (p.id, tenant_id) (productStep tenant_id s p).products).map
      Product.getFields = some p.fields := by
  unfold productStep
  cases h : rowAt Product.key (p.id, tenant_id) s.products with
  | some db_product =>
    simp only
    rw [stageVariants_products]
    show (rowAt Product.key (p.id, tenant_id)
      (updRow Product.key Product.setFields (p.id, tenant_id) p.fields
        s.products)).map Product.getFields = some p.fields
    rw [rowAt_updRow_self Product.key Product.setFields product_key_set, h]
    rfl
  | none =>
    simp only
    rw [stageVariants_products]
    show (rowAt Product.key (p.id, tenant_id)
      (s.products ++ [newProduct tenant_id s p])).map Product.getFields = some p.fields
    rw [rowAt_append_singleton_self Product.key (p.id, tenant_id) s.products
      (newProduct tenant_id s p) (newProduct_key tenant_id s p) h]
    exact congrArg some (newProduct_fields tenant_id s p)

theorem rowAt_productStep_ne (tenant_id : Nat) (s : Store) (p : ProductRecord)
    {k : Int × Nat} (hne : k ≠ (p.id, tenant_id)) :
    rowAt Product.key k (productStep tenant_id s p).products =
      rowAt Product.key k s.products := by
  unfold productStep
  cases h : rowAt Product.key (p.id, tenant_id) s.products with
  | some db_product =>
    simp only
    rw [stageVariants_products]
    exact rowAt_updRow_ne Product.key Product.setFields product_key_set hne _ _
  | none =>
    simp only
    rw [stageVariants_products]
    apply rowAt_append_singleton_ne
    rw [newProduct_key]
    exact fun hk => hne hk.symm

theorem rowAt_productStep_mono (tenant_id : Nat) (s : Store) (p : ProductRecord)
    (k : Int × Nat) (h : (rowAt Product.key k s.products).isSome = true) :
    (rowAt Product.key k (productStep tenant_id s p).products).isSome = true := by
  by_cases hk : k = (p.id, tenant_id)
  · subst hk
    have hself := rowAt_productStep_self tenant_id s p
    cases hr : rowAt Product.key (p.id, tenant_id) (productStep tenant_id s p).products with
    | some r => rfl
    | none => rw [hr] at hself; cases hself
  · rw [rowAt_productStep_ne tenant_id s p hk]
    exact h

theorem rowAt_stageProducts_mono (tenant_id : Nat) (s : Store)
    (pl : List ProductRecord) (k : Int × Nat)
    (h : (rowAt Product.key k s.products).isSome = true) :
    (rowAt Product.key k (stageProducts tenant_id s pl).products).isSome = true := by
  induction pl generalizing s with
  | nil => exact h
  | cons p pl ih => exact ih _ (rowAt_productStep_mono tenant_id s p k h)

theorem stageProducts_present (tenant_id : Nat) (s : Store)
    (pl : List ProductRecord) (p : ProductRecord) (hp : p ∈ pl) :
    (rowAt Product.key (p.id, tenant_id)
      (stageProducts tenant_id s pl).products).isSome = true := by
  induction pl generalizing s with
  | nil => cases hp
  | cons p' pl ih =>
    rw [stageProducts, List.foldl_cons, ← stageProducts]
    rcases List.mem_cons.mp hp with h | h
    · subst h
      apply rowAt_stageProducts_mono
      have hself := rowAt_productStep_self tenant_id s p
      cases hr : rowAt Product.key (p.id, tenant_id) (productStep tenant_id s p).products with
      | some r => rfl
      | none => rw [hr] at hself; cases hself
    · exact ih (productStep tenant_id s p') h

/-- Variant presence survives a product step. -/
theorem rowAt_productStep_variants_mono (tenant_id : Nat) (s : Store)
    (p : ProductRecord) (k : Int)
    (h : (rowAt ProductVariant.key k s.product_variants).isSome = true) :
    (rowAt ProductVariant.key k (productStep tenant_id s p).product_variants).isSome
      = true := by
  unfold productStep
  cases hr : rowAt Product.key (p.id, tenant_id) s.products with
  | some db_product => exact rowAt_stageVariants_mono _ _ _ _ h
  | none => exact rowAt_stageVariants_mono _ _ _ _ h

theorem rowAt_stageProducts_variants_mono (tenant_id : Nat) (s : Store)
    (pl : List ProductRecord) (k : Int)
    (h : (rowAt ProductVariant.key k s.product_variants).isSome = true) :
    (rowAt ProductVariant.key k
      (stageProducts tenant_id s pl).product_variants).isSome = true := by
  induction pl generalizing s with
  | nil => exact h
  | cons p pl ih => exact ih _ (rowAt_productStep_variants_mono tenant_id s p k h)

/-- Every variant of a processed product record is present afterwards. -/
theorem productStep_variants_present (tenant_id : Nat) (s : Store)
    (p : ProductRecord) (v : VariantRecord) (hv : v ∈ p.variants) :
    (rowAt ProductVariant.key v.id
      (productStep tenant_id s p).product_variants).isSome = true := by
  unfold productStep
  cases hr : rowAt Product.key (p.id, tenant_id) s.products with
  | some db_product => exact stageVariants_present _ _ _ v hv
  | none => exact stageVariants_present _ _ _ v hv

/-- The flattened sequence of variant records of a product payload. -/
def flatVariants : List ProductRecord → List VariantRecord
  | [] => []
  | p :: pl => p.variants ++ flatVariants pl

theorem stageProducts_variants_present (tenant_id : Nat) (s : Store)
    (pl : List ProductRecord) (v : VariantRecord) (hv : v ∈ flatVariants pl) :
    (rowAt ProductVariant.key v.id
      (stageProducts tenant_id s pl).product_variants).isSome = true := by
  induction pl generalizing s with
  | nil => cases hv
  | cons p pl ih =>
    rw [stageProducts, List.foldl_cons, ← stageProducts]
    rcases List.mem_append.mp hv with h | h
    · exact rowAt_stageProducts_variants_mono tenant_id _ pl v.id
        (productStep_variants_present tenant_id s p v h)
    · exact ih (productStep tenant_id s p) h

theorem productStep_keysND (tenant_id : Nat) (s : Store) (p : ProductRecord)
    (hndP : keysND Product.key s.products)
    (hndV : keysND ProductVariant.key s.product_variants) :
    keysND Product.key (productStep tenant_id s p).products ∧
    keysND ProductVariant.key (productStep tenant_id s p).product_variants := by
  unfold productStep
  cases h : rowAt Product.key (p.id, tenant_id) s.products with
  | some db_product =>
    simp only
    constructor
    · rw [stageVariants_products]
      exact keysND_updRow Product.key Product.setFields product_key_set _ _ hndP
    · exact stageVariants_keysND _ _ _ hndV
  | none =>
    simp only
    constructor
    · rw [stageVariants_products]
      apply keysND_append_singleton Product.key hndP
      rw [newProduct_key]
      exact h
    · exact stageVariants_keysND _ _ _ hndV

theorem stageProducts_keysND (tenant_id : Nat) (s : Store) (pl : List ProductRecord)
    (hndP : keysND Product.key s.products)
    (hndV : keysND ProductVariant.key s.product_variants) :
    keysND Product.key (stageProducts tenant_id s pl).products ∧
    keysND ProductVariant.key (stageProducts tenant_id s pl).product_variants := by
  induction pl generalizing s with
  | nil => exact ⟨hndP, hndV⟩
  | cons p pl ih =>
    have h := productStep_keysND tenant_id s p hndP hndV
    exact ih _ h.1 h.2

/-- Ghost overwrite of product and variant fields at store level. -/
def owStoreP (gP : Int × Nat → Option ProductFields)
    (gV : Int → Option VariantFields) (s : Store) : Store :=
  { s with
    products := owT Product.key Product.setFields gP s.products,
    product_variants :=
      owT ProductVariant.key ProductVariant.setFields gV s.product_variants }

theorem owStoreP_none (s : Store) :
    owStoreP (fun _ => none) (fun _ => none) s = s := by
  unfold owStoreP
  rw [owT_none, owT_none]

def lastPG (tenant_id : Nat) (pl : List ProductRecord)
    (g : Int × Nat → Option ProductFields) : Int × Nat → Option ProductFields :=
  pl.foldl (fun g p => fun k => if k = (p.id, tenant_id) then some p.fields else g k) g

def lastP (tenant_id : Nat) (pl : List ProductRecord) :
    Int × Nat → Option ProductFields :=
  lastPG tenant_id pl (fun _ => none)

theorem lastPG_spec (tenant_id : Nat) (pl : List ProductRecord)
    (g : Int × Nat → Option ProductFields) (k : Int × Nat) :
    lastPG tenant_id pl g k =
      match lastP tenant_id pl k with
      | some f => some f
      | none => g k := by
  induction pl generalizing g with
  | nil => rfl
  | cons p pl ih =>
    show lastPG tenant_id pl _ k = _
    rw [ih]
    have hc : lastP tenant_id (p :: pl) k =
        match lastP tenant_id pl k with
        | some f => some f
        | none => if k = (p.id, tenant_id) then some p.fields else none := by
      show lastPG tenant_id pl _ k = _
      rw [ih]
    rw [hc]
    cases lastP tenant_id pl k with
    | some f => rfl
    | none => by_cases hk : k = (p.id, tenant_id) <;> simp [hk]

theorem lastP_cons (tenant_id : Nat) (p : ProductRecord) (pl : List ProductRecord)
    (k : Int × Nat) :
    lastP tenant_id (p :: pl) k =
      match lastP tenant_id pl k with
      | some f => some f
      | none => if k = (p.id, tenant_id) then some p.fields else none := by
  show lastPG tenant_id pl _ k = _
  rw [lastPG_spec]

theorem lastP_eq_none (tenant_id : Nat) (pl : List ProductRecord) (k : Int × Nat)
    (h : lastP tenant_id pl k = none) : ∀ p ∈ pl, (p.id, tenant_id) ≠ k := by
  induction pl with
  | nil => intro p hp; cases hp
  | cons p pl ih =>
    intro p' hp'
    rw [lastP_cons] at h
    rcases List.mem_cons.mp hp' with h1 | h1
    · subst h1
      cases hp : lastP tenant_id pl k with
      | some f => rw [hp] at h; cases h
      | none =>
        rw [hp] at h
        intro hk
        rw [if_pos hk.symm] at h
        cases h
    · cases hp : lastP tenant_id pl k with
      | some f => rw [hp] at h; cases h
      | none => exact ih hp p' h1

def lastVG (vl : List VariantRecord)
    (g : Int → Option VariantFields) : Int → Option VariantFields :=
  vl.foldl (fun g v => fun k => if k = v.id then some v.fields else g k) g

def lastV (vl : List VariantRecord) : Int → Option VariantFields :=
  lastVG vl (fun _ => none)

theorem lastVG_append (a b : List VariantRecord) (g : Int → Option VariantFields) :
    lastVG (a ++ b) g = lastVG b (lastVG a g) := by
  unfold lastVG
  rw [List.foldl_append]

theorem lastVG_spec (vl : List VariantRecord)
    (g : Int → Option VariantFields) (k : Int) :
    lastVG vl g k =
      match lastV vl k with
      | some f => some f
      | none => g k := by
  induction vl generalizing g with
  | nil => rfl
  | cons v vl ih =>
    show lastVG vl _ k = _
    rw [ih]
    have hc : lastV (v :: vl) k =
        match lastV vl k with
        | some f => some f
        | none => if k = v.id then some v.fields else none := by
      show lastVG vl _ k = _
      rw [ih]
    rw [hc]
    cases lastV vl k with
    | some f => rfl
    | none => by_cases hk : k = v.id <;> simp [hk]

theorem lastV_cons (v : VariantRecord) (vl : List VariantRecord) (k : Int) :
    lastV (v :: vl) k =
      match lastV vl k with
      | some f => some f
      | none => if k = v.id then some v.fields else none := by
  show lastVG vl _ k = _
  rw [lastVG_spec]

theorem lastV_append (a b : List VariantRecord) (k : Int) :
    lastV (a ++ b) k =
      match lastV b k with
      | some f => some f
      | none => lastV a k := by
  show lastVG (a ++ b) _ k = _
  rw [lastVG_append, lastVG_spec]
  rfl

theorem lastV_eq_none (vl : List VariantRecord) (k : Int)
    (h : lastV vl k = none) : ∀ v ∈ vl, v.id ≠ k := by
  induction vl with
  | nil => intro v hv; cases hv
  | cons v vl ih =>
    intro v' hv'
    rw [lastV_cons] at h
    rcases List.mem_cons.mp hv' with h1 | h1
    · subst h1
      cases hp : lastV vl k with
      | some f => rw [hp] at h; cases h
      | none =>
        rw [hp] at h
        intro hk
        rw [if_pos hk.symm] at h
        cases h
    · cases hp : lastV vl k with
      | some f => rw [hp] at h; cases h
      | none => exact ih hp v' h1

/-- Frame over variant records that never touch `k`. -/
theorem rowAt_stageVariants_ne (pid : Nat) (s : Store) (vl : List VariantRecord)
    (k : Int) (h : ∀ v ∈ vl, v.id ≠ k) :
    rowAt ProductVariant.key k (stageVariants pid s vl).product_variants =
      rowAt ProductVariant.key k s.product_variants := by
  induction vl generalizing s with
  | nil => rfl
  | cons v vl ih =>
    rw [stageVariants, List.foldl_cons, ← stageVariants]
    rw [ih (variantStep pid s v) (fun v' hv' => h v' (List.mem_cons_of_mem _ hv')),
      rowAt_variantStep_ne pid s v
        (fun hk => h v (List.mem_cons_self _ _) hk.symm)]

theorem rowAt_productStep_variants_ne (tenant_id : Nat) (s : Store)
    (p : ProductRecord) (k : Int) (h : ∀ v ∈ p.variants, v.id ≠ k) :
    rowAt ProductVariant.key k (productStep tenant_id s p).product_variants =
      rowAt ProductVariant.key k s.product_variants := by
  unfold productStep
  cases hr : rowAt Product.key (p.id, tenant_id) s.products with
  | some db_product => exact rowAt_stageVariants_ne _ _ _ _ h
  | none => exact rowAt_stageVariants_ne _ _ _ _ h

theorem rowAt_stageProducts_variants_ne (tenant_id : Nat) (s : Store)
    (pl : List ProductRecord) (k : Int)
    (h : ∀ v ∈ flatVariants pl, v.id ≠ k) :
    rowAt ProductVariant.key k (stageProducts tenant_id s pl).product_variants =
      rowAt ProductVariant.key k s.product_variants := by
  induction pl generalizing s with
  | nil => rfl
  | cons p pl ih =>
    rw [stageProducts, List.foldl_cons, ← stageProducts]
    rw [ih (productStep tenant_id s p)
      (fun v hv => h v (List.mem_append.mpr (Or.inr hv))),
      rowAt_productStep_variants_ne tenant_id s p k
        (fun v hv => h v (List.mem_append.mpr (Or.inl hv)))]

theorem rowAt_stageProducts_ne (tenant_id : Nat) (s : Store)
    (pl : List ProductRecord) (k : Int × Nat)
    (h : ∀ p ∈ pl, (p.id, tenant_id) ≠ k) :
    rowAt Product.key k (stageProducts tenant_id s pl).products =
      rowAt Product.key k s.products := by
  induction pl generalizing s with
  | nil => rfl
  | cons p pl ih =>
    rw [stageProducts, List.foldl_cons, ← stageProducts]
    rw [ih (productStep tenant_id s p) (fun p' hp' => h p' (List.mem_cons_of_mem _ hp')),
      rowAt_productStep_ne tenant_id s p
        (fun hk => h p (List.mem_cons_self _ _) hk.symm)]

/-- The inner loop writes the fields of the last variant record per key. -/
theorem stageVariants_lastFields (pid : Nat) (s : Store) (vl : List VariantRecord)
    (k : Int) (f : VariantFields) (h : lastV vl k = some f) :
    (rowAt ProductVariant.key k (stageVariants pid s vl).product_variants).map
      ProductVariant.getFields = some f := by
  induction vl generalizing s with
  | nil => cases h
  | cons v vl ih =>
    rw [lastV_cons] at h
    rw [stageVariants, List.foldl_cons, ← stageVariants]
    cases hp : lastV vl k with
    | some f' =>
      rw [hp] at h
      cases h
      exact ih _ hp
    | none =>
      rw [hp] at h
      by_cases hk : k = v.id
      · rw [if_pos hk] at h
        cases h
        rw [rowAt_stageVariants_ne pid _ vl k (lastV_eq_none vl k hp), hk]
        exact rowAt_variantStep_self pid s v
      · rw [if_neg hk] at h
        cases h

theorem stageProducts_lastFields (tenant_id : Nat) (s : Store)
    (pl : List ProductRecord) (k : Int × Nat) (f : ProductFields)
    (h : lastP tenant_id pl k = some f) :
    (rowAt Product.key k (stageProducts tenant_id s pl).products).map
      Product.getFields = some f := by
  induction pl generalizing s with
  | nil => cases h
  | cons p pl ih =>
    rw [lastP_cons] at h
    rw [stageProducts, List.foldl_cons, ← stageProducts]
    cases hp : lastP tenant_id pl k with
    | some f' =>
      rw [hp] at h
      cases h
      exact ih _ hp
    | none =>
      rw [hp] at h
      by_cases hk : k = (p.id, tenant_id)
      · rw [if_pos hk] at h
        cases h
        rw [rowAt_stageProducts_ne tenant_id _ pl k (lastP_eq_none tenant_id pl k hp),
          hk]
        exact rowAt_productStep_self tenant_id s p
      · rw [if_neg hk] at h
        cases h

theorem stageProducts_variants_lastFields (tenant_id : Nat) (s : Store)
    (pl : List ProductRecord) (k : Int) (f : VariantFields)
    (h : lastV (flatVariants pl) k = some f) :
    (rowAt ProductVariant.key k
      (stageProducts tenant_id s pl).product_variants).map
      ProductVariant.getFields = some f := by
  induction pl generalizing s with
  | nil => cases h
  | cons p pl ih =>
    have hflat : flatVariants (p :: pl) = p.variants ++ flatVariants pl := rfl
    rw [hflat, lastV_append] at h
    rw [stageProducts, List.foldl_cons, ← stageProducts]
    cases hp : lastV (flatVariants pl) k with
    | some f' =>
      rw [hp] at h
      cases h
      exact ih _ hp
    | none =>
      rw [hp] at h
      rw [rowAt_stageProducts_variants_ne tenant_id _ pl k
        (lastV_eq_none (flatVariants pl) k hp)]
      -- the head product step wrote the last value for `k`
      unfold productStep
      cases hr : rowAt Product.key (p.id, tenant_id) s.products with
      | some db_product => exact stageVariants_lastFields _ _ _ k f h
      | none => exact stageVariants_lastFields _ _ _ k f h

theorem variantStep_ow (pid : Nat) (s : Store) (v : VariantRecord)
    (gP : Int × Nat → Option ProductFields) (gV : Int → Option VariantFields)
    (hndV : keysND ProductVariant.key s.product_variants)
    (hpres : (rowAt ProductVariant.key v.id s.product_variants).isSome = true) :
    variantStep pid (owStoreP gP gV s) v =
      owStoreP gP (fun k => if k = v.id then some v.fields else gV k) s := by
  have hps : (rowAt ProductVariant.key v.id
      (owStoreP gP gV s).product_variants).isSome = true := by
    show (rowAt ProductVariant.key v.id (owT ProductVariant.key
      ProductVariant.setFields gV s.product_variants)).isSome = true
    rw [isSome_rowAt_owT ProductVariant.key ProductVariant.setFields
      variant_key_set]
    exact hpres
  obtain ⟨r2, hr2⟩ := Option.isSome_iff_exists.mp hps
  unfold variantStep
  rw [hr2]
  have hupd := updRow_owT ProductVariant.key ProductVariant.setFields
    variant_key_set variant_set_set (g := gV)
    (l := s.product_variants) v.id v.fields hndV
  show { s with
    products := owT Product.key Product.setFields gP s.products,
    product_variants := (updRow ProductVariant.key ProductVariant.setFields
      v.id v.fields
      (owT ProductVariant.key ProductVariant.setFields gV s.product_variants)) } = _
  rw [hupd]
  rfl

theorem stageVariants_ow (pid : Nat) (s : Store) (vl : List VariantRecord)
    (gP : Int × Nat → Option ProductFields) (gV : Int → Option VariantFields)
    (hndV : keysND ProductVariant.key s.product_variants)
    (hall : ∀ v ∈ vl,
      (rowAt ProductVariant.key v.id s.product_variants).isSome = true) :
    stageVariants pid (owStoreP gP gV s) vl = owStoreP gP (lastVG vl gV) s := by
  induction vl generalizing gV with
  | nil => rfl
  | cons v vl ih =>
    rw [stageVariants, List.foldl_cons, ← stageVariants]
    rw [variantStep_ow pid s v gP gV hndV (hall v (List.mem_cons_self _ _))]
    exact ih _ (fun v' hv' => hall v' (List.mem_cons_of_mem _ hv'))

theorem productStep_ow (tenant_id : Nat) (s : Store) (p : ProductRecord)
    (gP : Int × Nat → Option ProductFields) (gV : Int → Option VariantFields)
    (hndP : keysND Product.key s.products)
    (hndV : keysND ProductVariant.key s.product_variants)
    (hpresP : (rowAt Product.key (p.id, tenant_id) s.products).isSome = true)
    (hpresV : ∀ v ∈ p.variants,
      (rowAt ProductVariant.key v.id s.product_variants).isSome = true) :
    productStep tenant_id (owStoreP gP gV s) p =
      owStoreP (fun k => if k = (p.id, tenant_id) then some p.fields else gP k)
        (lastVG p.variants gV) s := by
  have hps : (rowAt Product.key (p.id, tenant_id)
      (owStoreP gP gV s).products).isSome = true := by
    show (rowAt Product.key (p.id, tenant_id)
      (owT Product.key Product.setFields gP s.products)).isSome = true
    rw [isSome_rowAt_owT Product.key Product.setFields product_key_set]
    exact hpresP
  obtain ⟨r2, hr2⟩ := Option.isSome_iff_exists.mp hps
  unfold productStep
  rw [hr2]
  have hupd := updRow_owT Product.key Product.setFields product_key_set
    product_set_set (g := gP) (l := s.products) (p.id, tenant_id) p.fields hndP
  show stageVariants r2.id
    { s with
      products := (updRow Product.key Product.setFields (p.id, tenant_id) p.fields
        (owT Product.key Product.setFields gP s.products)),
      product_variants :=
        owT ProductVariant.key ProductVariant.setFields gV s.product_variants }
    p.variants = _
  rw [hupd]
  show stageVariants r2.id
    (owStoreP (fun k => if k = (p.id, tenant_id) then some p.fields else gP k) gV s)
    p.variants = _
  exact stageVariants_ow r2.id s p.variants _ gV hndV hpresV

theorem stageProducts_ow (tenant_id : Nat) (s : Store) (pl : List ProductRecord)
    (gP : Int × Nat → Option ProductFields) (gV : Int → Option VariantFields)
    (hndP : keysND Product.key s.products)
    (hndV : keysND ProductVariant.key s.product_variants)
    (hallP : ∀ p ∈ pl, (rowAt Product.key (p.id, tenant_id) s.products).isSome = true)
    (hallV : ∀ v ∈ flatVariants pl,
      (rowAt ProductVariant.key v.id s.product_variants).isSome = true) :
    stageProducts tenant_id (owStoreP gP gV s) pl =
      owStoreP (lastPG tenant_id pl gP) (lastVG (flatVariants pl) gV) s := by
  induction pl generalizing gP gV with
  | nil => rfl
  | cons p pl ih =>
    rw [stageProducts, List.foldl_cons, ← stageProducts]
    rw [productStep_ow tenant_id s p gP gV hndP hndV (hallP p (List.mem_cons_self _ _))
      (fun v hv => hallV v (List.mem_append.mpr (Or.inl hv)))]
    rw [ih _ _ (fun p' hp' => hallP p' (List.mem_cons_of_mem _ hp'))
      (fun v hv => hallV v (List.mem_append.mpr (Or.inr hv)))]
    rw [show flatVariants (p :: pl) = p.variants ++ flatVariants pl from rfl,
      lastVG_append]
    rfl

/-- Staging the same product payload a second time changes nothing. -/
theorem stageProducts_idem (tenant_id : Nat) (s : Store) (pl : List ProductRecord)
    (hndP : keysND Product.key s.products)
    (hndV : keysND ProductVariant.key s.product_variants) :
    stageProducts tenant_id (stageProducts tenant_id s pl) pl =
      stageProducts tenant_id s pl := by
  have hnd2 := stageProducts_keysND tenant_id s pl hndP hndV
  have hallP : ∀ p ∈ pl, (rowAt Product.key (p.id, tenant_id)
      (stageProducts tenant_id s pl).products).isSome = true :=
    fun p hp => stageProducts_present tenant_id s pl p hp
  have hallV : ∀ v ∈ flatVariants pl, (rowAt ProductVariant.key v.id
      (stageProducts tenant_id s pl).product_variants).isSome = true :=
    fun v hv => stageProducts_variants_present tenant_id s pl v hv
  have h1 : stageProducts tenant_id (stageProducts tenant_id s pl) pl =
      owStoreP (lastPG tenant_id pl (fun _ => none))
        (lastVG (flatVariants pl) (fun _ => none)) (stageProducts tenant_id s pl) := by
    rw [← stageProducts_ow tenant_id _ pl (fun _ => none) (fun _ => none)
      hnd2.1 hnd2.2 hallP hallV, owStoreP_none]
  rw [h1]
  unfold owStoreP
  have hprod : owT Product.key Product.setFields (lastPG tenant_id pl (fun _ => none))
      (stageProducts tenant_id s pl).products =
      (stageProducts tenant_id s pl).products := by
    apply owT_id
    intro r hr f hf
    have hrow : rowAt Product.key (Product.key r)
        (stageProducts tenant_id s pl).products = some r :=
      rowAt_mem_nodup Product.key hnd2.1 hr
    have hlast := stageProducts_lastFields tenant_id s pl (Product.key r) f hf
    rw [hrow] at hlast
    have hget : Product.getFields r = f := Option.some.inj hlast
    rw [← hget, product_set_get]
  have hvar : owT ProductVariant.key ProductVariant.setFields
      (lastVG (flatVariants pl) (fun _ => none))
      (stageProducts tenant_id s pl).product_variants =
      (stageProducts tenant_id s pl).product_variants := by
    apply owT_id
    intro r hr f hf
    have hrow : rowAt ProductVariant.key (ProductVariant.key r)
        (stageProducts tenant_id s pl).product_variants = some r :=
      rowAt_mem_nodup ProductVariant.key hnd2.2 hr
    have hlast := stageProducts_variants_lastFields tenant_id s pl
      (ProductVariant.key r) f hf
    rw [hrow] at hlast
    have hget : ProductVariant.getFields r = f := Option.some.inj hlast
    rw [← hget, variant_set_get]
  rw [hprod, hvar]

/-- Re-running the product ingestion endpoint with the same payload leaves
the store of the first run unchanged. -/
theorem ingest_products_idem (tenant_id : Nat) (s : Store) (pl : List ProductRecord)
    (hndP : keysND Product.key s.products)
    (hndV : keysND ProductVariant.key s.product_variants) :
    (ingest_products (ingest_products s tenant_id pl).1 tenant_id pl).1 =
      (ingest_products s tenant_id pl).1 := by
  by_cases ht : tenantExists s tenant_id = true
  · by_cases hok : storeOk (stageProducts tenant_id s pl)
    · have h1 : ingest_products s tenant_id pl =
          (stageProducts tenant_id s pl, .ok pl.length) := by
        unfold ingest_products commitBatch
        rw [if_pos ht, if_pos hok]
      have ht2 : tenantExists (stageProducts tenant_id s pl) tenant_id = true := by
        unfold tenantExists
        rw [(stageProducts_frame tenant_id s pl).1]
        exact ht
      have h2 : ingest_products (stageProducts tenant_id s pl) tenant_id pl =
          (stageProducts tenant_id s pl, .ok pl.length) := by
        unfold ingest_products commitBatch
        rw [if_pos ht2, stageProducts_idem tenant_id s pl hndP hndV, if_pos hok]
      rw [h1]
      show (ingest_products (stageProducts tenant_id s pl) tenant_id pl).1 =
        stageProducts tenant_id s pl
      rw [h2]
    · have h1 : ingest_products s tenant_id pl = (s, .conflict) := by
        unfold ingest_products commitBatch
        rw [if_pos ht, if_neg hok]
      rw [h1]
      show (ingest_products s tenant_id pl).1 = s
      rw [h1]
  · have h1 : ingest_products s tenant_id pl = (s, .notFound) := by
      unfold ingest_products
      rw [if_neg ht]
    rw [h1]
    show (ingest_products s tenant_id pl).1 = s
    rw [h1]

/-! ## Idempotence of order reconciliation -/

/-- The line-item loop touches only the `order_line_items` table. -/
theorem lineItemStep_frame (oid : Nat) (s : Store) (li : LineItemRecord) :
    (lineItemStep oid s li).tenants = s.tenants ∧
    (lineItemStep oid s li).customers = s.customers ∧
    (lineItemStep oid s li).products = s.products ∧
    (lineItemStep oid s li).product_variants = s.product_variants ∧
    (lineItemStep oid s li).orders = s.orders := by
  unfold lineItemStep
  cases hv : rowAt ProductVariant.key li.variant_id s.product_variants with
  | none => exact ⟨rfl, rfl, rfl, rfl, rfl⟩
  | some dbv =>
    simp only
    cases rowAt OrderLineItem.key (oid, dbv.id) s.order_line_items <;>
      exact ⟨rfl, rfl, rfl, rfl, rfl⟩

theorem stageLineItems_frame (oid : Nat) (s : Store) (lil : List LineItemRecord) :
    (stageLineItems oid s lil).tenants = s.tenants ∧
    (stageLineItems oid s lil).customers = s.customers ∧
    (stageLineItems oid s lil).products = s.products ∧
    (stageLineItems oid s lil).product_variants = s.product_variants ∧
    (stageLineItems oid s lil).orders = s.orders := by
  induction lil generalizing s with
  | nil => exact ⟨rfl, rfl, rfl, rfl, rfl⟩
  | cons li lil ih =>
    have h1 := lineItemStep_frame oid s li
    have h2 := ih (lineItemStep oid s li)
    exact ⟨h2.1.trans h1.1, h2.2.1.trans h1.2.1, h2.2.2.1.trans h1.2.2.1,
      h2.2.2.2.1.trans h1.2.2.2.1, h2.2.2.2.2.trans h1.2.2.2.2⟩

/-- The order loop touches only `orders` and `order_line_items`. -/
theorem orderStep_frame (tenant_id : Nat) (s : Store) (o : OrderRecord) :
    (orderStep tenant_id s o).tenants = s.tenants ∧
    (orderStep tenant_id s o).customers = s.customers ∧
    (orderStep tenant_id s o).products = s.products ∧
    (orderStep tenant_id s o).product_variants = s.product_variants := by
  unfold orderStep
  cases rowAt Order.key (o.id, tenant_id) s.orders with
  | some db_order =>
    have h := stageLineItems_frame db_order.id
      { s with orders :=
        (updRow Order.key Order.setFields (o.id, tenant_id)
          ⟨o.total_price, o.currency,
            resolveCustomerId tenant_id s.customers o.customer⟩ s.orders) }
      o.line_items
    exact ⟨h.1, h.2.1, h.2.2.1, h.2.2.2.1⟩
  | none =>
    have h := stageLineItems_frame
      (newOrder tenant_id (resolveCustomerId tenant_id s.customers o.customer) s o).id
      { s with orders := s.orders ++
        [newOrder tenant_id (resolveCustomerId tenant_id s.customers o.customer) s o] }
      o.line_items
    exact ⟨h.1, h.2.1, h.2.2.1, h.2.2.2.1⟩

theorem stageOrders_frame (tenant_id : Nat) (s : Store) (ol : List OrderRecord) :
    (stageOrders tenant_id s ol).tenants = s.tenants ∧
    (stageOrders tenant_id s ol).customers = s.customers ∧
    (stageOrders tenant_id s ol).products = s.products ∧
    (stageOrders tenant_id s ol).product_variants = s.product_variants := by
  induction ol generalizing s with
  | nil => exact ⟨rfl, rfl, rfl, rfl⟩
  | cons o ol ih =>
    have h1 := orderStep_frame tenant_id s o
    have h2 := ih (orderStep tenant_id s o)
    exact ⟨h2.1.trans h1.1, h2.2.1.trans h1.2.1, h2.2.2.1.trans h1.2.2.1,
      h2.2.2.2.trans h1.2.2.2⟩

theorem stageLineItems_orders (oid : Nat) (s : Store) (lil : List LineItemRecord) :
    (stageLineItems oid s lil).orders = s.orders :=
  (stageLineItems_frame oid s lil).2.2.2.2

theorem lineItemStep_variants (oid : Nat) (s : Store) (li : LineItemRecord) :
    (lineItemStep oid s li).product_variants = s.product_variants :=
  (lineItemStep_frame oid s li).2.2.2.1

/-- A line-item step whose resolved key differs from `k` leaves the row at
`k` unchanged (a step with an unresolvable variant changes nothing). -/
theorem rowAt_lineItemStep_ne (oid : Nat) (s : Store) (li : LineItemRecord)
    {k : Nat × Nat}
    (hne : ∀ dbv, rowAt ProductVariant.key li.variant_id s.product_variants =
      some dbv → k ≠ (oid, dbv.id)) :
    rowAt OrderLineItem.key k (lineItemStep oid s li).order_line_items =
      rowAt OrderLineItem.key k s.order_line_items := by
  unfold lineItemStep
  cases hv : rowAt ProductVariant.key li.variant_id s.product_variants with
  | none => rfl
  | some dbv =>
    simp only
    cases hl : rowAt OrderLineItem.key (oid, dbv.id) s.order_line_items with
    | some r =>
      simp only
      exact rowAt_updRow_ne OrderLineItem.key OrderLineItem.setFields
        line_item_key_set (hne dbv hv) _ _
    | none =>
      simp only
      apply rowAt_append_singleton_ne
      rw [newLineItem_key]
      exact fun hk => hne dbv hv hk.symm

/-- After a line-item step with a resolvable variant, the resolved key is
present and carries the record's fields. -/
theorem rowAt_lineItemStep_self (oid : Nat) (s : Store) (li : LineItemRecord)
    (dbv : ProductVariant)
    (hv : rowAt ProductVariant.key li.variant_id s.product_variants = some dbv) :
    (rowAt OrderLineItem.key (oid, dbv.id)
      (lineItemStep oid s li).order_line_items).map
      OrderLineItem.getFields = some li.fields := by
  unfold lineItemStep
  rw [hv]
  simp only
  cases hl : rowAt OrderLineItem.key (oid, dbv.id) s.order_line_items with
  | some r =>
    simp only
    rw [rowAt_updRow_self OrderLineItem.key OrderLineItem.setFields
      line_item_key_set, hl]
    rfl
  | none =>
    simp only
    rw [rowAt_append_singleton_self OrderLineItem.key (oid, dbv.id)
      s.order_line_items (newLineItem oid dbv.id s li)
      (newLineItem_key oid dbv.id s li) hl]
    exact congrArg some (newLineItem_fields oid dbv.id s li)

theorem rowAt_lineItemStep_mono (oid : Nat) (s : Store) (li : LineItemRecord)
    (k : Nat × Nat)
    (h : (rowAt OrderLineItem.key k s.order_line_items).isSome = true) :
    (rowAt OrderLineItem.key k (lineItemStep oid s li).order_line_items).isSome
      = true := by
  unfold lineItemStep
  cases hv : rowAt ProductVariant.key li.variant_id s.product_variants with
  | none => exact h
  | some dbv =>
    simp only
    cases hl : rowAt OrderLineItem.key (oid, dbv.id) s.order_line_items with
    | some r =>
      simp only
      by_cases hk : k = (oid, dbv.id)
      · subst hk
        rw [rowAt_updRow_self OrderLineItem.key OrderLineItem.setFields
          line_item_key_set, hl]
        rfl
      · rw [rowAt_updRow_ne OrderLineItem.key OrderLineItem.setFields
          line_item_key_set hk _ _]
        exact h
    | none =>
      simp only
      by_cases hk : k = (oid, dbv.id)
      · subst hk
        rw [rowAt_append_singleton_self OrderLineItem.key (oid, dbv.id)
          s.order_line_items (newLineItem oid dbv.id s li)
          (newLineItem_key oid dbv.id s li) hl]
        rfl
      · rw [rowAt_append_singleton_ne OrderLineItem.key k s.order_line_items
          (newLineItem oid dbv.id s li)]
        · exact h
        · rw [newLineItem_key]
          exact fun hkk => hk hkk.symm

theorem rowAt_stageLineItems_mono (oid : Nat) (s : Store)
    (lil : List LineItemRecord) (k : Nat × Nat)
    (h : (rowAt OrderLineItem.key k s.order_line_items).isSome = true) :
    (rowAt OrderLineItem.key k
      (stageLineItems oid s lil).order_line_items).isSome = true := by
  induction lil generalizing s with
  | nil => exact h
  | cons li lil ih => exact ih _ (rowAt_lineItemStep_mono oid s li k h)

theorem lineItemStep_keysND (oid : Nat) (s : Store) (li : LineItemRecord)
    (hnd : keysND OrderLineItem.key s.order_line_items) :
    keysND OrderLineItem.key (lineItemStep oid s li).order_line_items := by
  unfold lineItemStep
  cases hv : rowAt ProductVariant.key li.variant_id s.product_variants with
  | none => exact hnd
  | some dbv =>
    simp only
    cases hl : rowAt OrderLineItem.key (oid, dbv.id) s.order_line_items with
    | some r =>
      simp only
      exact keysND_updRow OrderLineItem.key OrderLineItem.setFields
        line_item_key_set _ _ hnd
    | none =>
      simp only
      apply keysND_append_singleton OrderLineItem.key hnd
      rw [newLineItem_key]
      exact hl

theorem stageLineItems_keysND (oid : Nat) (s : Store) (lil : List LineItemRecord)
    (hnd : keysND OrderLineItem.key s.order_line_items) :
    keysND OrderLineItem.key (stageLineItems oid s lil).order_line_items := by
  induction lil generalizing s with
  | nil => exact hnd
  | cons li lil ih => exact ih _ (lineItemStep_keysND oid s li hnd)

/-- The order fields written for record `o`, with the customer reference
resolved against the customer table `cs`. -/
def orderFieldsOf (tenant_id : Nat) (cs : List Customer) (o : OrderRecord) :
    OrderFields :=
  ⟨o.total_price, o.currency, resolveCustomerId tenant_id cs o.customer⟩

/-- The internal id of the order row with external key `(soid, tenant_id)`. -/
def orderIdAt (s : Store) (tenant_id : Nat) (soid : Int) : Nat :=
  match rowAt Order.key (soid, tenant_id) s.orders with
  | some r => r.id
  | none => 0

theorem rowAt_orderStep_self (tenant_id : Nat) (s : Store) (o : OrderRecord) :
    (rowAt Order.key (o.id, tenant_id) (orderStep tenant_id s o).orders).map
      Order.getFields = some (orderFieldsOf tenant_id s.customers o) := by
  unfold orderStep
  cases ho : rowAt Order.key (o.id, tenant_id) s.orders with
  | some db_order =>
    simp only
    rw [stageLineItems_orders]
    show (rowAt Order.key (o.id, tenant_id)
      (updRow Order.key Order.setFields (o.id, tenant_id)
        ⟨o.total_price, o.currency,
          resolveCustomerId tenant_id s.customers o.customer⟩ s.orders)).map
      Order.getFields = some (orderFieldsOf tenant_id s.customers o)
    rw [rowAt_updRow_self Order.key Order.setFields order_key_set, ho]
    rfl
  | none =>
    simp only
    rw [stageLineItems_orders]
    show (rowAt Order.key (o.id, tenant_id)
      (s.orders ++ [newOrder tenant_id
        (resolveCustomerId tenant_id s.customers o.customer) s o])).map
      Order.getFields = some (orderFieldsOf tenant_id s.customers o)
    rw [rowAt_append_singleton_self Order.key (o.id, tenant_id) s.orders
      (newOrder tenant_id (resolveCustomerId tenant_id s.customers o.customer) s o)
      (newOrder_key tenant_id _ s o) ho]
    exact congrArg some (newOrder_fields tenant_id _ s o)

theorem rowAt_orderStep_ne (tenant_id : Nat) (s : Store) (o : OrderRecord)
    {k : Int × Nat} (hne : k ≠ (o.id, tenant_id)) :
    rowAt Order.key k (orderStep tenant_id s o).orders =
      rowAt Order.key k s.orders := by
  unfold orderStep
  cases ho : rowAt Order.key (o.id, tenant_id) s.orders with
  | some db_order =>
    simp only
    rw [stageLineItems_orders]
    exact rowAt_updRow_ne Order.key Order.setFields order_key_set hne _ _
  | none =>
    simp only
    rw [stageLineItems_orders]
    apply rowAt_append_singleton_ne
    rw [newOrder_key]
    exact fun hk => hne hk.symm

theorem rowAt_orderStep_mono (tenant_id : Nat) (s : Store) (o : OrderRecord)
    (k : Int × Nat) (h : (rowAt Order.key k s.orders).isSome = true) :
    (rowAt Order.key k (orderStep tenant_id s o).orders).isSome = true := by
  by_cases hk : k = (o.id, tenant_id)
  · subst hk
    have hself := rowAt_orderStep_self tenant_id s o
    cases hr : rowAt Order.key (o.id, tenant_id) (orderStep tenant_id s o).orders with
    | some r => rfl
    | none => rw [hr] at hself; cases hself
  · rw [rowAt_orderStep_ne tenant_id s o hk]
    exact h

theorem rowAt_stageOrders_mono (tenant_id : Nat) (s : Store)
    (ol : List OrderRecord) (k : Int × Nat)
    (h : (rowAt Order.key k s.orders).isSome = true) :
    (rowAt Order.key k (stageOrders tenant_id s ol).orders).isSome = true := by
  induction ol generalizing s with
  | nil => exact h
  | cons o ol ih => exact ih _ (rowAt_orderStep_mono tenant_id s o k h)

theorem stageOrders_present (tenant_id : Nat) (s : Store)
    (ol : List OrderRecord) (o : OrderRecord) (ho : o ∈ ol) :
    (rowAt Order.key (o.id, tenant_id)
      (stageOrders tenant_id s ol).orders).isSome = true := by
  induction ol generalizing s with
  | nil => cases ho
  | cons o' ol ih =>
    rw [stageOrders, List.foldl_cons, ← stageOrders]
    rcases List.mem_cons.mp ho with h | h
    · subst h
      apply rowAt_stageOrders_mono
      have hself := rowAt_orderStep_self tenant_id s o
      cases hr : rowAt Order.key (o.id, tenant_id) (orderStep tenant_id s o).orders with
      | some r => rfl
      | none => rw [hr] at hself; cases hself
    · exact ih (orderStep tenant_id s o') h

theorem orderStep_keysND (tenant_id : Nat) (s : Store) (o : OrderRecord)
    (hndO : keysND Order.key s.orders)
    (hndL : keysND OrderLineItem.key s.order_line_items) :
    keysND Order.key (orderStep tenant_id s o).orders ∧
    keysND OrderLineItem.key (orderStep tenant_id s o).order_line_items := by
  unfold orderStep
  cases ho : rowAt Order.key (o.id, tenant_id) s.orders with
  | some db_order =>
    simp only
    constructor
    · rw [stageLineItems_orders]
      exact keysND_updRow Order.key Order.setFields order_key_set _ _ hndO
    · exact stageLineItems_keysND _ _ _ hndL
  | none =>
    simp only
    constructor
    · rw [stageLineItems_orders]
      apply keysND_append_singleton Order.key hndO
      rw [newOrder_key]
      exact ho
    · exact stageLineItems_keysND _ _ _ hndL

theorem stageOrders_keysND (tenant_id : Nat) (s : Store) (ol : List OrderRecord)
    (hndO : keysND Order.key s.orders)
    (hndL : keysND OrderLineItem.key s.order_line_items) :
    keysND Order.key (stageOrders tenant_id s ol).orders ∧
    keysND OrderLineItem.key (stageOrders tenant_id s ol).order_line_items := by
  induction ol generalizing s with
  | nil => exact ⟨hndO, hndL⟩
  | cons o ol ih =>
    have h := orderStep_keysND tenant_id s o hndO hndL
    exact ih _ h.1 h.2

/-- Line-item presence survives an order step. -/
theorem rowAt_orderStep_li_mono (tenant_id : Nat) (s : Store) (o : OrderRecord)
    (k : Nat × Nat)
    (h : (rowAt OrderLineItem.key k s.order_line_items).isSome = true) :
    (rowAt OrderLineItem.key k (orderStep tenant_id s o).order_line_items).isSome
      = true := by
  unfold orderStep
  cases ho : rowAt Order.key (o.id, tenant_id) s.orders with
  | some db_order => exact rowAt_stageLineItems_mono _ _ _ _ h
  | none => exact rowAt_stageLineItems_mono _ _ _ _ h

theorem rowAt_stageOrders_li_mono (tenant_id : Nat) (s : Store)
    (ol : List OrderRecord) (k : Nat × Nat)
    (h : (rowAt OrderLineItem.key k s.order_line_items).isSome = true) :
    (rowAt OrderLineItem.key k
      (stageOrders tenant_id s ol).order_line_items).isSome = true := by
  induction ol generalizing s with
  | nil => exact h
  | cons o ol ih => exact ih _ (rowAt_orderStep_li_mono tenant_id s o k h)

/-- Once an order key is present, later steps never change the row's id. -/
theorem idAt_orderStep_stable (tenant_id : Nat) (s : Store) (o : OrderRecord)
    (k : Int × Nat) (h : (rowAt Order.key k s.orders).isSome = true) :
    (rowAt Order.key k (orderStep tenant_id s o).orders).map (·.id) =
      (rowAt Order.key k s.orders).map (·.id) := by
  by_cases hk : k = (o.id, tenant_id)
  · subst hk
    unfold orderStep
    cases ho : rowAt Order.key (o.id, tenant_id) s.orders with
    | some db_order =>
      simp only
      rw [stageLineItems_orders]
      show (rowAt Order.key (o.id, tenant_id)
        (updRow Order.key Order.setFields (o.id, tenant_id)
          ⟨o.total_price, o.currency,
            resolveCustomerId tenant_id s.customers o.customer⟩ s.orders)).map
        (·.id) = _
      rw [rowAt_updRow_self Order.key Order.setFields order_key_set, ho]
      rfl
    | none => rw [ho] at h; cases h
  · rw [rowAt_orderStep_ne tenant_id s o hk]

theorem idAt_stageOrders_stable (tenant_id : Nat) (s : Store)
    (ol : List OrderRecord) (k : Int × Nat)
    (h : (rowAt Order.key k s.orders).isSome = true) :
    (rowAt Order.key k (stageOrders tenant_id s ol).orders).map (·.id) =
      (rowAt Order.key k s.orders).map (·.id) := by
  induction ol generalizing s with
  | nil => rfl
  | cons o ol ih =>
    rw [stageOrders, List.foldl_cons, ← stageOrders]
    rw [ih (orderStep tenant_id s o) (rowAt_orderStep_mono tenant_id s o k h),
      idAt_orderStep_stable tenant_id s o k h]

theorem orderIdAt_eq (s : Store) (tenant_id : Nat) (soid : Int) (r : Order)
    (h : rowAt Order.key (soid, tenant_id) s.orders = some r) :
    orderIdAt s tenant_id soid = r.id := by
  unfold orderIdAt
  rw [h]

/-- Presence of the resolved key after the inner line-item loop. -/
theorem stageLineItems_present (oid : Nat) (s : Store) (lil : List LineItemRecord)
    (li : LineItemRecord) (hli : li ∈ lil) (dbv : ProductVariant)
    (hv : rowAt ProductVariant.key li.variant_id s.product_variants = some dbv) :
    (rowAt OrderLineItem.key (oid, dbv.id)
      (stageLineItems oid s lil).order_line_items).isSome = true := by
  induction lil generalizing s with
  | nil => cases hli
  | cons li' lil ih =>
    rw [stageLineItems, List.foldl_cons, ← stageLineItems]
    rcases List.mem_cons.mp hli with h | h
    · subst h
      apply rowAt_stageLineItems_mono
      have hself := rowAt_lineItemStep_self oid s li dbv hv
      cases hr : rowAt OrderLineItem.key (oid, dbv.id)
          (lineItemStep oid s li).order_line_items with
      | some r => rfl
      | none => rw [hr] at hself; cases hself
    · apply ih (lineItemStep oid s li') h
      rw [lineItemStep_variants]
      exact hv

/-- The write performed on the ghost line-item map by one record: the
resolved key (if any) is overridden with the record's fields. -/
def lastLStep (vt : List ProductVariant) (oid : Nat)
    (g : Nat × Nat → Option LineItemFields) (li : LineItemRecord) :
    Nat × Nat → Option LineItemFields :=
  match rowAt ProductVariant.key li.variant_id vt with
  | none => g
  | some dbv => fun k => if k = (oid, dbv.id) then some li.fields else g k

/-- The last fields written to resolved key `k` by the line-item records of
one order, against the variant table `vt`. -/
def lastLG (vt : List ProductVariant) (oid : Nat) (lil : List LineItemRecord)
    (g : Nat × Nat → Option LineItemFields) : Nat × Nat → Option LineItemFields :=
  lil.foldl (lastLStep vt oid) g

def lastL (vt : List ProductVariant) (oid : Nat) (lil : List LineItemRecord) :
    Nat × Nat → Option LineItemFields :=
  lastLG vt oid lil (fun _ => none)

theorem lastLStep_apply (vt : List ProductVariant) (oid : Nat)
    (g : Nat × Nat → Option LineItemFields) (li : LineItemRecord) (k : Nat × Nat) :
    lastLStep vt oid g li k =
      match rowAt ProductVariant.key li.variant_id vt with
      | none => g k
      | some dbv => if k = (oid, dbv.id) then some li.fields else g k := by
  unfold lastLStep
  cases rowAt ProductVariant.key li.variant_id vt <;> rfl

theorem lastLG_spec (vt : List ProductVariant) (oid : Nat)
    (lil : List LineItemRecord) (g : Nat × Nat → Option LineItemFields)
    (k : Nat × Nat) :
    lastLG vt oid lil g k =
      match lastL vt oid lil k with
      | some f => some f
      | none => g k := by
  induction lil generalizing g with
  | nil => rfl
  | cons li lil ih =>
    show lastLG vt oid lil _ k = _
    rw [ih]
    have hc : lastL vt oid (li :: lil) k =
        match lastL vt oid lil k with
        | some f => some f
        | none =>
          match rowAt ProductVariant.key li.variant_id vt with
          | none => none
          | some dbv => if k = (oid, dbv.id) then some li.fields else none := by
      show lastLG vt oid lil _ k = _
      rw [ih]
      cases lastL vt oid lil k with
      | some f => rfl
      | none => rw [lastLStep_apply]
    rw [hc]
    cases lastL vt oid lil k with
    | some f => rfl
    | none =>
      rw [lastLStep_apply]
      cases hv : rowAt ProductVariant.key li.variant_id vt with
      | none => rfl
      | some dbv => by_cases hk : k = (oid, dbv.id) <;> simp [hk]

theorem lastL_cons (vt : List ProductVariant) (oid : Nat) (li : LineItemRecord)
    (lil : List LineItemRecord) (k : Nat × Nat) :
    lastL vt oid (li :: lil) k =
      match lastL vt oid lil k with
      | some f => some f
      | none =>
        match rowAt ProductVariant.key li.variant_id vt with
        | none => none
        | some dbv => if k = (oid, dbv.id) then some li.fields else none := by
  show lastLG vt oid lil _ k = _
  rw [lastLG_spec]
  cases lastL vt oid lil k with
  | some f => rfl
  | none => rw [lastLStep_apply]

theorem lastL_eq_none (vt : List ProductVariant) (oid : Nat)
    (lil : List LineItemRecord) (k : Nat × Nat)
    (h : lastL vt oid lil k = none) :
    ∀ li ∈ lil, ∀ dbv, rowAt ProductVariant.key li.variant_id vt = some dbv →
      (oid, dbv.id) ≠ k := by
  induction lil with
  | nil => intro li hli; cases hli
  | cons li lil ih =>
    intro li' hli' dbv hdbv
    rw [lastL_cons] at h
    rcases List.mem_cons.mp hli' with h1 | h1
    · subst h1
      cases hp : lastL vt oid lil k with
      | some f => rw [hp] at h; cases h
      | none =>
        rw [hp, hdbv] at h
        simp only at h
        intro hk
        rw [if_pos hk.symm] at h
        cases h
    · cases hp : lastL vt oid lil k with
      | some f => rw [hp] at h; cases h
      | none => exact ih hp li' h1 dbv hdbv

/-- Frame over line-item records none of which resolve to key `k`. -/
theorem rowAt_stageLineItems_ne (oid : Nat) (s : Store) (lil : List LineItemRecord)
    (k : Nat × Nat)
    (h : ∀ li ∈ lil, ∀ dbv,
      rowAt ProductVariant.key li.variant_id s.product_variants = some dbv →
      (oid, dbv.id) ≠ k) :
    rowAt OrderLineItem.key k (stageLineItems oid s lil).order_line_items =
      rowAt OrderLineItem.key k s.order_line_items := by
  induction lil generalizing s with
  | nil => rfl
  | cons li lil ih =>
    rw [stageLineItems, List.foldl_cons, ← stageLineItems]
    have h2 : ∀ li' ∈ lil, ∀ dbv, rowAt ProductVariant.key li'.variant_id
        (lineItemStep oid s li).product_variants = some dbv → (oid, dbv.id) ≠ k := by
      intro li' hli' dbv hdbv
      rw [lineItemStep_variants] at hdbv
      exact h li' (List.mem_cons_of_mem _ hli') dbv hdbv
    rw [ih (lineItemStep oid s li) h2,
      rowAt_lineItemStep_ne oid s li
        (fun dbv hdbv hk => h li (List.mem_cons_self _ _) dbv hdbv hk.symm)]

/-- The inner loop writes the fields of the last resolvable record per key. -/
theorem stageLineItems_lastFields (oid : Nat) (s : Store)
    (lil : List LineItemRecord) (k : Nat × Nat) (fl : LineItemFields)
    (h : lastL s.product_variants oid lil k = some fl) :
    (rowAt OrderLineItem.key k (stageLineItems oid s lil).order_line_items).map
      OrderLineItem.getFields = some fl := by
  induction lil generalizing s with
  | nil => cases h
  | cons li lil ih =>
    rw [lastL_cons] at h
    rw [stageLineItems, List.foldl_cons, ← stageLineItems]
    cases hp : lastL s.product_variants oid lil k with
    | some f' =>
      rw [hp] at h
      cases h
      have := ih (lineItemStep oid s li)
      rw [lineItemStep_variants] at this
      exact this hp
    | none =>
      rw [hp] at h
      cases hv : rowAt ProductVariant.key li.variant_id s.product_variants with
      | none => rw [hv] at h; cases h
      | some dbv =>
        rw [hv] at h
        simp only at h
        by_cases hk : k = (oid, dbv.id)
        · rw [if_pos hk] at h
          cases h
          have hfr : rowAt OrderLineItem.key k
              (stageLineItems oid (lineItemStep oid s li) lil).order_line_items =
              rowAt OrderLineItem.key k (lineItemStep oid s li).order_line_items := by
            apply rowAt_stageLineItems_ne
            intro li' hli' dbv' hdbv'
            rw [lineItemStep_variants] at hdbv'
            exact lastL_eq_none s.product_variants oid lil k hp li' hli' dbv' hdbv'
          rw [hfr, hk]
          exact rowAt_lineItemStep_self oid s li dbv hv
        · rw [if_neg hk] at h
          cases h

/-- After one order step: the order's row id, and presence of every
resolvable line-item key under that id. -/
theorem orderStep_li_post (tenant_id : Nat) (s : Store) (o : OrderRecord) :
    ∃ oid, (rowAt Order.key (o.id, tenant_id)
        (orderStep tenant_id s o).orders).map (·.id) = some oid ∧
      ∀ li ∈ o.line_items, ∀ dbv,
        rowAt ProductVariant.key li.variant_id s.product_variants = some dbv →
        (rowAt OrderLineItem.key (oid, dbv.id)
          (orderStep tenant_id s o).order_line_items).isSome = true := by
  unfold orderStep
  cases ho : rowAt Order.key (o.id, tenant_id) s.orders with
  | some db_order =>
    simp only
    refine ⟨db_order.id, ?_, ?_⟩
    · rw [stageLineItems_orders]
      show (rowAt Order.key (o.id, tenant_id)
        (updRow Order.key Order.setFields (o.id, tenant_id)
          ⟨o.total_price, o.currency,
            resolveCustomerId tenant_id s.customers o.customer⟩ s.orders)).map
        (·.id) = some db_order.id
      rw [rowAt_updRow_self Order.key Order.setFields order_key_set, ho]
      rfl
    · intro li hli dbv hv
      exact stageLineItems_present db_order.id _ o.line_items li hli dbv hv
  | none =>
    simp only
    refine ⟨(newOrder tenant_id
      (resolveCustomerId tenant_id s.customers o.customer) s o).id, ?_, ?_⟩
    · rw [stageLineItems_orders]
      show (rowAt Order.key (o.id, tenant_id) (s.orders ++
        [newOrder tenant_id (resolveCustomerId tenant_id s.customers o.customer)
          s o])).map (·.id) = _
      rw [rowAt_append_singleton_self Order.key (o.id, tenant_id) s.orders _
        (newOrder_key tenant_id _ s o) ho]
      rfl
    · intro li hli dbv hv
      exact stageLineItems_present _ _ o.line_items li hli dbv hv

/-- The final internal id of an order record's row, read off the final store,
equals the id in use when the record was processed. -/
theorem stageOrders_li_present (tenant_id : Nat) (s : Store)
    (ol : List OrderRecord) (o : OrderRecord) (ho : o ∈ ol)
    (li : LineItemRecord) (hli : li ∈ o.line_items) (dbv : ProductVariant)
    (hv : rowAt ProductVariant.key li.variant_id s.product_variants = some dbv) :
    (rowAt OrderLineItem.key
      (orderIdAt (stageOrders tenant_id s ol) tenant_id o.id, dbv.id)
      (stageOrders tenant_id s ol).order_line_items).isSome = true := by
  induction ol generalizing s with
  | nil => cases ho
  | cons o' ol ih =>
    rw [stageOrders, List.foldl_cons, ← stageOrders]
    rcases List.mem_cons.mp ho with h | h
    · subst h
      obtain ⟨oid, hid, hpres⟩ := orderStep_li_post tenant_id s o
      have hpost : (rowAt Order.key (o.id, tenant_id)
          (orderStep tenant_id s o).orders).isSome = true := by
        cases hx : rowAt Order.key (o.id, tenant_id) (orderStep tenant_id s o).orders with
        | some r => rfl
        | none => rw [hx] at hid; cases hid
      have hstable := idAt_stageOrders_stable tenant_id (orderStep tenant_id s o) ol
        (o.id, tenant_id) hpost
      rw [hid] at hstable
      have hfin : orderIdAt (stageOrders tenant_id (orderStep tenant_id s o) ol)
          tenant_id o.id = oid := by
        cases hx : rowAt Order.key (o.id, tenant_id)
            (stageOrders tenant_id (orderStep tenant_id s o) ol).orders with
        | some r =>
          rw [hx] at hstable
          rw [orderIdAt_eq _ tenant_id o.id r hx]
          exact Option.some.inj hstable
        | none => rw [hx] at hstable; cases hstable
      rw [hfin]
      exact rowAt_stageOrders_li_mono tenant_id _ ol _ (hpres li hli dbv hv)
    · apply ih (orderStep tenant_id s o') h
      rw [(orderStep_frame tenant_id s o').2.2.2]
      exact hv

def lastOG (tenant_id : Nat) (cs : List Customer) (ol : List OrderRecord)
    (g : Int × Nat → Option OrderFields) : Int × Nat → Option OrderFields :=
  ol.foldl (fun g o => fun k =>
    if k = (o.id, tenant_id) then some (orderFieldsOf tenant_id cs o) else g k) g

def lastO (tenant_id : Nat) (cs : List Customer) (ol : List OrderRecord) :
    Int × Nat → Option OrderFields :=
  lastOG tenant_id cs ol (fun _ => none)

theorem lastOG_spec (tenant_id : Nat) (cs : List Customer) (ol : List OrderRecord)
    (g : Int × Nat → Option OrderFields) (k : Int × Nat) :
    lastOG tenant_id cs ol g k =
      match lastO tenant_id cs ol k with
      | some f => some f
      | none => g k := by
  induction ol generalizing g with
  | nil => rfl
  | cons o ol ih =>
    show lastOG tenant_id cs ol _ k = _
    rw [ih]
    have hc : lastO tenant_id cs (o :: ol) k =
        match lastO tenant_id cs ol k with
        | some f => some f
        | none =>
          if k = (o.id, tenant_id) then some (orderFieldsOf tenant_id cs o)
          else none := by
      show lastOG tenant_id cs ol _ k = _
      rw [ih]
    rw [hc]
    cases lastO tenant_id cs ol k with
    | some f => rfl
    | none => by_cases hk : k = (o.id, tenant_id) <;> simp [hk]

theorem lastO_cons (tenant_id : Nat) (cs : List Customer) (o : OrderRecord)
    (ol : List OrderRecord) (k : Int × Nat) :
    lastO tenant_id cs (o :: ol) k =
      match lastO tenant_id cs ol k with
      | some f => some f
      | none =>
        if k = (o.id, tenant_id) then some (orderFieldsOf tenant_id cs o)
        else none := by
  show lastOG tenant_id cs ol _ k = _
  rw [lastOG_spec]

theorem lastO_eq_none (tenant_id : Nat) (cs : List Customer)
    (ol : List OrderRecord) (k : Int × Nat)
    (h : lastO tenant_id cs ol k = none) : ∀ o ∈ ol, (o.id, tenant_id) ≠ k := by
  induction ol with
  | nil => intro o hoo; cases hoo
  | cons o ol ih =>
    intro o' ho'
    rw [lastO_cons] at h
    rcases List.mem_cons.mp ho' with h1 | h1
    · subst h1
      cases hp : lastO tenant_id cs ol k with
      | some f => rw [hp] at h; cases h
      | none =>
        rw [hp] at h
        intro hk
        rw [if_pos hk.symm] at h
        cases h
    · cases hp : lastO tenant_id cs ol k with
      | some f => rw [hp] at h; cases h
      | none => exact ih hp o' h1

theorem rowAt_stageOrders_ne (tenant_id : Nat) (s : Store)
    (ol : List OrderRecord) (k : Int × Nat)
    (h : ∀ o ∈ ol, (o.id, tenant_id) ≠ k) :
    rowAt Order.key k (stageOrders tenant_id s ol).orders =
      rowAt Order.key k s.orders := by
  induction ol generalizing s with
  | nil => rfl
  | cons o ol ih =>
    rw [stageOrders, List.foldl_cons, ← stageOrders]
    rw [ih (orderStep tenant_id s o) (fun o' ho' => h o' (List.mem_cons_of_mem _ ho')),
      rowAt_orderStep_ne tenant_id s o
        (fun hk => h o (List.mem_cons_self _ _) hk.symm)]

/-- After the loop, a touched order key holds the fields of the last record
that wrote it, with the customer reference resolved against the (unchanged)
customer table. -/
theorem stageOrders_lastFields (tenant_id : Nat) (s : Store)
    (ol : List OrderRecord) (k : Int × Nat) (fo : OrderFields)
    (h : lastO tenant_id s.customers ol k = some fo) :
    (rowAt Order.key k (stageOrders tenant_id s ol).orders).map
      Order.getFields = some fo := by
  induction ol generalizing s with
  | nil => cases h
  | cons o ol ih =>
    rw [lastO_cons] at h
    rw [stageOrders, List.foldl_cons, ← stageOrders]
    cases hp : lastO tenant_id s.customers ol k with
    | some f' =>
      rw [hp] at h
      cases h
      apply ih (orderStep tenant_id s o)
      rw [(orderStep_frame tenant_id s o).2.1]
      exact hp
    | none =>
      rw [hp] at h
      by_cases hk : k = (o.id, tenant_id)
      · rw [if_pos hk] at h
        cases h
        rw [rowAt_stageOrders_ne tenant_id _ ol k
          (lastO_eq_none tenant_id s.customers ol k hp), hk]
        exact rowAt_orderStep_self tenant_id s o
      · rw [if_neg hk] at h
        cases h

/-- One order step leaves the row at line-item key `k` unchanged when none of
its resolvable line items writes `k` under the step's own order id. -/
theorem rowAt_orderStep_li_ne (tenant_id : Nat) (s : Store) (o : OrderRecord)
    (k : Nat × Nat)
    (h : ∀ oid, (rowAt Order.key (o.id, tenant_id)
        (orderStep tenant_id s o).orders).map (·.id) = some oid →
      ∀ li ∈ o.line_items, ∀ dbv,
        rowAt ProductVariant.key li.variant_id s.product_variants = some dbv →
        (oid, dbv.id) ≠ k) :
    rowAt OrderLineItem.key k (orderStep tenant_id s o).order_line_items =
      rowAt OrderLineItem.key k s.order_line_items := by
  cases ho : rowAt Order.key (o.id, tenant_id) s.orders with
  | some db_order =>
    have hstep : orderStep tenant_id s o = stageLineItems db_order.id
        { s with orders := (updRow Order.key Order.setFields (o.id, tenant_id)
          ⟨o.total_price, o.currency,
            resolveCustomerId tenant_id s.customers o.customer⟩ s.orders) }
        o.line_items := by
      unfold orderStep
      rw [ho]
    have hid : (rowAt Order.key (o.id, tenant_id)
        (orderStep tenant_id s o).orders).map (·.id) = some db_order.id := by
      rw [hstep, stageLineItems_orders]
      show (rowAt Order.key (o.id, tenant_id)
        (updRow Order.key Order.setFields (o.id, tenant_id)
          ⟨o.total_price, o.currency,
            resolveCustomerId tenant_id s.customers o.customer⟩ s.orders)).map
        (·.id) = some db_order.id
      rw [rowAt_updRow_self Order.key Order.setFields order_key_set, ho]
      rfl
    rw [hstep]
    exact rowAt_stageLineItems_ne db_order.id _ o.line_items k
      (fun li hli dbv hv => h db_order.id hid li hli dbv hv)
  | none =>
    have hstep : orderStep tenant_id s o = stageLineItems
        (newOrder tenant_id (resolveCustomerId tenant_id s.customers o.customer) s o).id
        { s with orders := s.orders ++
          [newOrder tenant_id (resolveCustomerId tenant_id s.customers o.customer) s o] }
        o.line_items := by
      unfold orderStep
      rw [ho]
    have hid : (rowAt Order.key (o.id, tenant_id)
        (orderStep tenant_id s o).orders).map (·.id) = some
          (newOrder tenant_id (resolveCustomerId tenant_id s.customers o.customer)
            s o).id := by
      rw [hstep, stageLineItems_orders]
      show (rowAt Order.key (o.id, tenant_id) (s.orders ++
        [newOrder tenant_id (resolveCustomerId tenant_id s.customers o.customer)
          s o])).map (·.id) = _
      rw [rowAt_append_singleton_self Order.key (o.id, tenant_id) s.orders _
        (newOrder_key tenant_id _ s o) ho]
      rfl
    rw [hstep]
    exact rowAt_stageLineItems_ne _ _ o.line_items k
      (fun li hli dbv hv => h _ hid li hli dbv hv)

/-- Frame over order records none of whose line items resolves to `k` under
its final internal order id. -/
theorem rowAt_stageOrders_li_ne (tenant_id : Nat) (s : Store)
    (ol : List OrderRecord) (k : Nat × Nat)
    (h : ∀ o ∈ ol, ∀ li ∈ o.line_items, ∀ dbv,
      rowAt ProductVariant.key li.variant_id s.product_variants = some dbv →
      (orderIdAt (stageOrders tenant_id s ol) tenant_id o.id, dbv.id) ≠ k) :
    rowAt OrderLineItem.key k (stageOrders tenant_id s ol).order_line_items =
      rowAt OrderLineItem.key k s.order_line_items := by
  induction ol generalizing s with
  | nil => rfl
  | cons o ol ih =>
    rw [stageOrders, List.foldl_cons, ← stageOrders]
    have htail : rowAt OrderLineItem.key k
        (stageOrders tenant_id (orderStep tenant_id s o) ol).order_line_items =
        rowAt OrderLineItem.key k (orderStep tenant_id s o).order_line_items := by
      apply ih (orderStep tenant_id s o)
      intro o' ho' li hli dbv hv
      rw [(orderStep_frame tenant_id s o).2.2.2] at hv
      have := h o' (List.mem_cons_of_mem _ ho') li hli dbv hv
      rw [stageOrders, List.foldl_cons, ← stageOrders] at this
      exact this
    rw [htail]
    apply rowAt_orderStep_li_ne tenant_id s o k
    intro oid hid li hli dbv hv
    have hpost : (rowAt Order.key (o.id, tenant_id)
        (orderStep tenant_id s o).orders).isSome = true := by
      cases hx : rowAt Order.key (o.id, tenant_id) (orderStep tenant_id s o).orders with
      | some r => rfl
      | none => rw [hx] at hid; cases hid
    have hstable := idAt_stageOrders_stable tenant_id (orderStep tenant_id s o) ol
      (o.id, tenant_id) hpost
    rw [hid] at hstable
    have hfin : orderIdAt (stageOrders tenant_id (orderStep tenant_id s o) ol)
        tenant_id o.id = oid := by
      cases hx : rowAt Order.key (o.id, tenant_id)
          (stageOrders tenant_id (orderStep tenant_id s o) ol).orders with
      | some r =>
        rw [hx] at hstable
        rw [orderIdAt_eq _ tenant_id o.id r hx]
        exact Option.some.inj hstable
      | none => rw [hx] at hstable; cases hstable
    have := h o (List.mem_cons_self _ _) li hli dbv hv
    rw [stageOrders, List.foldl_cons, ← stageOrders, hfin] at this
    exact this

/-- One order step writes, at each resolved line-item key, the fields of the
last record resolving to it. -/
theorem orderStep_li_lastFields (tenant_id : Nat) (s : Store) (o : OrderRecord)
    (k : Nat × Nat) (fl : LineItemFields) (oid : Nat)
    (hid : (rowAt Order.key (o.id, tenant_id)
      (orderStep tenant_id s o).orders).map (·.id) = some oid)
    (h : lastL s.product_variants oid o.line_items k = some fl) :
    (rowAt OrderLineItem.key k (orderStep tenant_id s o).order_line_items).map
      OrderLineItem.getFields = some fl := by
  cases ho : rowAt Order.key (o.id, tenant_id) s.orders with
  | some db_order =>
    have hstep : orderStep tenant_id s o = stageLineItems db_order.id
        { s with orders := (updRow Order.key Order.setFields (o.id, tenant_id)
          ⟨o.total_price, o.currency,
            resolveCustomerId tenant_id s.customers o.customer⟩ s.orders) }
        o.line_items := by
      unfold orderStep
      rw [ho]
    have hid2 : (rowAt Order.key (o.id, tenant_id)
        (orderStep tenant_id s o).orders).map (·.id) = some db_order.id := by
      rw [hstep, stageLineItems_orders]
      show (rowAt Order.key (o.id, tenant_id)
        (updRow Order.key Order.setFields (o.id, tenant_id)
          ⟨o.total_price, o.currency,
            resolveCustomerId tenant_id s.customers o.customer⟩ s.orders)).map
        (·.id) = some db_order.id
      rw [rowAt_updRow_self Order.key Order.setFields order_key_set, ho]
      rfl
    have hoid : oid = db_order.id := by
      rw [hid] at hid2
      exact Option.some.inj hid2
    subst hoid
    rw [hstep]
    exact stageLineItems_lastFields db_order.id _ o.line_items k fl h
  | none =>
    have hstep : orderStep tenant_id s o = stageLineItems
        (newOrder tenant_id (resolveCustomerId tenant_id s.customers o.customer) s o).id
        { s with orders := s.orders ++
          [newOrder tenant_id (resolveCustomerId tenant_id s.customers o.customer) s o] }
        o.line_items := by
      unfold orderStep
      rw [ho]
    have hid2 : (rowAt Order.key (o.id, tenant_id)
        (orderStep tenant_id s o).orders).map (·.id) = some
          (newOrder tenant_id (resolveCustomerId tenant_id s.customers o.customer)
            s o).id := by
      rw [hstep, stageLineItems_orders]
      show (rowAt Order.key (o.id, tenant_id) (s.orders ++
        [newOrder tenant_id (resolveCustomerId tenant_id s.customers o.customer)
          s o])).map (·.id) = _
      rw [rowAt_append_singleton_self Order.key (o.id, tenant_id) s.orders _
        (newOrder_key tenant_id _ s o) ho]
      rfl
    have hoid : oid = (newOrder tenant_id
        (resolveCustomerId tenant_id s.customers o.customer) s o).id := by
      rw [hid] at hid2
      exact Option.some.inj hid2
    subst hoid
    rw [hstep]
    exact stageLineItems_lastFields _ _ o.line_items k fl h

/-- The last fields written per resolved line-item key by a whole order
payload, each order's writes keyed by its internal id in store `sf`. -/
def lastOLG (tenant_id : Nat) (vt : List ProductVariant) (sf : Store)
    (ol : List OrderRecord) (g : Nat × Nat → Option LineItemFields) :
    Nat × Nat → Option LineItemFields :=
  ol.foldl (fun g o => lastLG vt (orderIdAt sf tenant_id o.id) o.line_items g) g

def lastOL (tenant_id : Nat) (vt : List ProductVariant) (sf : Store)
    (ol : List OrderRecord) : Nat × Nat → Option LineItemFields :=
  lastOLG tenant_id vt sf ol (fun _ => none)

theorem lastOLG_spec (tenant_id : Nat) (vt : List ProductVariant) (sf : Store)
    (ol : List OrderRecord) (g : Nat × Nat → Option LineItemFields) (k : Nat × Nat) :
    lastOLG tenant_id vt sf ol g k =
      match lastOL tenant_id vt sf ol k with
      | some f => some f
      | none => g k := by
  induction ol generalizing g with
  | nil => rfl
  | cons o ol ih =>
    show lastOLG tenant_id vt sf ol _ k = _
    rw [ih]
    have hc : lastOL tenant_id vt sf (o :: ol) k =
        match lastOL tenant_id vt sf ol k with
        | some f => some f
        | none => lastL vt (orderIdAt sf tenant_id o.id) o.line_items k := by
      show lastOLG tenant_id vt sf ol _ k = _
      rw [ih]
      cases lastOL tenant_id vt sf ol k with
      | some f => rfl
      | none => rfl
    rw [hc]
    cases lastOL tenant_id vt sf ol k with
    | some f => rfl
    | none =>
      show lastLG vt (orderIdAt sf tenant_id o.id) o.line_items g k =
        match lastL vt (orderIdAt sf tenant_id o.id) o.line_items k with
        | some f => some f
        | none => g k
      exact lastLG_spec vt _ o.line_items g k

theorem lastOL_cons (tenant_id : Nat) (vt : List ProductVariant) (sf : Store)
    (o : OrderRecord) (ol : List OrderRecord) (k : Nat × Nat) :
    lastOL tenant_id vt sf (o :: ol) k =
      match lastOL tenant_id vt sf ol k with
      | some f => some f
      | none => lastL vt (orderIdAt sf tenant_id o.id) o.line_items k := by
  show lastOLG tenant_id vt sf ol _ k = _
  rw [lastOLG_spec]
  cases lastOL tenant_id vt sf ol k with
  | some f => rfl
  | none => rfl

theorem lastOL_eq_none (tenant_id : Nat) (vt : List ProductVariant) (sf : Store)
    (ol : List OrderRecord) (k : Nat × Nat)
    (h : lastOL tenant_id vt sf ol k = none) :
    ∀ o ∈ ol, ∀ li ∈ o.line_items, ∀ dbv,
      rowAt ProductVariant.key li.variant_id vt = some dbv →
      (orderIdAt sf tenant_id o.id, dbv.id) ≠ k := by
  induction ol with
  | nil => intro o hoo; cases hoo
  | cons o ol ih =>
    intro o' ho' li hli dbv hv
    rw [lastOL_cons] at h
    rcases List.mem_cons.mp ho' with h1 | h1
    · subst h1
      cases hp : lastOL tenant_id vt sf ol k with
      | some f => rw [hp] at h; cases h
      | none =>
        rw [hp] at h
        exact lastL_eq_none vt _ o'.line_items k h li hli dbv hv
    · cases hp : lastOL tenant_id vt sf ol k with
      | some f => rw [hp] at h; cases h
      | none => exact ih hp o' h1 li hli dbv hv

/-- After the whole order loop, a touched line-item key holds the fields of
the last record that resolved to it. -/
theorem stageOrders_li_lastFields (tenant_id : Nat) (s : Store)
    (ol : List OrderRecord) (k : Nat × Nat) (fl : LineItemFields)
    (h : lastOL tenant_id s.product_variants (stageOrders tenant_id s ol) ol k
      = some fl) :
    (rowAt OrderLineItem.key k (stageOrders tenant_id s ol).order_line_items).map
      OrderLineItem.getFields = some fl := by
  induction ol generalizing s with
  | nil => cases h
  | cons o ol ih =>
    have hs : stageOrders tenant_id s (o :: ol) =
        stageOrders tenant_id (orderStep tenant_id s o) ol := by
      rw [stageOrders, List.foldl_cons, ← stageOrders]
    rw [hs] at h ⊢
    rw [lastOL_cons] at h
    cases hp : lastOL tenant_id s.product_variants
        (stageOrders tenant_id (orderStep tenant_id s o) ol) ol k with
    | some f' =>
      rw [hp] at h
      cases h
      apply ih (orderStep tenant_id s o)
      rw [(orderStep_frame tenant_id s o).2.2.2]
      exact hp
    | none =>
      rw [hp] at h
      -- the head order wrote `k`; its final id equals the id it used
      obtain ⟨oid, hid, _⟩ := orderStep_li_post tenant_id s o
      have hpost : (rowAt Order.key (o.id, tenant_id)
          (orderStep tenant_id s o).orders).isSome = true := by
        cases hx : rowAt Order.key (o.id, tenant_id) (orderStep tenant_id s o).orders with
        | some r => rfl
        | none => rw [hx] at hid; cases hid
      have hstable := idAt_stageOrders_stable tenant_id (orderStep tenant_id s o) ol
        (o.id, tenant_id) hpost
      rw [hid] at hstable
      have hfin : orderIdAt (stageOrders tenant_id (orderStep tenant_id s o) ol)
          tenant_id o.id = oid := by
        cases hx : rowAt Order.key (o.id, tenant_id)
            (stageOrders tenant_id (orderStep tenant_id s o) ol).orders with
        | some r =>
          rw [hx] at hstable
          rw [orderIdAt_eq _ tenant_id o.id r hx]
          exact Option.some.inj hstable
        | none => rw [hx] at hstable; cases hstable
      rw [hfin] at h
      have hfr : rowAt OrderLineItem.key k
          (stageOrders tenant_id (orderStep tenant_id s o) ol).order_line_items =
          rowAt OrderLineItem.key k (orderStep tenant_id s o).order_line_items := by
        apply rowAt_stageOrders_li_ne
        intro o' ho' li hli dbv hv
        rw [(orderStep_frame tenant_id s o).2.2.2] at hv
        exact lastOL_eq_none tenant_id s.product_variants
          (stageOrders tenant_id (orderStep tenant_id s o) ol) ol k hp o' ho' li hli
          dbv hv
      rw [hfr]
      exact orderStep_li_lastFields tenant_id s o k fl oid hid h

/-- Ghost overwrite of order and line-item fields at store level. -/
def owStoreO (gO : Int × Nat → Option OrderFields)
    (gL : Nat × Nat → Option LineItemFields) (s : Store) : Store :=
  { s with
    orders := owT Order.key Order.setFields gO s.orders,
    order_line_items :=
      owT OrderLineItem.key OrderLineItem.setFields gL s.order_line_items }

theorem owStoreO_none (s : Store) :
    owStoreO (fun _ => none) (fun _ => none) s = s := by
  unfold owStoreO
  rw [owT_none, owT_none]

theorem lineItemStep_ow (oid : Nat) (s : Store) (li : LineItemRecord)
    (gO : Int × Nat → Option OrderFields) (gL : Nat × Nat → Option LineItemFields)
    (hndL : keysND OrderLineItem.key s.order_line_items)
    (hpres : ∀ dbv,
      rowAt ProductVariant.key li.variant_id s.product_variants = some dbv →
      (rowAt OrderLineItem.key (oid, dbv.id) s.order_line_items).isSome = true) :
    lineItemStep oid (owStoreO gO gL s) li =
      owStoreO gO (lastLStep s.product_variants oid gL li) s := by
  unfold lineItemStep lastLStep
  rw [show (owStoreO gO gL s).product_variants = s.product_variants from rfl]
  cases hv : rowAt ProductVariant.key li.variant_id s.product_variants with
  | none => rfl
  | some dbv =>
    simp only
    have hps : (rowAt OrderLineItem.key (oid, dbv.id)
        (owStoreO gO gL s).order_line_items).isSome = true := by
      show (rowAt OrderLineItem.key (oid, dbv.id) (owT OrderLineItem.key
        OrderLineItem.setFields gL s.order_line_items)).isSome = true
      rw [isSome_rowAt_owT OrderLineItem.key OrderLineItem.setFields
        line_item_key_set]
      exact hpres dbv hv
    obtain ⟨r2, hr2⟩ := Option.isSome_iff_exists.mp hps
    rw [hr2]
    have hupd := updRow_owT OrderLineItem.key OrderLineItem.setFields
      line_item_key_set line_item_set_set (g := gL)
      (l := s.order_line_items) (oid, dbv.id) li.fields hndL
    show { s with
      orders := owT Order.key Order.setFields gO s.orders,
      order_line_items := (updRow OrderLineItem.key OrderLineItem.setFields
        (oid, dbv.id) li.fields
        (owT OrderLineItem.key OrderLineItem.setFields gL s.order_line_items)) } = _
    rw [hupd]
    rfl

theorem stageLineItems_ow (oid : Nat) (s : Store) (lil : List LineItemRecord)
    (gO : Int × Nat → Option OrderFields) (gL : Nat × Nat → Option LineItemFields)
    (hndL : keysND OrderLineItem.key s.order_line_items)
    (hall : ∀ li ∈ lil, ∀ dbv,
      rowAt ProductVariant.key li.variant_id s.product_variants = some dbv →
      (rowAt OrderLineItem.key (oid, dbv.id) s.order_line_items).isSome = true) :
    stageLineItems oid (owStoreO gO gL s) lil =
      owStoreO gO (lastLG s.product_variants oid lil gL) s := by
  induction lil generalizing gL with
  | nil => rfl
  | cons li lil ih =>
    rw [stageLineItems, List.foldl_cons, ← stageLineItems]
    rw [lineItemStep_ow oid s li gO gL hndL
      (fun dbv hv => hall li (List.mem_cons_self _ _) dbv hv)]
    exact ih _ (fun li' hli' dbv hv => hall li' (List.mem_cons_of_mem _ hli') dbv hv)

theorem orderStep_ow (tenant_id : Nat) (s : Store) (o : OrderRecord)
    (gO : Int × Nat → Option OrderFields) (gL : Nat × Nat → Option LineItemFields)
    (hndO : keysND Order.key s.orders)
    (hndL : keysND OrderLineItem.key s.order_line_items)
    (hpresO : (rowAt Order.key (o.id, tenant_id) s.orders).isSome = true)
    (hpresL : ∀ li ∈ o.line_items, ∀ dbv,
      rowAt ProductVariant.key li.variant_id s.product_variants = some dbv →
      (rowAt OrderLineItem.key (orderIdAt s tenant_id o.id, dbv.id)
        s.order_line_items).isSome = true) :
    orderStep tenant_id (owStoreO gO gL s) o =
      owStoreO
        (fun k => if k = (o.id, tenant_id)
          then some (orderFieldsOf tenant_id s.customers o) else gO k)
        (lastLG s.product_variants (orderIdAt s tenant_id o.id) o.line_items gL)
        s := by
  obtain ⟨r, hr⟩ := Option.isSome_iff_exists.mp hpresO
  have hps : (rowAt Order.key (o.id, tenant_id)
      (owStoreO gO gL s).orders).isSome = true := by
    show (rowAt Order.key (o.id, tenant_id)
      (owT Order.key Order.setFields gO s.orders)).isSome = true
    rw [isSome_rowAt_owT Order.key Order.setFields order_key_set]
    exact hpresO
  obtain ⟨r2, hr2⟩ := Option.isSome_iff_exists.mp hps
  have hproj2 : (rowAt Order.key (o.id, tenant_id)
      (owStoreO gO gL s).orders).map (·.id) =
      (rowAt Order.key (o.id, tenant_id) s.orders).map (·.id) :=
    rowAt_owT_proj Order.key Order.setFields (·.id) order_id_set order_key_set
      gO (o.id, tenant_id) s.orders
  rw [hr2, hr] at hproj2
  have hid : r2.id = r.id := Option.some.inj hproj2
  have hoid : orderIdAt s tenant_id o.id = r.id :=
    orderIdAt_eq s tenant_id o.id r hr
  unfold orderStep
  rw [hr2]
  have hupd := updRow_owT Order.key Order.setFields order_key_set order_set_set
    (g := gO) (l := s.orders) (o.id, tenant_id)
    ⟨o.total_price, o.currency, resolveCustomerId tenant_id s.customers o.customer⟩
    hndO
  show stageLineItems r2.id
    { s with
      orders := (updRow Order.key Order.setFields (o.id, tenant_id)
        ⟨o.total_price, o.currency, resolveCustomerId tenant_id s.customers o.customer⟩
        (owT Order.key Order.setFields gO s.orders)),
      order_line_items :=
        owT OrderLineItem.key OrderLineItem.setFields gL s.order_line_items }
    o.line_items = _
  rw [hupd]
  show stageLineItems r2.id
    (owStoreO (fun k => if k = (o.id, tenant_id)
      then some (orderFieldsOf tenant_id s.customers o) else gO k) gL s)
    o.line_items = _
  rw [show r2.id = orderIdAt s tenant_id o.id from by rw [hid, hoid]]
  exact stageLineItems_ow (orderIdAt s tenant_id o.id) s o.line_items _ gL hndL
    (fun li hli dbv hv => hpresL li hli dbv hv)

theorem stageOrders_ow (tenant_id : Nat) (s : Store) (ol : List OrderRecord)
    (gO : Int × Nat → Option OrderFields) (gL : Nat × Nat → Option LineItemFields)
    (hndO : keysND Order.key s.orders)
    (hndL : keysND OrderLineItem.key s.order_line_items)
    (hallO : ∀ o ∈ ol, (rowAt Order.key (o.id, tenant_id) s.orders).isSome = true)
    (hallL : ∀ o ∈ ol, ∀ li ∈ o.line_items, ∀ dbv,
      rowAt ProductVariant.key li.variant_id s.product_variants = some dbv →
      (rowAt OrderLineItem.key (orderIdAt s tenant_id o.id, dbv.id)
        s.order_line_items).isSome = true) :
    stageOrders tenant_id (owStoreO gO gL s) ol =
      owStoreO (lastOG tenant_id s.customers ol gO)
        (lastOLG tenant_id s.product_variants s ol gL) s := by
  induction ol generalizing gO gL with
  | nil => rfl
  | cons o ol ih =>
    rw [stageOrders, List.foldl_cons, ← stageOrders]
    rw [orderStep_ow tenant_id s o gO gL hndO hndL (hallO o (List.mem_cons_self _ _))
      (hallL o (List.mem_cons_self _ _))]
    exact ih _ _ (fun o' ho' => hallO o' (List.mem_cons_of_mem _ ho'))
      (fun o' ho' li hli dbv hv => hallL o' (List.mem_cons_of_mem _ ho') li hli dbv hv)

/-- Staging the same order payload a second time changes nothing. -/
theorem stageOrders_idem (tenant_id : Nat) (s : Store) (ol : List OrderRecord)
    (hndO : keysND Order.key s.orders)
    (hndL : keysND OrderLineItem.key s.order_line_items) :
    stageOrders tenant_id (stageOrders tenant_id s ol) ol =
      stageOrders tenant_id s ol := by
  have hnd2 := stageOrders_keysND tenant_id s ol hndO hndL
  have hallO : ∀ o ∈ ol, (rowAt Order.key (o.id, tenant_id)
      (stageOrders tenant_id s ol).orders).isSome = true :=
    fun o hoo => stageOrders_present tenant_id s ol o hoo
  have hallL : ∀ o ∈ ol, ∀ li ∈ o.line_items, ∀ dbv,
      rowAt ProductVariant.key li.variant_id
        (stageOrders tenant_id s ol).product_variants = some dbv →
      (rowAt OrderLineItem.key
        (orderIdAt (stageOrders tenant_id s ol) tenant_id o.id, dbv.id)
        (stageOrders tenant_id s ol).order_line_items).isSome = true := by
    intro o hoo li hli dbv hv
    rw [(stageOrders_frame tenant_id s ol).2.2.2] at hv
    exact stageOrders_li_present tenant_id s ol o hoo li hli dbv hv
  have h1 : stageOrders tenant_id (stageOrders tenant_id s ol) ol =
      owStoreO (lastOG tenant_id (stageOrders tenant_id s ol).customers ol
          (fun _ => none))
        (lastOLG tenant_id (stageOrders tenant_id s ol).product_variants
          (stageOrders tenant_id s ol) ol (fun _ => none))
        (stageOrders tenant_id s ol) := by
    rw [← stageOrders_ow tenant_id _ ol (fun _ => none) (fun _ => none)
      hnd2.1 hnd2.2 hallO hallL, owStoreO_none]
  rw [h1]
  unfold owStoreO
  have hordeq : owT Order.key Order.setFields
      (lastOG tenant_id (stageOrders tenant_id s ol).customers ol (fun _ => none))
      (stageOrders tenant_id s ol).orders =
      (stageOrders tenant_id s ol).orders := by
    apply owT_id
    intro r hr fo hf
    rw [(stageOrders_frame tenant_id s ol).2.1] at hf
    have hrow : rowAt Order.key (Order.key r)
        (stageOrders tenant_id s ol).orders = some r :=
      rowAt_mem_nodup Order.key hnd2.1 hr
    have hlast := stageOrders_lastFields tenant_id s ol (Order.key r) fo hf
    rw [hrow] at hlast
    have hget : Order.getFields r = fo := Option.some.inj hlast
    rw [← hget, order_set_get]
  have hlieq : owT OrderLineItem.key OrderLineItem.setFields
      (lastOLG tenant_id (stageOrders tenant_id s ol).product_variants
        (stageOrders tenant_id s ol) ol (fun _ => none))
      (stageOrders tenant_id s ol).order_line_items =
      (stageOrders tenant_id s ol).order_line_items := by
    apply owT_id
    intro r hr fl hf
    rw [(stageOrders_frame tenant_id s ol).2.2.2] at hf
    have hrow : rowAt OrderLineItem.key (OrderLineItem.key r)
        (stageOrders tenant_id s ol).order_line_items = some r :=
      rowAt_mem_nodup OrderLineItem.key hnd2.2 hr
    have hlast := stageOrders_li_lastFields tenant_id s ol (OrderLineItem.key r) fl hf
    rw [hrow] at hlast
    have hget : OrderLineItem.getFields r = fl := Option.some.inj hlast
    rw [← hget, line_item_set_get]
  rw [hordeq, hlieq]

/-- Re-running the order ingestion endpoint with the same payload leaves the
store of the first run unchanged. -/
theorem ingest_orders_idem (tenant_id : Nat) (s : Store) (ol : List OrderRecord)
    (hndO : keysND Order.key s.orders)
    (hndL : keysND OrderLineItem.key s.order_line_items) :
    (ingest_orders (ingest_orders s tenant_id ol).1 tenant_id ol).1 =
      (ingest_orders s tenant_id ol).1 := by
  by_cases ht : tenantExists s tenant_id = true
  · by_cases hok : storeOk (stageOrders tenant_id s ol)
    · have h1 : ingest_orders s tenant_id ol =
          (stageOrders tenant_id s ol, .ok ol.length) := by
        unfold ingest_orders commitBatch
        rw [if_pos ht, if_pos hok]
      have ht2 : tenantExists (stageOrders tenant_id s ol) tenant_id = true := by
        unfold tenantExists
        rw [(stageOrders_frame tenant_id s ol).1]
        exact ht
      have h2 : ingest_orders (stageOrders tenant_id s ol) tenant_id ol =
          (stageOrders tenant_id s ol, .ok ol.length) := by
        unfold ingest_orders commitBatch
        rw [if_pos ht2, stageOrders_idem tenant_id s ol hndO hndL, if_pos hok]
      rw [h1]
      show (ingest_orders (stageOrders tenant_id s ol) tenant_id ol).1 =
        stageOrders tenant_id s ol
      rw [h2]
    · have h1 : ingest_orders s tenant_id ol = (s, .conflict) := by
        unfold ingest_orders commitBatch
        rw [if_pos ht, if_neg hok]
      rw [h1]
      show (ingest_orders s tenant_id ol).1 = s
      rw [h1]
  · have h1 : ingest_orders s tenant_id ol = (s, .notFound) := by
      unfold ingest_orders
      rw [if_neg ht]
    rw [h1]
    show (ingest_orders s tenant_id ol).1 = s
    rw [h1]

/-! ## Helpers for the claim theorems -/

theorem order_soid_set (f : OrderFields) (r : Order) :
    (Order.setFields f r).shopify_order_id = r.shopify_order_id := rfl

theorem customer_sid_set (f : CustomerFields) (r : Customer) :
    (Customer.setFields f r).shopify_customer_id = r.shopify_customer_id := rfl

theorem customerStep_customers_none (tenant_id : Nat) (s : Store)
    (c : CustomerRecord)
    (h : rowAt Customer.key (c.id, tenant_id) s.customers = none) :
    (customerStep tenant_id s c).customers =
      s.customers ++ [newCustomer tenant_id s c] := by
  unfold customerStep
  rw [h]

theorem orderStep_orders_some (tenant_id : Nat) (s : Store) (o : OrderRecord)
    (db_order : Order)
    (ho : rowAt Order.key (o.id, tenant_id) s.orders = some db_order) :
    (orderStep tenant_id s o).orders =
      updRow Order.key Order.setFields (o.id, tenant_id)
        ⟨o.total_price, o.currency,
          resolveCustomerId tenant_id s.customers o.customer⟩ s.orders := by
  have hstep : orderStep tenant_id s o = stageLineItems db_order.id
      { s with orders := (updRow Order.key Order.setFields (o.id, tenant_id)
        ⟨o.total_price, o.currency,
          resolveCustomerId tenant_id s.customers o.customer⟩ s.orders) }
      o.line_items := by
    unfold orderStep
    rw [ho]
  rw [hstep, stageLineItems_orders]

theorem orderStep_orders_none (tenant_id : Nat) (s : Store) (o : OrderRecord)
    (ho : rowAt Order.key (o.id, tenant_id) s.orders = none) :
    (orderStep tenant_id s o).orders = s.orders ++
      [newOrder tenant_id (resolveCustomerId tenant_id s.customers o.customer) s o] := by
  have hstep : orderStep tenant_id s o = stageLineItems
      (newOrder tenant_id (resolveCustomerId tenant_id s.customers o.customer) s o).id
      { s with orders := s.orders ++
        [newOrder tenant_id (resolveCustomerId tenant_id s.customers o.customer) s o] }
      o.line_items := by
    unfold orderStep
    rw [ho]
  rw [hstep, stageLineItems_orders]

/-- The soid column of the orders table is untouched by an order step apart
from a possible append of the step's own external id. -/
theorem orderStep_soids (tenant_id : Nat) (s : Store) (o : OrderRecord) :
    (orderStep tenant_id s o).orders.map (·.shopify_order_id) =
      s.orders.map (·.shopify_order_id) ∨
    (orderStep tenant_id s o).orders.map (·.shopify_order_id) =
      s.orders.map (·.shopify_order_id) ++ [o.id] := by
  cases ho : rowAt Order.key (o.id, tenant_id) s.orders with
  | some db_order =>
    left
    rw [orderStep_orders_some tenant_id s o db_order ho]
    exact map_updRow Order.key Order.setFields (·.shopify_order_id)
      order_soid_set _ _ _
  | none =>
    right
    rw [orderStep_orders_none tenant_id s o ho, List.map_append]
    rfl

/-! ## The HTTP error surface: flush-time versus commit-time IntegrityError

`commitBatch` captures the durable-store semantics of the transaction, but
not *where* a uniqueness violation is raised.  In main.py only `db.commit()`
is guarded by `except IntegrityError`; the `db.flush()` calls of lines 131
and 217 sit inside the loops, outside any `try`, and the session autoflushes
pending rows before every query.  A violation raised by one of those
unguarded flushes escapes the handler: FastAPI answers 500 and the session
is closed uncommitted, discarding every staged row.  The definitions below
refine the three endpoints with this distinction made explicit. -/

/-- Outcome of an ingestion call at the HTTP level: 200 with a count
message, 404 "Tenant not found", 409 from the guarded commit handler, or
500 from an `IntegrityError` escaping at an unguarded flush. -/
inductive HttpStatus where
  | ok (count : Nat)
  | notFound
  | conflict
  | serverError
deriving DecidableEq, Repr

/-- One iteration of the order loop with the `db.flush()` of main.py line
217 made explicit.  In the insert branch the new row is flushed at once: if
its external order id is already carried by a visible order row (the
tenant-scoped lookup missed, so such a row belongs to another tenant), the
flush violates the global `unique=True` of models.py and raises an uncaught
`IntegrityError`, modelled as `none` — at that point the iteration has only
queried and staged, so the discarded transaction holds no change.
Otherwise the iteration transforms the store exactly as `orderStep`. -/
def orderStepF (tenant_id : Nat) (s : Store) (o : OrderRecord) : Option Store :=
  match rowAt Order.key (o.id, tenant_id) s.orders with
  | some _ => some (orderStep tenant_id s o)
  | none =>
      if o.id ∈ s.orders.map (·.shopify_order_id) then none
      else some (orderStep tenant_id s o)

/-- The order loop of main.py lines 182-245 with flush errors propagated:
`none` aborts the request at the first uncaught `IntegrityError`. -/
def stageOrdersF (tenant_id : Nat) (s : Store) :
    List OrderRecord → Option Store
  | [] => some s
  | o :: os =>
      match orderStepF tenant_id s o with
      | none => none
      | some s1 => stageOrdersF tenant_id s1 os

/-- `POST /ingest/orders/{tenant_id}` (main.py lines 169-253) with the
error surface made explicit.  The only constraint an orders batch can
violate is the global uniqueness of `shopify_order_id`: the update branch
never writes that column, and `order_line_items` carries no unique
constraint while its foreign keys come from rows just queried.  Every new
order row is flushed by the unguarded `db.flush()` of line 217, so a
violating batch dies there — the request answers 500 and the transaction is
discarded uncommitted.  When the loop completes, the guarded `db.commit()`
of lines 247-251 only flushes line-item rows and field updates, which
cannot violate a constraint, so its 409 branch is unreachable. -/
def ingest_orders_http (s : Store) (tenant_id : Nat)
    (payload : List OrderRecord) : Store × HttpStatus :=
  if tenantExists s tenant_id then
    match stageOrdersF tenant_id s payload with
    | none => (s, .serverError)
    | some s2 => (s2, .ok payload.length)
  else (s, .notFound)

/-- One iteration of the product loop with the `db.flush()` of main.py line
131 made explicit, exactly as in `orderStepF`: a new product row whose
external product id is already visible (necessarily under another tenant)
raises an uncaught `IntegrityError` at that flush, before any variant of
the record is processed. -/
def productStepF (tenant_id : Nat) (s : Store) (p : ProductRecord) : Option Store :=
  match rowAt Product.key (p.id, tenant_id) s.products with
  | some _ => some (productStep tenant_id s p)
  | none =>
      if p.id ∈ s.products.map (·.shopify_product_id) then none
      else some (productStep tenant_id s p)

/-- The product loop of main.py lines 108-159 with flush errors
propagated. -/
def stageProductsF (tenant_id : Nat) (s : Store) :
    List ProductRecord → Option Store
  | [] => some s
  | p :: ps =>
      match productStepF tenant_id s p with
      | none => none
      | some s1 => stageProductsF tenant_id s1 ps

/-- `POST /ingest/products/{tenant_id}` (main.py lines 95-167) with the
error surface made explicit.  A products batch can violate only the global
uniqueness of `shopify_product_id` or of `shopify_variant_id`; the former
only by a new product row, flushed at once by the unguarded `db.flush()` of
line 131 (an uncaught 500), and the latter never, because the variant
lookup of lines 139-141 keys on exactly that one unique column and — with
autoflush — sees every row already staged, so a new variant row is only
staged when no row with its id exists.  Hence the guarded `db.commit()` of
lines 161-165 cannot raise and its 409 branch is unreachable. -/
def ingest_products_http (s : Store) (tenant_id : Nat)
    (payload : List ProductRecord) : Store × HttpStatus :=
  if tenantExists s tenant_id then
    match stageProductsF tenant_id s payload with
    | none => (s, .serverError)
    | some s2 => (s2, .ok payload.length)
  else (s, .notFound)

/-- Does staging customer record `c` into the visible store `s` insert a
new row violating the global `unique=True` on `shopify_customer_id`?  That
is the case exactly when the tenant-scoped lookup of main.py lines 64-67
misses although a row with that external id — necessarily of another
tenant — is visible. -/
def customerCollides (tenant_id : Nat) (s : Store) (c : CustomerRecord) : Bool :=
  (rowAt Customer.key (c.id, tenant_id) s.customers).isNone &&
    decide (c.id ∈ s.customers.map (·.shopify_customer_id))

/-- The customer loop of main.py lines 60-85 with its flush points made
explicit.  `ingest_customers` has no explicit `db.flush()`: a violating row
staged by a record that is *not* the last is first flushed by the next
record's autoflushing lookup (line 64), outside the `try` — modelled as
`none`, the uncaught `IntegrityError` — while a violating row staged by the
last record is first flushed inside the guarded `db.commit()` of lines
87-91.  `some (s', b)` returns the staged store and whether that final
commit will raise (and be caught). -/
def stageCustomersF (tenant_id : Nat) (s : Store) :
    List CustomerRecord → Option (Store × Bool)
  | [] => some (s, false)
  | [c] => some (customerStep tenant_id s c, customerCollides tenant_id s c)
  | c :: c2 :: cs =>
      if customerCollides tenant_id s c then none
      else stageCustomersF tenant_id (customerStep tenant_id s c) (c2 :: cs)

/-- `POST /ingest/customers/{tenant_id}` (main.py lines 46-93) with the
error surface made explicit: a violation staged by the last record is
caught at the guarded commit, rolled back and answered 409; one staged
earlier escapes at the next lookup's autoflush as a 500.  On both error
paths the transaction is discarded and the store is unchanged. -/
def ingest_customers_http (s : Store) (tenant_id : Nat)
    (payload : List CustomerRecord) : Store × HttpStatus :=
  if tenantExists s tenant_id then
    match stageCustomersF tenant_id s payload with
    | none => (s, .serverError)
    | some r => if r.2 then (s, .conflict) else (r.1, .ok payload.length)
  else (s, .notFound)

/-- A successful flush-checked order step preserves every `unique=True`
column constraint: the tables other than orders are framed, the update
branch does not write `shopify_order_id`, and the insert branch was flushed
against a miss of the global id. -/
theorem orderStepF_storeOk (tenant_id : Nat) (s : Store) (o : OrderRecord)
    (s' : Store) (h : orderStepF tenant_id s o = some s') (hok : storeOk s) :
    storeOk s' := by
  have hfr := orderStep_frame tenant_id s o
  unfold orderStepF at h
  cases ho : rowAt Order.key (o.id, tenant_id) s.orders with
  | some db_order =>
    rw [ho] at h
    simp only at h
    have hs' : s' = orderStep tenant_id s o := (Option.some.inj h).symm
    subst hs'
    refine ⟨?_, ?_, ?_, ?_, ?_⟩
    · rw [hfr.1]; exact hok.1
    · rw [hfr.2.1]; exact hok.2.1
    · rw [hfr.2.2.1]; exact hok.2.2.1
    · rw [hfr.2.2.2]; exact hok.2.2.2.1
    · rw [orderStep_orders_some tenant_id s o db_order ho,
        map_updRow Order.key Order.setFields (·.shopify_order_id)
          order_soid_set]
      exact hok.2.2.2.2
  | none =>
    rw [ho] at h
    simp only at h
    by_cases hc : o.id ∈ s.orders.map (·.shopify_order_id)
    · rw [if_pos hc] at h
      exact absurd h (by simp)
    · rw [if_neg hc] at h
      have hs' : s' = orderStep tenant_id s o := (Option.some.inj h).symm
      subst hs'
      refine ⟨?_, ?_, ?_, ?_, ?_⟩
      · rw [hfr.1]; exact hok.1
      · rw [hfr.2.1]; exact hok.2.1
      · rw [hfr.2.2.1]; exact hok.2.2.1
      · rw [hfr.2.2.2]; exact hok.2.2.2.1
      · rw [orderStep_orders_none tenant_id s o ho]
        show keysND (fun r : Order => r.shopify_order_id)
          (s.orders ++ [newOrder tenant_id
            (resolveCustomerId tenant_id s.customers o.customer) s o])
        apply keysND_append_singleton
        · exact hok.2.2.2.2
        · rw [rowAt_eq_none_iff]
          intro r hr hkey
          exact hc (List.mem_map.mpr ⟨r, hr, hkey⟩)

/-- A flush-checked order run that completes preserves every `unique=True`
column constraint. -/
theorem stageOrdersF_storeOk (tenant_id : Nat) (p : List OrderRecord) :
    ∀ s s2 : Store, stageOrdersF tenant_id s p = some s2 → storeOk s →
      storeOk s2 := by
  induction p with
  | nil =>
    intro s s2 h hok
    have hs : s = s2 := Option.some.inj h
    exact hs ▸ hok
  | cons o os ih =>
    intro s s2 h hok
    unfold stageOrdersF at h
    cases hs : orderStepF tenant_id s o with
    | none => rw [hs] at h; exact absurd h (by simp)
    | some s1 =>
      rw [hs] at h
      simp only at h
      exact ih s1 s2 h (orderStepF_storeOk tenant_id s o s1 hs hok)

/-- The four possible results of the refined orders endpoint: the guarded
commit of an orders call never raises, so 409 does not occur. -/
theorem ingest_orders_http_cases (s : Store) (tenant_id : Nat)
    (p : List OrderRecord) :
    ingest_orders_http s tenant_id p = (s, .notFound) ∨
    ingest_orders_http s tenant_id p = (s, .serverError) ∨
    ∃ s2, ingest_orders_http s tenant_id p = (s2, .ok p.length) := by
  unfold ingest_orders_http
  by_cases ht : tenantExists s tenant_id = true
  · rw [if_pos ht]
    cases stageOrdersF tenant_id s p with
    | none => exact Or.inr (Or.inl rfl)
    | some s2 => exact Or.inr (Or.inr ⟨s2, rfl⟩)
  · rw [if_neg ht]
    exact Or.inl rfl

/-- The four possible results of the refined products endpoint: the guarded
commit of a products call never raises, so 409 does not occur. -/
theorem ingest_products_http_cases (s : Store) (tenant_id : Nat)
    (p : List ProductRecord) :
    ingest_products_http s tenant_id p = (s, .notFound) ∨
    ingest_products_http s tenant_id p = (s, .serverError) ∨
    ∃ s2, ingest_products_http s tenant_id p = (s2, .ok p.length) := by
  unfold ingest_products_http
  by_cases ht : tenantExists s tenant_id = true
  · rw [if_pos ht]
    cases stageProductsF tenant_id s p with
    | none => exact Or.inr (Or.inl rfl)
    | some s2 => exact Or.inr (Or.inr ⟨s2, rfl⟩)
  · rw [if_neg ht]
    exact Or.inl rfl

/-- The possible results of the refined customers endpoint; both error
statuses leave the durable store unchanged. -/
theorem ingest_customers_http_cases (s : Store) (tenant_id : Nat)
    (p : List CustomerRecord) :
    ingest_customers_http s tenant_id p = (s, .notFound) ∨
    ingest_customers_http s tenant_id p = (s, .serverError) ∨
    ingest_customers_http s tenant_id p = (s, .conflict) ∨
    ∃ s2, ingest_customers_http s tenant_id p = (s2, .ok p.length) := by
  unfold ingest_customers_http
  by_cases ht : tenantExists s tenant_id = true
  · rw [if_pos ht]
    cases stageCustomersF tenant_id s p with
    | none => exact Or.inr (Or.inl rfl)
    | some r =>
      simp only
      by_cases hr2 : r.2 = true
      · rw [if_pos hr2]
        exact Or.inr (Or.inr (Or.inl rfl))
      · rw [if_neg hr2]
        exact Or.inr (Or.inr (Or.inr ⟨r.1, rfl⟩))
  · rw [if_neg ht]
    exact Or.inl rfl

/-! ## Money: fixed-point decimal with two fractional digits -/

/-- The numeric value of a digit sequence, `none` on a non-digit. -/
def digitsVal : List Char → Nat → Option Nat
  | [], acc => some acc
  | c :: cs, acc =>
      if c.isDigit then digitsVal cs (acc * 10 + (c.toNat - 48)) else none

def digitsToNat (cs : List Char) : Option Nat :=
  if cs.isEmpty then none else digitsVal cs 0

/-- Split a character sequence at the dots. -/
def splitDot : List Char → List (List Char)
  | [] => [[]]
  | c :: rest =>
      if c = '.' then [] :: splitDot rest
      else
        match splitDot rest with
        | [] => [[c]]
        | h :: t => (c :: h) :: t

/-- Parse a decimal string into an exact number of hundredths (the value
space of the `DECIMAL(10, 2)` columns of models.py). -/
def parseDecimal2 (str : String) : Option Int :=
  match splitDot str.toList with
  | [w, f] =>
      if f.length = 2 then
        match digitsToNat w, digitsToNat f with
        | some a, some b => some ((a * 100 + b : Nat) : Int)
        | _, _ => none
      else none
  | [w] => (digitsToNat w).map (fun a => ((a * 100 : Nat) : Int))
  | _ => none

/-- The digit characters of `n`, most significant first. -/
def natDigits (n : Nat) : List Char :=
  (Nat.toDigits 10 n)

/-- Render a non-negative number of hundredths back as a decimal string. -/
def formatDecimal2 (c : Int) : String :=
  String.mk (natDigits (c.toNat / 100)) ++ "." ++
    (if c.toNat % 100 < 10 then "0" else "") ++ String.mk (natDigits (c.toNat % 100))

/-! ## Claim theorems -/

def exTenants : List Tenant := [⟨1, "alpha", "tok1"⟩, ⟨2, "beta", "tok2"⟩]

def exStore : Store := ⟨exTenants, [], [], [], [], []⟩

def exCustomerRecs : List CustomerRecord :=
  [⟨101, some "Ann", some "Lee", some "ann@example.com", none⟩]

def exProductRecs : List ProductRecord :=
  [⟨501, some "Shirt", some "Acme", some "apparel",
    [⟨9001, some "Small", some 1999, some "SKU-1", some 120, some "g"⟩]⟩]

def exOrderRecs : List OrderRecord :=
  [⟨701, some ⟨101⟩, some 1999, some "USD", [⟨9001, some 1, some 1999⟩]⟩]

def exStoreC2 : Store :=
  ⟨exTenants, [⟨1, 2, 101, none, none, none, none⟩], [], [], [], []⟩

def exStoreC6 : Store :=
  ⟨exTenants, [], [], [], [⟨1, 1, none, 700, some 1999, some "USD"⟩], []⟩

/-- C1: for every tenant and every resource kind (customers, products,
orders), running the ingestion twice with identical upstream payloads leaves
the store after the second run equal to the store after the first run: the
second run creates no new rows and changes no field values. -/
theorem C1_reingestion_idempotent (tenant_id : Nat) (s : Store)
    (cp : List CustomerRecord) (pp : List ProductRecord) (op : List OrderRecord)
    (hwf : wf s) :
    (ingest_customers (ingest_customers s tenant_id cp).1 tenant_id cp).1 =
      (ingest_customers s tenant_id cp).1 ∧
    (ingest_products (ingest_products s tenant_id pp).1 tenant_id pp).1 =
      (ingest_products s tenant_id pp).1 ∧
    (ingest_orders (ingest_orders s tenant_id op).1 tenant_id op).1 =
      (ingest_orders s tenant_id op).1 :=
  ⟨ingest_customers_idem tenant_id s cp hwf.1,
   ingest_products_idem tenant_id s pp hwf.2.1 hwf.2.2.1,
   ingest_orders_idem tenant_id s op hwf.2.2.2.1 hwf.2.2.2.2⟩

theorem C1_reingestion_idempotent_witness :
    wf exStore ∧
    ((ingest_customers (ingest_customers exStore 1 exCustomerRecs).1 1
        exCustomerRecs).1 = (ingest_customers exStore 1 exCustomerRecs).1 ∧
     (ingest_products (ingest_products exStore 1 exProductRecs).1 1
        exProductRecs).1 = (ingest_products exStore 1 exProductRecs).1 ∧
     (ingest_orders (ingest_orders exStore 1 exOrderRecs).1 1 exOrderRecs).1 =
        (ingest_orders exStore 1 exOrderRecs).1) :=
  ⟨by decide,
   C1_reingestion_idempotent 1 exStore exCustomerRecs exProductRecs exOrderRecs
     (by decide)⟩

/-- C2, counterexample: a batch whose staged changes violate a uniqueness
constraint need not fail with 409.  Ingesting an external order id already
owned by another tenant stages a violating insert, and the call dies at the
unguarded `db.flush()` of main.py line 217 as an uncaught `IntegrityError`
— an HTTP 500 — never reaching the guarded commit handler: the store is
unchanged, but the claimed 409 conflict error does not occur. -/
theorem C2_conflict_counterexample :
    ¬ storeOk (stageOrders 2 exStoreC6 [⟨700, none, some 500, some "EUR", []⟩]) ∧
    (ingest_orders_http exStoreC6 2
      [⟨700, none, some 500, some "EUR", []⟩]).2 ≠ HttpStatus.conflict ∧
    ingest_orders_http exStoreC6 2 [⟨700, none, some 500, some "EUR", []⟩] =
      (exStoreC6, .serverError) :=
  ⟨by decide, by decide, by decide⟩

/-- C2 (amended): a uniqueness-violating batch is never partially applied —
on every error path the durable store is exactly the pre-call store — but
the violation does not uniformly surface as a 409 conflict.  In
`ingest_orders` and `ingest_products` every violating row dies at the
unguarded `db.flush()` (main.py lines 217 and 131) as an uncaught
`IntegrityError`, an HTTP 500, so those two endpoints never answer 409; in
`ingest_customers` a violation staged by the last record is first flushed
inside the guarded `db.commit()` and is caught, rolled back and answered
409, while one staged by an earlier record escapes at the next lookup's
autoflush as a 500. -/
theorem C2_violation_surfacing (s : Store) (tenant_id : Nat) :
    (∀ p : List OrderRecord,
      (ingest_orders_http s tenant_id p).2 ≠ HttpStatus.conflict) ∧
    (∀ p : List ProductRecord,
      (ingest_products_http s tenant_id p).2 ≠ HttpStatus.conflict) ∧
    (∀ p : List OrderRecord,
      (ingest_orders_http s tenant_id p).2 = HttpStatus.serverError →
      (ingest_orders_http s tenant_id p).1 = s) ∧
    (∀ p : List ProductRecord,
      (ingest_products_http s tenant_id p).2 = HttpStatus.serverError →
      (ingest_products_http s tenant_id p).1 = s) ∧
    (∀ p : List CustomerRecord,
      (ingest_customers_http s tenant_id p).2 = HttpStatus.serverError →
      (ingest_customers_http s tenant_id p).1 = s) ∧
    (∀ p : List CustomerRecord,
      (ingest_customers_http s tenant_id p).2 = HttpStatus.conflict →
      (ingest_customers_http s tenant_id p).1 = s) ∧
    (∀ c : CustomerRecord, tenantExists s tenant_id = true →
      customerCollides tenant_id s c = true →
      ingest_customers_http s tenant_id [c] = (s, .conflict)) ∧
    (∀ (c c2 : CustomerRecord) (cs : List CustomerRecord),
      tenantExists s tenant_id = true →
      customerCollides tenant_id s c = true →
      ingest_customers_http s tenant_id (c :: c2 :: cs) = (s, .serverError)) := by
  refine ⟨?_, ?_, ?_, ?_, ?_, ?_, ?_, ?_⟩
  · intro p h
    rcases ingest_orders_http_cases s tenant_id p with hc | hc | ⟨s2, hc⟩ <;>
      rw [hc] at h <;> exact HttpStatus.noConfusion h
  · intro p h
    rcases ingest_products_http_cases s tenant_id p with hc | hc | ⟨s2, hc⟩ <;>
      rw [hc] at h <;> exact HttpStatus.noConfusion h
  · intro p h
    rcases ingest_orders_http_cases s tenant_id p with hc | hc | ⟨s2, hc⟩ <;>
      rw [hc] at h ⊢ <;> exact HttpStatus.noConfusion h
  · intro p h
    rcases ingest_products_http_cases s tenant_id p with hc | hc | ⟨s2, hc⟩ <;>
      rw [hc] at h ⊢ <;> exact HttpStatus.noConfusion h
  · intro p h
    rcases ingest_customers_http_cases s tenant_id p
        with hc | hc | hc | ⟨s2, hc⟩ <;>
      rw [hc] at h ⊢ <;> exact HttpStatus.noConfusion h
  · intro p h
    rcases ingest_customers_http_cases s tenant_id p
        with hc | hc | hc | ⟨s2, hc⟩ <;>
      rw [hc] at h ⊢ <;> exact HttpStatus.noConfusion h
  · intro c ht hcol
    unfold ingest_customers_http
    rw [if_pos ht]
    rw [show stageCustomersF tenant_id s [c] =
      some (customerStep tenant_id s c, customerCollides tenant_id s c)
      from rfl]
    exact if_pos hcol
  · intro c c2 cs ht hcol
    have hst : stageCustomersF tenant_id s (c :: c2 :: cs) = none := by
      show (if customerCollides tenant_id s c = true then none
        else stageCustomersF tenant_id (customerStep tenant_id s c)
          (c2 :: cs)) = none
      rw [if_pos hcol]
    unfold ingest_customers_http
    rw [if_pos ht, hst]

theorem C2_violation_surfacing_witness :
    ((ingest_orders_http exStoreC6 2
        [⟨700, none, some 500, some "EUR", []⟩]).2 ≠ HttpStatus.conflict) ∧
    ((ingest_orders_http exStoreC6 2
        [⟨700, none, some 500, some "EUR", []⟩]).2 = HttpStatus.serverError ∧
      (ingest_orders_http exStoreC6 2
        [⟨700, none, some 500, some "EUR", []⟩]).1 = exStoreC6) ∧
    (tenantExists exStoreC2 1 = true ∧
      customerCollides 1 exStoreC2 ⟨101, none, none, none, none⟩ = true ∧
      ingest_customers_http exStoreC2 1 [⟨101, none, none, none, none⟩] =
        (exStoreC2, .conflict)) ∧
    ingest_customers_http exStoreC2 1
        [⟨101, none, none, none, none⟩, ⟨101, none, none, none, none⟩] =
      (exStoreC2, .serverError) :=
  ⟨(C2_violation_surfacing exStoreC6 2).1 _,
   ⟨by decide, (C2_violation_surfacing exStoreC6 2).2.2.1 _ (by decide)⟩,
   ⟨by decide, by decide,
    (C2_violation_surfacing exStoreC2 1).2.2.2.2.2.2.1 _ (by decide) (by decide)⟩,
   (C2_violation_surfacing exStoreC2 1).2.2.2.2.2.2.2 _ _ _ (by decide) (by decide)⟩

/-- If no line-item record of the loop resolves to a variant, the loop is a
no-op on the whole store. -/
theorem stageLineItems_all_skip (oid : Nat) (s : Store) (lil : List LineItemRecord)
    (h : ∀ li ∈ lil,
      rowAt ProductVariant.key li.variant_id s.product_variants = none) :
    stageLineItems oid s lil = s := by
  induction lil with
  | nil => rfl
  | cons li lil ih =>
    rw [stageLineItems, List.foldl_cons, ← stageLineItems]
    have hstep : lineItemStep oid s li = s := by
      unfold lineItemStep
      rw [h li (List.mem_cons_self _ _)]
    rw [hstep]
    exact ih (fun li' hli' => h li' (List.mem_cons_of_mem _ hli'))

/-- C3: a line-item record whose external variant id does not resolve to a
stored variant is skipped silently — the store is untouched by that record
and no error is raised — while the order itself is stored; once products
(and so the variant) have been ingested, re-ingesting the same order payload
creates the expected line-item row. -/
theorem C3_unresolved_variant_skipped :
    (∀ oid s li,
      rowAt ProductVariant.key li.variant_id s.product_variants = none →
      lineItemStep oid s li = s) ∧
    (∀ s tenant_id o, tenantExists s tenant_id = true →
      storeOk (stageOrders tenant_id s [o]) →
      (ingest_orders s tenant_id [o]).2 = .ok 1 ∧
      (rowAt Order.key (o.id, tenant_id)
        (ingest_orders s tenant_id [o]).1.orders).isSome = true ∧
      ((∀ li ∈ o.line_items,
          rowAt ProductVariant.key li.variant_id s.product_variants = none) →
        (ingest_orders s tenant_id [o]).1.order_line_items = s.order_line_items)) ∧
    (∀ s tenant_id pp v, v ∈ flatVariants pp →
      (ingest_products s tenant_id pp).2 = .ok pp.length →
      (rowAt ProductVariant.key v.id
        (ingest_products s tenant_id pp).1.product_variants).isSome = true) ∧
    (∀ s tenant_id o li dbv, o.line_items = [li] →
      rowAt ProductVariant.key li.variant_id s.product_variants = some dbv →
      tenantExists s tenant_id = true →
      storeOk (stageOrders tenant_id s [o]) →
      (rowAt OrderLineItem.key
        (orderIdAt (ingest_orders s tenant_id [o]).1 tenant_id o.id, dbv.id)
        (ingest_orders s tenant_id [o]).1.order_line_items).map
        OrderLineItem.getFields = some li.fields) := by
  refine ⟨?_, ?_, ?_, ?_⟩
  · intro oid s li h
    unfold lineItemStep
    rw [h]
  · intro s tenant_id o ht hok
    have heq : ingest_orders s tenant_id [o] =
        (stageOrders tenant_id s [o], .ok 1) := by
      unfold ingest_orders commitBatch
      rw [if_pos ht, if_pos hok]
      rfl
    rw [heq]
    refine ⟨rfl, ?_, ?_⟩
    · exact stageOrders_present tenant_id s [o] o (List.mem_cons_self _ _)
    · intro hall
      show (stageOrders tenant_id s [o]).order_line_items = s.order_line_items
      have hsingle : stageOrders tenant_id s [o] = orderStep tenant_id s o := rfl
      rw [hsingle]
      cases ho : rowAt Order.key (o.id, tenant_id) s.orders with
      | some db_order =>
        have hstep : orderStep tenant_id s o = stageLineItems db_order.id
            { s with orders := (updRow Order.key Order.setFields (o.id, tenant_id)
              ⟨o.total_price, o.currency,
                resolveCustomerId tenant_id s.customers o.customer⟩ s.orders) }
            o.line_items := by
          unfold orderStep
          rw [ho]
        have hskip := stageLineItems_all_skip db_order.id
          { s with orders := (updRow Order.key Order.setFields (o.id, tenant_id)
            ⟨o.total_price, o.currency,
              resolveCustomerId tenant_id s.customers o.customer⟩ s.orders) }
          o.line_items (fun li hli => hall li hli)
        rw [hstep, hskip]
      | none =>
        have hstep : orderStep tenant_id s o = stageLineItems
            (newOrder tenant_id
              (resolveCustomerId tenant_id s.customers o.customer) s o).id
            { s with orders := s.orders ++
              [newOrder tenant_id
                (resolveCustomerId tenant_id s.customers o.customer) s o] }
            o.line_items := by
          unfold orderStep
          rw [ho]
        have hskip := stageLineItems_all_skip
          (newOrder tenant_id
            (resolveCustomerId tenant_id s.customers o.customer) s o).id
          { s with orders := s.orders ++
            [newOrder tenant_id
              (resolveCustomerId tenant_id s.customers o.customer) s o] }
          o.line_items (fun li hli => hall li hli)
        rw [hstep, hskip]
  · intro s tenant_id pp v hv hst
    by_cases ht : tenantExists s tenant_id = true
    · by_cases hok : storeOk (stageProducts tenant_id s pp)
      · have heq : ingest_products s tenant_id pp =
            (stageProducts tenant_id s pp, .ok pp.length) := by
          unfold ingest_products commitBatch
          rw [if_pos ht, if_pos hok]
        rw [heq]
        exact stageProducts_variants_present tenant_id s pp v hv
      · have heq : ingest_products s tenant_id pp = (s, .conflict) := by
          unfold ingest_products commitBatch
          rw [if_pos ht, if_neg hok]
        rw [heq] at hst
        cases hst
    · have heq : ingest_products s tenant_id pp = (s, .notFound) := by
        unfold ingest_products
        rw [if_neg ht]
      rw [heq] at hst
      cases hst
  · intro s tenant_id o li dbv hlio hv ht hok
    have heq : ingest_orders s tenant_id [o] =
        (stageOrders tenant_id s [o], .ok 1) := by
      unfold ingest_orders commitBatch
      rw [if_pos ht, if_pos hok]
      rfl
    rw [heq]
    apply stageOrders_li_lastFields tenant_id s [o]
    rw [lastOL_cons]
    show lastL s.product_variants
      (orderIdAt (stageOrders tenant_id s [o]) tenant_id o.id) o.line_items
      (orderIdAt (stageOrders tenant_id s [o]) tenant_id o.id, dbv.id) =
      some li.fields
    rw [hlio, lastL_cons]
    show (match rowAt ProductVariant.key li.variant_id s.product_variants with
      | none => (none : Option LineItemFields)
      | some dbv' =>
        if (orderIdAt (stageOrders tenant_id s [o]) tenant_id o.id, dbv.id) =
            (orderIdAt (stageOrders tenant_id s [o]) tenant_id o.id, dbv'.id)
        then some li.fields else none) = some li.fields
    rw [hv]
    show (if (orderIdAt (stageOrders tenant_id s [o]) tenant_id o.id, dbv.id) =
        (orderIdAt (stageOrders tenant_id s [o]) tenant_id o.id, dbv.id)
      then some li.fields else none) = some li.fields
    rw [if_pos rfl]

def exStoreC3 : Store := ⟨exTenants, [], [],
  [⟨1, 1, 9001, some "Small", some 1999, some "SKU-1", some 120, some "g"⟩],
  [⟨1, 1, none, 701, some 1999, some "USD"⟩], []⟩

theorem C3_unresolved_variant_skipped_witness :
    lineItemStep 1 exStore ⟨555, some 1, some 100⟩ = exStore ∧
    (rowAt OrderLineItem.key
      (orderIdAt (ingest_orders exStoreC3 1 exOrderRecs).1 1 701, 1)
      (ingest_orders exStoreC3 1 exOrderRecs).1.order_line_items).map
      OrderLineItem.getFields =
      some (⟨9001, some 1, some 1999⟩ : LineItemRecord).fields :=
  ⟨C3_unresolved_variant_skipped.1 1 exStore ⟨555, some 1, some 100⟩ (by decide),
   C3_unresolved_variant_skipped.2.2.2 exStoreC3 1
     ⟨701, some ⟨101⟩, some 1999, some "USD", [⟨9001, some 1, some 1999⟩]⟩
     ⟨9001, some 1, some 1999⟩
     ⟨1, 1, 9001, some "Small", some 1999, some "SKU-1", some 120, some "g"⟩
     rfl (by decide) (by decide) (by decide)⟩

theorem newOrder_soid (tenant_id : Nat) (cid : Option Nat) (s : Store)
    (o : OrderRecord) :
    (newOrder tenant_id cid s o).shopify_order_id = o.id := rfl

/-- C4: an order whose embedded customer sub-record does not resolve to a
stored customer of the tenant is stored (or updated) with a null customer
reference, no error is raised, and no customer row is ever created from
order data. -/
theorem C4_null_customer_linkage (s : Store) (tenant_id : Nat) (o : OrderRecord)
    (c : OrderCustomer) (hc : o.customer = some c)
    (hmiss : rowAt Customer.key (c.id, tenant_id) s.customers = none)
    (ht : tenantExists s tenant_id = true)
    (hok : storeOk s)
    (hfree : ∀ r ∈ s.orders, r.shopify_order_id = o.id → r.tenant_id = tenant_id) :
    (ingest_orders s tenant_id [o]).2 = .ok 1 ∧
    (ingest_orders s tenant_id [o]).1.customers = s.customers ∧
    (rowAt Order.key (o.id, tenant_id)
      (ingest_orders s tenant_id [o]).1.orders).map Order.getFields =
      some ⟨o.total_price, o.currency, none⟩ := by
  have hres : resolveCustomerId tenant_id s.customers o.customer = none := by
    rw [hc]
    unfold resolveCustomerId
    show (rowAt Customer.key (c.id, tenant_id) s.customers).map (fun x => x.id) = none
    rw [hmiss]
    rfl
  have hsingle : stageOrders tenant_id s [o] = orderStep tenant_id s o := rfl
  obtain ⟨h1, h2, h3, h4, h5⟩ := hok
  have hsok : storeOk (stageOrders tenant_id s [o]) := by
    rw [hsingle]
    refine ⟨?_, ?_, ?_, ?_, ?_⟩
    · rw [(orderStep_frame tenant_id s o).1]; exact h1
    · rw [(orderStep_frame tenant_id s o).2.1]; exact h2
    · rw [(orderStep_frame tenant_id s o).2.2.1]; exact h3
    · rw [(orderStep_frame tenant_id s o).2.2.2]; exact h4
    · cases ho : rowAt Order.key (o.id, tenant_id) s.orders with
      | some db_order =>
        rw [orderStep_orders_some tenant_id s o db_order ho,
          map_updRow Order.key Order.setFields (·.shopify_order_id)
            order_soid_set _ _ _]
        exact h5
      | none =>
        rw [orderStep_orders_none tenant_id s o ho, List.map_append]
        apply List.Nodup.append h5 (List.nodup_singleton _)
        intro x hx1 hx2
        simp only [List.map_cons, List.map_nil, List.mem_singleton] at hx2
        rw [newOrder_soid] at hx2
        subst hx2
        rcases List.mem_map.mp hx1 with ⟨r, hr, hsoid⟩
        have htid := hfree r hr hsoid
        have hkey : Order.key r = (o.id, tenant_id) := by
          unfold Order.key
          rw [hsoid, htid]
        exact (rowAt_eq_none_iff Order.key (o.id, tenant_id) s.orders).mp ho r hr hkey
  have heq : ingest_orders s tenant_id [o] =
      (stageOrders tenant_id s [o], .ok 1) := by
    unfold ingest_orders commitBatch
    rw [if_pos ht, if_pos hsok]
    rfl
  rw [heq]
  refine ⟨rfl, ?_, ?_⟩
  · rw [hsingle, (orderStep_frame tenant_id s o).2.1]
  · apply stageOrders_lastFields tenant_id s [o]
    rw [lastO_cons]
    show (if ((o.id, tenant_id) : Int × Nat) = (o.id, tenant_id)
      then some (orderFieldsOf tenant_id s.customers o) else none) =
      some ⟨o.total_price, o.currency, none⟩
    rw [if_pos rfl]
    unfold orderFieldsOf
    rw [hres]

theorem C4_null_customer_linkage_witness :
    (ingest_orders exStore 1 [⟨702, some ⟨999⟩, some 500, some "USD", []⟩]).2 =
      .ok 1 ∧
    (ingest_orders exStore 1
      [⟨702, some ⟨999⟩, some 500, some "USD", []⟩]).1.customers =
      exStore.customers ∧
    (rowAt Order.key (702, 1)
      (ingest_orders exStore 1
        [⟨702, some ⟨999⟩, some 500, some "USD", []⟩]).1.orders).map
      Order.getFields = some ⟨some 500, some "USD", none⟩ :=
  C4_null_customer_linkage exStore 1 ⟨702, some ⟨999⟩, some 500, some "USD", []⟩
    ⟨999⟩ rfl (by decide) (by decide) (by decide) (by decide)

theorem orderStep_keysND_li (tenant_id : Nat) (s : Store) (o : OrderRecord)
    (hndL : keysND OrderLineItem.key s.order_line_items) :
    keysND OrderLineItem.key (orderStep tenant_id s o).order_line_items := by
  unfold orderStep
  cases ho : rowAt Order.key (o.id, tenant_id) s.orders with
  | some db_order => exact stageLineItems_keysND _ _ _ hndL
  | none => exact stageLineItems_keysND _ _ _ hndL

theorem stageOrders_keysND_li (tenant_id : Nat) (s : Store) (ol : List OrderRecord)
    (hndL : keysND OrderLineItem.key s.order_line_items) :
    keysND OrderLineItem.key (stageOrders tenant_id s ol).order_line_items := by
  induction ol generalizing s with
  | nil => exact hndL
  | cons o ol ih => exact ih _ (orderStep_keysND_li tenant_id s o hndL)

/-- C5: the store keeps at most one line-item row per
`(internal order id, internal variant id)` pair, and every order ingestion
preserves this; re-ingesting a line item for an existing pair updates its
quantity and price in place and creates no second row for the pair. -/
theorem C5_line_item_uniqueness (s : Store) (tenant_id : Nat)
    (op : List OrderRecord)
    (hnd : keysND OrderLineItem.key s.order_line_items) :
    keysND OrderLineItem.key
      ((ingest_orders s tenant_id op).1).order_line_items ∧
    (∀ oid li dbv r,
      rowAt ProductVariant.key li.variant_id s.product_variants = some dbv →
      rowAt OrderLineItem.key (oid, dbv.id) s.order_line_items = some r →
      (lineItemStep oid s li).order_line_items.length =
        s.order_line_items.length ∧
      (rowAt OrderLineItem.key (oid, dbv.id)
        (lineItemStep oid s li).order_line_items).map OrderLineItem.getFields =
        some li.fields) := by
  constructor
  · by_cases ht : tenantExists s tenant_id = true
    · by_cases hok : storeOk (stageOrders tenant_id s op)
      · have heq : ingest_orders s tenant_id op =
            (stageOrders tenant_id s op, .ok op.length) := by
          unfold ingest_orders commitBatch
          rw [if_pos ht, if_pos hok]
        rw [heq]
        exact stageOrders_keysND_li tenant_id s op hnd
      · have heq : ingest_orders s tenant_id op = (s, .conflict) := by
          unfold ingest_orders commitBatch
          rw [if_pos ht, if_neg hok]
        rw [heq]
        exact hnd
    · have heq : ingest_orders s tenant_id op = (s, .notFound) := by
        unfold ingest_orders
        rw [if_neg ht]
      rw [heq]
      exact hnd
  · intro oid li dbv r hv hp
    constructor
    · unfold lineItemStep
      rw [hv]
      simp only
      rw [hp]
      exact length_updRow OrderLineItem.key OrderLineItem.setFields _ _ _
    · exact rowAt_lineItemStep_self oid s li dbv hv

def exStoreC5 : Store := ⟨exTenants, [], [],
  [⟨1, 1, 9001, some "Small", some 1999, some "SKU-1", some 120, some "g"⟩],
  [⟨1, 1, none, 701, some 1999, some "USD"⟩],
  [⟨1, 1, 1, some 1, some 1999⟩]⟩

theorem C5_line_item_uniqueness_witness :
    keysND OrderLineItem.key
      ((ingest_orders exStoreC5 1 exOrderRecs).1).order_line_items ∧
    (lineItemStep 1 exStoreC5 ⟨9001, some 5, some 1999⟩).order_line_items.length =
      exStoreC5.order_line_items.length ∧
    (rowAt OrderLineItem.key (1, 1)
      (lineItemStep 1 exStoreC5 ⟨9001, some 5, some 1999⟩).order_line_items).map
      OrderLineItem.getFields =
      some (⟨9001, some 5, some 1999⟩ : LineItemRecord).fields :=
  ⟨(C5_line_item_uniqueness exStoreC5 1 exOrderRecs (by decide)).1,
   ((C5_line_item_uniqueness exStoreC5 1 exOrderRecs (by decide)).2 1
     ⟨9001, some 5, some 1999⟩
     ⟨1, 1, 9001, some "Small", some 1999, some "SKU-1", some 120, some "g"⟩
     ⟨1, 1, 1, some 1, some 1999⟩ (by decide) (by decide)).1,
   ((C5_line_item_uniqueness exStoreC5 1 exOrderRecs (by decide)).2 1
     ⟨9001, some 5, some 1999⟩
     ⟨1, 1, 9001, some "Small", some 1999, some "SKU-1", some 120, some "g"⟩
     ⟨1, 1, 1, some 1, some 1999⟩ (by decide) (by decide)).2⟩

/-- C6, counterexample: `shopify_order_id` is globally `unique=True` in
models.py, so ingesting an already-stored external order id under a second
tenant does not succeed — the tenant-scoped lookup misses, the staged
insert violates the global constraint at the unguarded `db.flush()` of
main.py line 217, and the call dies as an uncaught `IntegrityError` (HTTP
500) with the transaction discarded: a single order row (tenant 1's)
remains, contradicting the claimed cross-tenant coexistence. -/
theorem C6_order_key_counterexample :
    ingest_orders_http exStoreC6 2 [⟨700, none, some 500, some "EUR", []⟩] =
      (exStoreC6, .serverError) ∧
    ¬ ((ingest_orders_http exStoreC6 2
        [⟨700, none, some 500, some "EUR", []⟩]).2 = .ok 1) ∧
    exStoreC6.orders.map (·.shopify_order_id) = [700] ∧
    exStoreC6.orders.map (·.tenant_id) = [1] :=
  ⟨by decide, by decide, by decide, by decide⟩

/-- C6 (amended): the order lookup is tenant-scoped but the schema makes
the external order id globally unique, and every path of order ingestion
preserves that global uniqueness, so at most one order row exists per
external order id (hence per `(external order id, tenant_id)`); ingesting
an external order id already owned by another tenant misses the
tenant-scoped lookup, and the staged insert makes the unguarded
`db.flush()` of main.py line 217 raise an uncaught `IntegrityError`: the
call fails with a 500 rather than succeeding, and the transaction is
discarded, leaving the store unchanged. -/
theorem C6_order_external_key_global (s : Store) (tenant_id : Nat)
    (op : List OrderRecord) (hok : storeOk s) :
    storeOk ((ingest_orders_http s tenant_id op).1) ∧
    (∀ A B : Nat, ∀ o : OrderRecord, ∀ r ∈ s.orders,
      r.shopify_order_id = o.id → r.tenant_id = A → A ≠ B →
      tenantExists s B = true →
      ingest_orders_http s B [o] = (s, .serverError)) := by
  constructor
  · unfold ingest_orders_http
    by_cases ht : tenantExists s tenant_id = true
    · rw [if_pos ht]
      cases hst : stageOrdersF tenant_id s op with
      | none => exact hok
      | some s2 => exact stageOrdersF_storeOk tenant_id op s s2 hst hok
    · rw [if_neg ht]
      exact hok
  · intro A B o r hr hsoid htid hAB htB
    have hnone : rowAt Order.key (o.id, B) s.orders = none := by
      rw [rowAt_eq_none_iff]
      intro x hx hkey
      have hxsoid : x.shopify_order_id = o.id := congrArg Prod.fst hkey
      have hxt : x.tenant_id = B := congrArg Prod.snd hkey
      have hxr : x = r := List.inj_on_of_nodup_map hok.2.2.2.2 hx hr
        (by rw [hxsoid, hsoid])
      rw [hxr] at hxt
      exact hAB (htid.symm.trans hxt)
    have hmem : o.id ∈ s.orders.map (·.shopify_order_id) :=
      List.mem_map.mpr ⟨r, hr, hsoid⟩
    have hstep : orderStepF B s o = none := by
      unfold orderStepF
      rw [hnone]
      exact if_pos hmem
    have hstage : stageOrdersF B s [o] = none := by
      show (match orderStepF B s o with
        | none => none
        | some s1 => stageOrdersF B s1 []) = none
      rw [hstep]
    unfold ingest_orders_http
    rw [if_pos htB, hstage]

theorem C6_order_external_key_global_witness :
    storeOk ((ingest_orders_http exStoreC6 2
      [⟨700, none, some 500, some "EUR", []⟩]).1) ∧
    ingest_orders_http exStoreC6 2 [⟨700, none, some 500, some "EUR", []⟩] =
      (exStoreC6, .serverError) :=
  ⟨(C6_order_external_key_global exStoreC6 2
      [⟨700, none, some 500, some "EUR", []⟩] (by decide)).1,
   (C6_order_external_key_global exStoreC6 2
      [⟨700, none, some 500, some "EUR", []⟩] (by decide)).2 1 2
     ⟨700, none, some 500, some "EUR", []⟩
     ⟨1, 1, none, 700, some 1999, some "USD"⟩
     (by decide) rfl rfl (by decide) (by decide)⟩

theorem newCustomer_sid (tenant_id : Nat) (s : Store) (c : CustomerRecord) :
    (newCustomer tenant_id s c).shopify_customer_id = c.id := rfl

/-- C7: one external customer id maps to at most one customer row across all
tenants, and customer ingestion preserves this; in particular, ingesting
under tenant B a customer external id already owned by tenant A misses the
tenant-scoped lookup, stages a conflicting insert, and the batch rolls back
with a conflict. -/
theorem C7_customer_external_id_global (s : Store) (tenant_id : Nat)
    (cp : List CustomerRecord) (hok : storeOk s) :
    ((ingest_customers s tenant_id cp).1.customers.map
      (·.shopify_customer_id)).Nodup ∧
    (∀ A B : Nat, ∀ c : CustomerRecord, ∀ r ∈ s.customers,
      r.shopify_customer_id = c.id → r.tenant_id = A → A ≠ B →
      tenantExists s B = true →
      ingest_customers s B [c] = (s, .conflict)) := by
  constructor
  · by_cases ht : tenantExists s tenant_id = true
    · by_cases hst : storeOk (stageCustomers tenant_id s cp)
      · have heq : ingest_customers s tenant_id cp =
            (stageCustomers tenant_id s cp, .ok cp.length) := by
          unfold ingest_customers commitBatch
          rw [if_pos ht, if_pos hst]
        rw [heq]
        exact hst.2.1
      · have heq : ingest_customers s tenant_id cp = (s, .conflict) := by
          unfold ingest_customers commitBatch
          rw [if_pos ht, if_neg hst]
        rw [heq]
        exact hok.2.1
    · have heq : ingest_customers s tenant_id cp = (s, .notFound) := by
        unfold ingest_customers
        rw [if_neg ht]
      rw [heq]
      exact hok.2.1
  · intro A B c r hr hsid htid hAB htB
    have hnone : rowAt Customer.key (c.id, B) s.customers = none := by
      rw [rowAt_eq_none_iff]
      intro x hx hkey
      have hxsid : x.shopify_customer_id = c.id := congrArg Prod.fst hkey
      have hxt : x.tenant_id = B := congrArg Prod.snd hkey
      have hxr : x = r := List.inj_on_of_nodup_map hok.2.1 hx hr
        (by rw [hxsid, hsid])
      rw [hxr] at hxt
      exact hAB (htid.symm.trans hxt)
    have hmem : c.id ∈ s.customers.map (·.shopify_customer_id) :=
      List.mem_map.mpr ⟨r, hr, hsid⟩
    have hbad : ¬ storeOk (stageCustomers B s [c]) := by
      intro hs
      have h2 := hs.2.1
      rw [show stageCustomers B s [c] = customerStep B s c from rfl,
        customerStep_customers_none B s c hnone, List.map_append] at h2
      rcases List.nodup_append.mp h2 with ⟨_, _, hdisj⟩
      exact hdisj hmem (by
        rw [show (List.map (·.shopify_customer_id) [newCustomer B s c]) =
          [c.id] from rfl]
        exact List.mem_singleton.mpr rfl)
    unfold ingest_customers commitBatch
    rw [if_pos htB, if_neg hbad]

theorem C7_customer_external_id_global_witness :
    ((ingest_customers exStoreC2 1 exCustomerRecs).1.customers.map
      (·.shopify_customer_id)).Nodup ∧
    ingest_customers exStoreC2 1 exCustomerRecs = (exStoreC2, .conflict) :=
  ⟨(C7_customer_external_id_global exStoreC2 1 exCustomerRecs (by decide)).1,
   (C7_customer_external_id_global exStoreC2 1 exCustomerRecs (by decide)).2 2 1
     ⟨101, some "Ann", some "Lee", some "ann@example.com", none⟩
     ⟨1, 2, 101, none, none, none, none⟩
     (by decide) rfl rfl (by decide) (by decide)⟩

/-- C8: during product ingestion a nested variant record is resolved by
external variant id alone — no tenant or product scoping — so a variant
with that external id anywhere in the store is updated in place with no new
row, while a new variant linked to the resolved internal product id is
created only when no row with that external id exists. -/
theorem C8_variant_upsert_global (pid : Nat) (s : Store) (v : VariantRecord) :
    (∀ r, rowAt ProductVariant.key v.id s.product_variants = some r →
      (variantStep pid s v).product_variants.length =
        s.product_variants.length ∧
      (rowAt ProductVariant.key v.id (variantStep pid s v).product_variants).map
        ProductVariant.getFields = some v.fields) ∧
    (rowAt ProductVariant.key v.id s.product_variants = none →
      (variantStep pid s v).product_variants =
        s.product_variants ++ [newVariant pid s v] ∧
      (newVariant pid s v).product_id = pid) := by
  constructor
  · intro r h
    constructor
    · unfold variantStep
      rw [h]
      exact length_updRow ProductVariant.key ProductVariant.setFields _ _ _
    · exact rowAt_variantStep_self pid s v
  · intro h
    constructor
    · unfold variantStep
      rw [h]
    · rfl

theorem C8_variant_upsert_global_witness :
    ((variantStep 7 exStoreC5 ⟨9001, some "New", some 2599, some "SKU-9",
        some 100, some "kg"⟩).product_variants.length =
      exStoreC5.product_variants.length ∧
     (rowAt ProductVariant.key 9001
        (variantStep 7 exStoreC5 ⟨9001, some "New", some 2599, some "SKU-9",
          some 100, some "kg"⟩).product_variants).map ProductVariant.getFields =
      some (⟨9001, some "New", some 2599, some "SKU-9", some 100, some "kg"⟩ :
        VariantRecord).fields) ∧
    ((variantStep 7 exStoreC5 ⟨9002, some "Tall", some 2999, some "SKU-2",
        some 130, some "g"⟩).product_variants =
      exStoreC5.product_variants ++
        [newVariant 7 exStoreC5 ⟨9002, some "Tall", some 2999, some "SKU-2",
          some 130, some "g"⟩] ∧
     (newVariant 7 exStoreC5 ⟨9002, some "Tall", some 2999, some "SKU-2",
        some 130, some "g"⟩).product_id = 7) :=
  ⟨(C8_variant_upsert_global 7 exStoreC5
      ⟨9001, some "New", some 2599, some "SKU-9", some 100, some "kg"⟩).1
      ⟨1, 1, 9001, some "Small", some 1999, some "SKU-1", some 120, some "g"⟩
      (by decide),
   (C8_variant_upsert_global 7 exStoreC5
      ⟨9002, some "Tall", some 2999, some "SKU-2", some 130, some "g"⟩).2
      (by decide)⟩

/-- C9: money columns are fixed-point with two fractional digits, never
floating point: "19.99" parses to exactly 1999 hundredths, 1999 hundredths
renders back as "19.99", and after any number of repeated upserts of the
same variant record the stored price is exactly the payload's value — no
rounding drift. -/
theorem C9_money_fixed_point :
    parseDecimal2 "19.99" = some 1999 ∧
    formatDecimal2 1999 = "19.99" ∧
    (∀ (pid : Nat) (s : Store) (v : VariantRecord) (n : Nat),
      (rowAt ProductVariant.key v.id
        (((fun t => variantStep pid t v)^[n + 1]) s).product_variants).map
        (·.price) = some v.price) := by
  refine ⟨by decide, by decide, ?_⟩
  intro pid s v n
  rw [Function.iterate_succ_apply']
  have h := rowAt_variantStep_self pid (((fun t => variantStep pid t v)^[n]) s) v
  cases hr : rowAt ProductVariant.key v.id
      (variantStep pid (((fun t => variantStep pid t v)^[n]) s) v).product_variants with
  | none => rw [hr] at h; cases h
  | some r =>
    rw [hr] at h
    have hf : ProductVariant.getFields r = v.fields := Option.some.inj h
    have hp : r.price = v.price := congrArg VariantFields.price hf
    exact congrArg some hp

/-- C10: when product ingestion resolves an existing variant by external
variant id, only title, price, sku, weight and weight_unit are updated; the
variant's `product_id` parent link (and its internal id) are left unchanged,
whatever product the incoming payload embeds the variant under. -/
theorem C10_variant_update_keeps_parent (pid : Nat) (s : Store)
    (v : VariantRecord) (r : ProductVariant)
    (h : rowAt ProductVariant.key v.id s.product_variants = some r) :
    rowAt ProductVariant.key v.id (variantStep pid s v).product_variants =
      some (ProductVariant.setFields v.fields r) ∧
    (ProductVariant.setFields v.fields r).product_id = r.product_id ∧
    (ProductVariant.setFields v.fields r).id = r.id ∧
    ProductVariant.setFields v.fields r =
      { r with title := v.title, price := v.price, sku := v.sku,
               weight := v.weight, weight_unit := v.weight_unit } := by
  refine ⟨?_, rfl, rfl, rfl⟩
  unfold variantStep
  rw [h]
  simp only
  rw [rowAt_updRow_self ProductVariant.key ProductVariant.setFields
    variant_key_set, h]
  rfl

theorem C10_variant_update_keeps_parent_witness :
    rowAt ProductVariant.key 9001
      (variantStep 42 exStoreC5 ⟨9001, some "New", some 2599, some "SKU-9",
        some 100, some "kg"⟩).product_variants =
      some (ProductVariant.setFields
        (⟨9001, some "New", some 2599, some "SKU-9", some 100, some "kg"⟩ :
          VariantRecord).fields
        ⟨1, 1, 9001, some "Small", some 1999, some "SKU-1", some 120, some "g"⟩) ∧
    (ProductVariant.setFields
      (⟨9001, some "New", some 2599, some "SKU-9", some 100, some "kg"⟩ :
        VariantRecord).fields
      ⟨1, 1, 9001, some "Small", some 1999, some "SKU-1", some 120,
        some "g"⟩).product_id = 1 :=
  ⟨(C10_variant_update_keeps_parent 42 exStoreC5
      ⟨9001, some "New", some 2599, some "SKU-9", some 100, some "kg"⟩
      ⟨1, 1, 9001, some "Small", some 1999, some "SKU-1", some 120, some "g"⟩
      (by decide)).1,
   (C10_variant_update_keeps_parent 42 exStoreC5
      ⟨9001, some "New", some 2599, some "SKU-9", some 100, some "kg"⟩
      ⟨1, 1, 9001, some "Small", some 1999, some "SKU-1", some 120, some "g"⟩
      (by decide)).2.1⟩
